import Mathlib

/-!
# Page allocator (`main.cpp`): shallow embedding

The allocator manages one static byte array `memory` of `MEMORY_SIZE` bytes cut
into pages of `PAGE_SIZE` bytes.  The global variables of the program
(`startPointer`, `memory`, `freePages`, `headers`, `classifiedPages`) are the
fields of `State`; every function of the program that touches them takes the
state and gives the new state back.

* Pointers are 64-bit words: a `Nat` below `WORD`, `0` is `nullptr`, pointer
  arithmetic wraps modulo `WORD`.
* The array `memory` lives at address `startPointer`; `State.memory` is
  indexed by the offset into the array.  A read or write through a pointer
  outside the array has no defined result.
* `std::map::operator[]` inserts a value-initialised entry when the key is
  absent; the maps therefore are functions into `Option`, and every
  `operator[]` access of the source is a `touch` here.
* A call whose behaviour is undefined in C++ (out-of-bounds access,
  `erase(end())`, signed overflow, the end of a non-void function reached
  without a `return`, a loop that never ends) gives `none`.
-/

namespace PageAllocator

/-! ## Constants -/

def PAGE_SIZE : Nat := 4096
def MEMORY_SIZE : Nat := 16384
/-- The value of `ceil(MEMORY_SIZE / PAGE_SIZE)`. -/
def PAGE_AMOUNT : Nat := 4
def MIN_CLASS_SIZE : Nat := 16
def BLOCK_HEADER_SIZE : Nat := 1
/-- Number of values of a `size_t` or of a pointer: `2^64`. -/
def WORD : Nat := 18446744073709551616
/-- Largest value of an `int`: `2^31 - 1`. -/
def INT_MAX : Nat := 2147483647
/-- Bound on the iterations of a loop that walks the array without leaving it. -/
def LOOP_FUEL : Nat := 16385

/-! ## Data model -/

inductive pageStatus where
  | Free
  | Divided
  | MultipageBlock
  deriving DecidableEq, Repr

structure memoryPageHeader where
  status : pageStatus
  classSize : Nat
  availableBlock : Nat
  deriving DecidableEq, Repr

structure State where
  startPointer : Nat
  memory : Nat → Nat
  freePages : List Nat
  headers : Nat → Option memoryPageHeader
  classifiedPages : Int → Option (List Nat)

/-- Pointer plus offset, modulo the word size. -/
def ptrAdd (p n : Nat) : Nat := (p + n) % WORD

/-- Pointer minus offset, modulo the word size. -/
def ptrSub (p n : Nat) : Nat := (p + WORD - n % WORD) % WORD

/-- Conversion of a `size_t` to `int` (the key type of `classifiedPages`). -/
def toInt (n : Nat) : Int :=
  if n % 4294967296 ≤ INT_MAX then ((n % 4294967296 : Nat) : Int)
  else ((n % 4294967296 : Nat) : Int) - 4294967296

/-- The state of the globals before `main` runs: the array is zero-filled and
the containers are empty. -/
def staticState : State :=
  { startPointer := 0
    memory := fun _ => 0
    freePages := []
    headers := fun _ => none
    classifiedPages := fun _ => none }

/-- Value-initialised header, the entry `operator[]` inserts for a new key. -/
def defaultHeader : memoryPageHeader := ⟨pageStatus.Free, 0, 0⟩

/-- The header `headers[p]` evaluates to. -/
def headerAt (s : State) (p : Nat) : memoryPageHeader :=
  (s.headers p).getD defaultHeader

/-- Effect of evaluating `headers[p]` on the map. -/
def touchHeader (s : State) (p : Nat) : State :=
  { s with headers := fun k => if k = p then some (headerAt s p) else s.headers k }

/-- The vector `classifiedPages[k]` evaluates to. -/
def bucket (s : State) (k : Int) : List Nat :=
  (s.classifiedPages k).getD []

/-- Assignment of a whole vector to `classifiedPages[k]`. -/
def setBucket (s : State) (k : Int) (l : List Nat) : State :=
  { s with classifiedPages := fun j => if j = k then some l else s.classifiedPages j }

/-- Effect of evaluating `classifiedPages[k]` on the map. -/
def touchBucket (s : State) (k : Int) : State :=
  setBucket s k (bucket s k)

/-- Read of the byte `*p`. -/
def readByte (s : State) (p : Nat) : Option Nat :=
  if s.startPointer ≤ p ∧ p < s.startPointer + MEMORY_SIZE then
    some (s.memory (p - s.startPointer))
  else none

/-- Write `*p = v`. -/
def writeByte (s : State) (p v : Nat) : Option State :=
  if s.startPointer ≤ p ∧ p < s.startPointer + MEMORY_SIZE then
    some { s with memory := fun i => if i = p - s.startPointer then v else s.memory i }
  else none

/-! ## The functions of `main.cpp` -/

/-- First loop of `initializePages`: `i` runs from its start value while below
`PAGE_AMOUNT`; `headers.insert` keeps an entry that is already there. -/
def initPagesLoop : Nat → Nat → State → State
  | 0, _, s => s
  | fuel + 1, i, s =>
    if i < PAGE_AMOUNT then
      let pagePointer := ptrAdd s.startPointer (PAGE_SIZE * i)
      let s1 := { s with freePages := s.freePages ++ [pagePointer] }
      let s2 := { s1 with headers := fun k =>
          if k = pagePointer then some ((s1.headers k).getD defaultHeader) else s1.headers k }
      initPagesLoop fuel (i + 1) s2
    else s

/-- Second loop of `initializePages`: one empty bucket per class size. -/
def initClassesLoop : Nat → Nat → State → State
  | 0, _, s => s
  | fuel + 1, classSize, s =>
    if classSize ≤ PAGE_SIZE / 2 then
      initClassesLoop fuel (classSize * 2)
        { s with classifiedPages := fun j =>
            if j = (classSize : Int) then some ((s.classifiedPages j).getD [])
            else s.classifiedPages j }
    else s

/-- Translation of `initializePages`; `memoryAddr` is the address of the array. -/
def initializePages (memoryAddr : Nat) (s : State) : State :=
  let s0 := { s with startPointer := memoryAddr }
  let s1 := initPagesLoop (PAGE_AMOUNT + 1) 0 s0
  initClassesLoop PAGE_SIZE MIN_CLASS_SIZE s1

/-- Loop of `powerOfTwoAligment` from a given `minValue`. -/
def powerOfTwoLoop (number : Nat) : Nat → Nat → Option Nat
  | 0, _ => none
  | fuel + 1, minValue =>
    if minValue ≤ number then powerOfTwoLoop number fuel ((minValue * 2) % WORD)
    else some minValue

/-- Translation of `powerOfTwoAligment`.  After 64 doublings `minValue` is `0`
and stays `0`, so a loop still running after 65 tests never ends. -/
def powerOfTwoAligment (number : Nat) : Option Nat :=
  powerOfTwoLoop number 66 1

def setPageHeader (s : State) (pagePointer : Nat) (status : pageStatus)
    (blockPointer : Nat) (classSize : Nat) : State :=
  { s with headers := fun k =>
      if k = pagePointer then some ⟨status, classSize, blockPointer⟩ else s.headers k }

/-- The assignment `headers[page].availableBlock = blockPointer`. -/
def setAvailableBlock (s : State) (page blockPointer : Nat) : State :=
  { s with headers := fun k =>
      if k = page then
        some ⟨(headerAt s page).status, (headerAt s page).classSize, blockPointer⟩
      else s.headers k }

def setBlockHeader (s : State) (blockPointer : Nat) (status : Bool) : Option State :=
  writeByte s blockPointer (if status then 1 else 0)

/-- Loop of `anyFreeBlock`. -/
def anyFreeBlockLoop (s : State) (endPointer classSize : Nat) : Nat → Nat → Option Nat
  | 0, _ => none
  | fuel + 1, cursor =>
    if cursor = endPointer then some 0
    else
      match readByte s cursor with
      | none => none
      | some b =>
        if b ≠ 0 then some (ptrAdd cursor BLOCK_HEADER_SIZE)
        else anyFreeBlockLoop s endPointer classSize fuel (ptrAdd cursor classSize)

def anyFreeBlock (s : State) (pagePointer classSize : Nat) : Option Nat :=
  anyFreeBlockLoop s (ptrAdd pagePointer PAGE_SIZE) classSize LOOP_FUEL pagePointer

/-- Loop of `isEveryBlockFree`. -/
def isEveryBlockFreeLoop (s : State) (endPointer classSize : Nat) : Nat → Nat → Option Bool
  | 0, _ => none
  | fuel + 1, cursor =>
    if cursor = endPointer then some true
    else
      match readByte s cursor with
      | none => none
      | some b =>
        if b = 0 then some false
        else isEveryBlockFreeLoop s endPointer classSize fuel (ptrAdd cursor classSize)

def isEveryBlockFree (s : State) (pagePointer classSize : Nat) : Option Bool :=
  isEveryBlockFreeLoop s (ptrAdd pagePointer PAGE_SIZE) classSize LOOP_FUEL pagePointer

/-- Loop of `setBlocksSize` that marks every block of the page free. -/
def setFlagsLoop (endPointer classSize : Nat) : Nat → Nat → State → Option State
  | 0, _, _ => none
  | fuel + 1, cursor, s =>
    if cursor = endPointer then some s
    else
      match writeByte s cursor 1 with
      | none => none
      | some s1 => setFlagsLoop endPointer classSize fuel (ptrAdd cursor classSize) s1

def setBlocksSize (s : State) (classSize : Nat) : Option (Bool × State) :=
  match s.freePages with
  | [] => some (false, s)
  | freePage :: _ =>
    match setFlagsLoop (ptrAdd freePage PAGE_SIZE) classSize LOOP_FUEL freePage s with
    | none => none
    | some s1 =>
      let s2 := { s1 with freePages := s1.freePages.tail }
      let s3 := setPageHeader s2 freePage pageStatus.Divided
        (ptrAdd freePage BLOCK_HEADER_SIZE) classSize
      let s4 := setBucket s3 (toInt classSize) (bucket s3 (toInt classSize) ++ [freePage])
      some (true, s4)

/-- The value of `int pagesNeeded = ceil((double)size / PAGE_SIZE)`.  The
quotient is exact for every size whose page count fits an `int`; a larger
value cannot be converted. -/
def pagesNeededOf (size : Nat) : Option Nat :=
  if (size + (PAGE_SIZE - 1)) / PAGE_SIZE ≤ INT_MAX then
    some ((size + (PAGE_SIZE - 1)) / PAGE_SIZE)
  else none

/-- Loop of the multi-page branch of `mem_alloc`.  The first argument counts
the iterations still to run, so the current `i` is `pagesNeeded` minus that
count plus one, and `i == pagesNeeded` in the last iteration, when `more = 0`. -/
def allocChainLoop (pagesNeeded : Nat) : Nat → State → Option State
  | 0, s => some s
  | more + 1, s =>
    match s.freePages with
    | [] => none
    | page :: rest =>
      if pagesNeeded * PAGE_SIZE > INT_MAX then none
      else if more = 0 then
        let s1 := setPageHeader s page pageStatus.MultipageBlock 0 (pagesNeeded * PAGE_SIZE)
        allocChainLoop pagesNeeded more { s1 with freePages := s1.freePages.tail }
      else
        match rest with
        | [] => none
        | nextPage :: _ =>
          let s1 := setPageHeader s page pageStatus.MultipageBlock
            (ptrAdd nextPage BLOCK_HEADER_SIZE) (pagesNeeded * PAGE_SIZE)
          allocChainLoop pagesNeeded more { s1 with freePages := s1.freePages.tail }

/-- Lines 140-154 of `mem_alloc`: hand out the block `availableBlock` of the
first page of the bucket, then look for the next free block of that page. -/
def allocFromBucket (s : State) (classSize : Nat) : Option (Nat × State) :=
  let s1 := touchBucket s (toInt classSize)
  match bucket s1 (toInt classSize) with
  | [] => none
  | page :: _ =>
    let s2 := touchHeader s1 page
    let pointer := (headerAt s2 page).availableBlock
    match setBlockHeader s2 (ptrSub pointer BLOCK_HEADER_SIZE) false with
    | none => none
    | some s3 =>
      match anyFreeBlock s3 page classSize with
      | none => none
      | some freeBlock =>
        if freeBlock ≠ 0 then some (pointer, setAvailableBlock s3 page freeBlock)
        else if page ∈ bucket s3 (toInt classSize) then
          some (pointer,
            setBucket s3 (toInt classSize) ((bucket s3 (toInt classSize)).erase page))
        else none

/-- Translation of `mem_alloc`: the returned pointer and the new state. -/
def mem_alloc (s : State) (size : Nat) : Option (Nat × State) :=
  if size = 0 then some (0, s)
  else if size ≤ PAGE_SIZE / 2 then
    match powerOfTwoAligment (ptrAdd size BLOCK_HEADER_SIZE) with
    | none => none
    | some classSize =>
      let s1 := touchBucket s (toInt classSize)
      let carved : Option (Bool × State) :=
        if (bucket s1 (toInt classSize)).isEmpty then setBlocksSize s1 classSize
        else some (true, s1)
      match carved with
      | none => none
      | some (false, s2) => some (0, s2)
      | some (true, s2) => allocFromBucket s2 classSize
  else
    match pagesNeededOf size with
    | none => none
    | some pagesNeeded =>
      if s.freePages.length < pagesNeeded then some (0, s)
      else
        match s.freePages with
        | [] => none
        | pointer :: _ =>
          match allocChainLoop pagesNeeded pagesNeeded s with
          | none => none
          | some s1 => some (pointer, s1)

/-- Loop of the multi-page branch of `mem_free`. -/
def freeChainLoop : Nat → Nat → State → State
  | 0, _, s => s
  | n + 1, page, s =>
    let s1 := touchHeader s page
    let nextPage := ptrSub (headerAt s1 page).availableBlock BLOCK_HEADER_SIZE
    let s2 := setPageHeader s1 page pageStatus.Free 0 0
    let s3 := { s2 with freePages := s2.freePages ++ [page] }
    freeChainLoop n nextPage s3

/-- The `Divided` branch of `mem_free`. -/
def freeDivided (s : State) (addr page : Nat) : Option State :=
  match writeByte s (ptrSub addr BLOCK_HEADER_SIZE) 1 with
  | none => none
  | some s1 =>
    match isEveryBlockFree s1 page (headerAt s1 page).classSize with
    | none => none
    | some every =>
      let released : Option State :=
        if every then
          let key := toInt (headerAt s1 page).classSize
          let s2 := touchBucket s1 key
          if page ∈ bucket s2 key then
            let s3 := setBucket s2 key ((bucket s2 key).erase page)
            let s4 := setPageHeader s3 page pageStatus.Free 0 0
            some { s4 with freePages := s4.freePages ++ [page] }
          else none
        else some s1
      match released with
      | none => none
      | some s5 =>
        let key := toInt (headerAt s5 page).classSize
        let s6 := touchBucket s5 key
        if page ∈ bucket s6 key then some s6
        else some (setBucket s6 key (bucket s6 key ++ [page]))

/-- Translation of `mem_free`. -/
def mem_free (s : State) (addr : Nat) : Option State :=
  if addr = 0 then some s
  else if addr < s.startPointer ∨ addr > ptrAdd s.startPointer MEMORY_SIZE then some s
  else
    let pageIndex := (addr - s.startPointer) / PAGE_SIZE
    let page := ptrAdd s.startPointer (pageIndex * PAGE_SIZE)
    let s0 := touchHeader s page
    let amountOfPages := (headerAt s0 page).classSize / PAGE_SIZE
    let afterDivided : Option State :=
      if (headerAt s0 page).status = pageStatus.Divided then freeDivided s0 addr page
      else some s0
    match afterDivided with
    | none => none
    | some s1 =>
      if (headerAt s1 page).status = pageStatus.MultipageBlock then
        if amountOfPages > INT_MAX then none
        else some (freeChainLoop amountOfPages page s1)
      else some s1

/-- Loop of the growing branch of `mem_realloc` (lines 289-306).  The first
argument counts the iterations still to run, `i` is the loop variable and
`page` the local variable `page`. -/
def growLoop (amountOfPagesOld pagesNeeded : Nat) : Nat → Nat → Nat → State → Option State
  | 0, _, _, s => some s
  | more + 1, i, page, s =>
    let s1 := touchHeader s page
    let nextPage := ptrSub (headerAt s1 page).availableBlock BLOCK_HEADER_SIZE
    if i ≥ amountOfPagesOld then
      match s1.freePages with
      | [] => none
      | page1 :: rest =>
        if pagesNeeded = i then
          let s2 := setPageHeader s1 page1 pageStatus.MultipageBlock 0
            (pagesNeeded * PAGE_SIZE)
          growLoop amountOfPagesOld pagesNeeded more (i + 1) 0
            { s2 with freePages := s2.freePages.tail }
        else
          match rest with
          | [] => none
          | nextPage1 :: _ =>
            let s2 := setPageHeader s1 page1 pageStatus.MultipageBlock
              (ptrAdd nextPage1 BLOCK_HEADER_SIZE) (pagesNeeded * PAGE_SIZE)
            growLoop amountOfPagesOld pagesNeeded more (i + 1) nextPage1
              { s2 with freePages := s2.freePages.tail }
    else growLoop amountOfPagesOld pagesNeeded more (i + 1) nextPage s1

/-- Loop of the shrinking branch of `mem_realloc` (lines 312-333). -/
def shrinkLoop (pagesNeeded : Nat) : Nat → Nat → Nat → State → State
  | 0, _, _, s => s
  | more + 1, i, page, s =>
    let s1 := touchHeader s page
    let nextPage := ptrSub (headerAt s1 page).availableBlock BLOCK_HEADER_SIZE
    let s2 :=
      if i > pagesNeeded then
        let s3 := setPageHeader s1 page pageStatus.Free 0 0
        { s3 with freePages := s3.freePages ++ [page] }
      else if i ≠ pagesNeeded then
        setPageHeader s1 page pageStatus.MultipageBlock
          (ptrAdd nextPage BLOCK_HEADER_SIZE) (PAGE_SIZE * pagesNeeded)
      else setPageHeader s1 page pageStatus.MultipageBlock 0 (PAGE_SIZE * pagesNeeded)
    shrinkLoop pagesNeeded more (i + 1) nextPage s2

/-- Translation of `mem_realloc`: the returned pointer and the new state.  When
the page of the address is `Free` control reaches the end of the function
without a `return`, which is undefined.  The `double` variables
`amountOfPagesOld` and `pagesNeeded` hold quotients of `size_t` values by
`PAGE_SIZE` (the division of line 264 is an integer division, its `ceil` does
nothing), which are below `2^53` and therefore exact; they are natural numbers
here.  The loop variable `i` is an `int`: a loop of `INT_MAX` or more
iterations overflows it. -/
def mem_realloc (s : State) (addr size : Nat) : Option (Nat × State) :=
  if addr = 0 then mem_alloc s size
  else if addr < s.startPointer ∨ addr > ptrAdd s.startPointer MEMORY_SIZE then some (0, s)
  else
    let pageIndex := (addr - s.startPointer) / PAGE_SIZE
    let page := ptrAdd s.startPointer (pageIndex * PAGE_SIZE)
    let s0 := touchHeader s page
    if (headerAt s0 page).status = pageStatus.Divided then
      match powerOfTwoAligment size with
      | none => none
      | some classSize =>
        if (headerAt s0 page).classSize = classSize then some (addr, s0)
        else
          match mem_alloc s0 size with
          | none => none
          | some (pointer, s1) =>
            if pointer ≠ 0 then
              match mem_free s1 addr with
              | none => none
              | some s2 => some (pointer, s2)
            else some (addr, s1)
    else if (headerAt s0 page).status = pageStatus.MultipageBlock then
      let amountOfPagesOld := (headerAt s0 page).classSize / PAGE_SIZE
      match powerOfTwoAligment size with
      | none => none
      | some aligned =>
        let pagesNeeded := aligned / PAGE_SIZE
        if amountOfPagesOld = pagesNeeded then some (addr, s0)
        else if size ≤ PAGE_SIZE / 2 then
          match mem_free s0 addr with
          | none => none
          | some s1 => mem_alloc s1 size
        else if amountOfPagesOld < pagesNeeded then
          if pagesNeeded - amountOfPagesOld > s0.freePages.length then some (0, s0)
          else if pagesNeeded ≥ INT_MAX then none
          else
            match growLoop amountOfPagesOld pagesNeeded pagesNeeded 1 page s0 with
            | none => none
            | some s1 => some (addr, s1)
        else if amountOfPagesOld ≥ INT_MAX then none
        else some (addr, shrinkLoop pagesNeeded amountOfPagesOld 1 page s0)
    else none

/-! ## Runs of the allocator -/

/-- The state `main` sees after `initializePages()`, the array being at
address `memoryAddr`. -/
def freshState (memoryAddr : Nat) : State :=
  initializePages memoryAddr staticState

/-- A call of the public interface. -/
inductive Call where
  | alloc (size : Nat)
  | free (addr : Nat)
  deriving DecidableEq, Repr

/-- Allocator state together with the allocations that are live: the pairs
(address, requested size) returned by `mem_alloc` and not freed since. -/
structure Sys where
  state : State
  live : List (Nat × Nat)

/-- One call by a client that frees only live addresses.  The result is `none`
when the call is not allowed (a size that is no `size_t`, a free of an address
that is not live) or when the behaviour of the call is undefined.  A free takes
the address out of the live list altogether: the address is live again only
when `mem_alloc` returns it again. -/
def step (x : Sys) : Call → Option Sys
  | Call.alloc size =>
    if size < WORD then
      match mem_alloc x.state size with
      | none => none
      | some (p, s1) => some ⟨s1, if p = 0 then x.live else x.live ++ [(p, size)]⟩
    else none
  | Call.free addr =>
    if addr ∈ x.live.map Prod.fst then
      match mem_free x.state addr with
      | none => none
      | some s1 => some ⟨s1, x.live.filter (fun e => e.1 ≠ addr)⟩
    else none

/-- A sequence of calls, left to right. -/
def run : List Call → Sys → Option Sys
  | [], x => some x
  | c :: cs, x =>
    match step x c with
    | none => none
    | some x1 => run cs x1

/-- The system right after initialisation. -/
def initSys (memoryAddr : Nat) : Sys := ⟨freshState memoryAddr, []⟩

/-- The allocator state after a run from the initial state (the state before
`initializePages` when the run is not defined). -/
def stateAfter (cs : List Call) (memoryAddr : Nat) : State :=
  match run cs (initSys memoryAddr) with
  | some x => x.state
  | none => staticState

/-- The four page addresses of an array at `b`, in address order. -/
def pagesOf (b : Nat) : List Nat :=
  [b, b + PAGE_SIZE, b + 2 * PAGE_SIZE, b + 3 * PAGE_SIZE]

/-- The pages met by following the chain links from `page` the way `mem_free`
does (next page = link minus the header size), until a null link; at most
`fuel` pages. -/
def chainFrom (s : State) : Nat → Nat → List Nat
  | 0, _ => []
  | fuel + 1, page =>
    page :: (if (headerAt s page).availableBlock = 0 then []
      else chainFrom s fuel (ptrSub (headerAt s page).availableBlock BLOCK_HEADER_SIZE))

/-- The class sizes `mem_alloc` computes for the sizes of its first branch. -/
def classSizes : List Nat := [4, 8, 16, 32, 64, 128, 256, 512, 1024, 2048, 4096]

/-- The pages of the list are linked into one multi-page block of `total`
bytes: each header is `MultipageBlock` with class size `total`, each page but
the last points one byte into the next page, the last one has a null link. -/
def chainLinked (s : State) (total : Nat) : List Nat → Prop
  | [] => True
  | [q] => headerAt s q = ⟨pageStatus.MultipageBlock, total, 0⟩
  | q :: q' :: r =>
    headerAt s q = ⟨pageStatus.MultipageBlock, total, ptrAdd q' BLOCK_HEADER_SIZE⟩
      ∧ chainLinked s total (q' :: r)

/-! ## The invariant of the reachable states -/

/-- The page an address of the array lies in, the way `mem_free` computes it. -/
def pageOf (b a : Nat) : Nat := b + (a - b) / PAGE_SIZE * PAGE_SIZE

/-- The flag byte of the block at offset `o` of page `p` reads as free. -/
def flagFree (s : State) (p o : Nat) : Prop :=
  s.memory (p - s.startPointer + o) ≠ 0

/-- The live addresses. -/
def addrs (x : Sys) : List Nat := x.live.map Prod.fst

/-- Page `p` has a block whose flag byte reads as busy. -/
def hasBusy (s : State) (p : Nat) : Prop :=
  ∃ o, o < 4096 ∧ (headerAt s p).classSize ∣ o ∧ ¬ flagFree s p o

/-- What holds between any two calls of the allocator state `s`, of the list
`live` of the live addresses and of the list `chains` of the multi-page blocks
in use.  It does not say that a divided page has a busy block (`hasBusy`),
which fails for a moment inside `mem_alloc`. -/
structure InvCore (s : State) (live : List Nat) (chains : List (List Nat)) : Prop where
  base_pos : 0 < s.startPointer
  base_lt : s.startPointer + MEMORY_SIZE < WORD
  hdr_some : ∀ p ∈ pagesOf s.startPointer, (s.headers p).isSome = true
  pool_nodup : s.freePages.Nodup
  pool_iff : ∀ p, p ∈ s.freePages ↔
    p ∈ pagesOf s.startPointer ∧ (headerAt s p).status = pageStatus.Free
  free_hdr : ∀ p ∈ pagesOf s.startPointer,
    (headerAt s p).status = pageStatus.Free → headerAt s p = ⟨pageStatus.Free, 0, 0⟩
  div_class : ∀ p ∈ pagesOf s.startPointer,
    (headerAt s p).status = pageStatus.Divided → (headerAt s p).classSize ∈ classSizes
  div_cursor : ∀ p ∈ pagesOf s.startPointer,
    (headerAt s p).status = pageStatus.Divided →
      ∃ o, o < 4096 ∧ (headerAt s p).classSize ∣ o
        ∧ (headerAt s p).availableBlock = p + o + 1
  div_bucket : ∀ p ∈ pagesOf s.startPointer,
    (headerAt s p).status = pageStatus.Divided →
      (p ∈ bucket s ((headerAt s p).classSize : Int) ↔
        ∃ o, o < 4096 ∧ (headerAt s p).classSize ∣ o ∧ flagFree s p o)
  bucket_pages : ∀ k : Int, k ≠ 0 → ∀ p ∈ bucket s k,
    p ∈ pagesOf s.startPointer ∧ (headerAt s p).status = pageStatus.Divided
      ∧ ((headerAt s p).classSize : Int) = k
  bucket_nodup : ∀ k : Int, k ≠ 0 → (bucket s k).Nodup
  live_arena : ∀ a ∈ live,
    s.startPointer ≤ a ∧ a < s.startPointer + MEMORY_SIZE
      ∧ (headerAt s (pageOf s.startPointer a)).status ≠ pageStatus.Free
  live_div : ∀ a ∈ live,
    (headerAt s (pageOf s.startPointer a)).status = pageStatus.Divided →
      ∃ o, o < 4096 ∧ (headerAt s (pageOf s.startPointer a)).classSize ∣ o
        ∧ a = pageOf s.startPointer a + o + 1
        ∧ ¬ flagFree s (pageOf s.startPointer a) o
  busy_live : ∀ p ∈ pagesOf s.startPointer,
    (headerAt s p).status = pageStatus.Divided →
      ∀ o, o < 4096 → (headerAt s p).classSize ∣ o → ¬ flagFree s p o → p + o + 1 ∈ live
  live_multi : ∀ a ∈ live,
    (headerAt s (pageOf s.startPointer a)).status = pageStatus.MultipageBlock →
      ∃ ch ∈ chains, ch.head? = some a
  chains_nodup : ∀ ch ∈ chains, ch.Nodup
  chains_disjoint : ∀ ch ∈ chains, ∀ ch' ∈ chains, ∀ p, p ∈ ch → p ∈ ch' → ch = ch'
  chains_multi : ∀ p, (∃ ch ∈ chains, p ∈ ch) ↔
    p ∈ pagesOf s.startPointer ∧ (headerAt s p).status = pageStatus.MultipageBlock
  chains_linked : ∀ ch ∈ chains, chainLinked s (ch.length * PAGE_SIZE) ch
  chains_head : ∀ ch ∈ chains, ∃ a ∈ live, ch.head? = some a

/-- Every divided page has a busy block. -/
def allBusy (s : State) : Prop :=
  ∀ p ∈ pagesOf s.startPointer,
    (headerAt s p).status = pageStatus.Divided → hasBusy s p

/-- The invariant of the reachable states. -/
def Inv (x : Sys) : Prop :=
  ∃ chains, InvCore x.state (addrs x) chains ∧ allBusy x.state

/-! ## Behaviour at concrete inputs -/

/-- C1 (evaluation): with the array at 65536, two requests of 1500 bytes fill
page 0 (class 2048); after the first block is freed the next request of 1500
bytes returns the address of the second block again, which is still live: two
live allocations at the same address 67585. -/
theorem C1_live_block_returned_again :
    (run [Call.alloc 1500, Call.alloc 1500, Call.free 65537, Call.alloc 1500]
        (initSys 65536)).map (fun x => x.live)
      = some [(67585, 1500), (67585, 1500)] := by
  decide

/-- C2 (evaluation): after pages 3 and 0 have been released in that order the
pool is `[77824, 65536]`; a request of 5000 bytes returns 77824, the last page
of the array, chained to page 0 at 65536: the second page of the chain is not
at `77824 + 4096` and `77824 + 5000` lies beyond the end of the array
(`65536 + 16384 = 81920`). -/
theorem C2_chain_not_contiguous :
    (run [Call.alloc 400, Call.alloc 5000, Call.alloc 3000, Call.free 77824,
          Call.free 65537, Call.alloc 5000] (initSys 65536)).map
        (fun x => (x.live, chainFrom x.state 5 77824, headerAt x.state 77824,
          headerAt x.state 65536))
      = some ([(69632, 5000), (77824, 5000)], [77824, 65536],
          ⟨pageStatus.MultipageBlock, 8192, 65537⟩,
          ⟨pageStatus.MultipageBlock, 8192, 0⟩) := by
  decide

set_option maxRecDepth 1000000 in
/-- C7 (evaluation): a request of 1 byte divides page 0 into blocks of 4 bytes,
and a request of 2047 bytes divides page 0 into one block of 4096 bytes: class
sizes below `MIN_CLASS_SIZE` and above `PAGE_SIZE / 2`. -/
theorem C7_class_size_out_of_range :
    (run [Call.alloc 1] (initSys 65536)).map (fun x => headerAt x.state 65536)
        = some ⟨pageStatus.Divided, 4, 65541⟩
      ∧ (run [Call.alloc 2047] (initSys 65536)).map (fun x => headerAt x.state 65536)
        = some ⟨pageStatus.Divided, 4096, 65537⟩ := by
  decide

/-- C10 (evaluation): after the only block of page 0 is freed, page 0 is in the
pool with a `Free` header and is listed in the bucket of key 0. -/
theorem C10_released_page_in_bucket_zero :
    (run [Call.alloc 400, Call.free 65537] (initSys 65536)).map
        (fun x => (x.state.freePages, headerAt x.state 65536, bucket x.state 0))
      = some ([69632, 73728, 77824, 65536], ⟨pageStatus.Free, 0, 0⟩, [65536]) := by
  decide

/-! ## Elementary facts about the accessors -/

@[simp] theorem bucket_setBucket (s : State) (k j : Int) (l : List Nat) :
    bucket (setBucket s k l) j = if j = k then l else bucket s j := by
  unfold bucket setBucket
  by_cases h : j = k <;> simp [h]

@[simp] theorem bucket_touchBucket (s : State) (k j : Int) :
    bucket (touchBucket s k) j = bucket s j := by
  unfold touchBucket
  rw [bucket_setBucket]
  by_cases h : j = k <;> simp [h]

@[simp] theorem headerAt_touchHeader (s : State) (p q : Nat) :
    headerAt (touchHeader s p) q = headerAt s q := by
  unfold headerAt touchHeader
  by_cases h : q = p <;> simp [h, headerAt]

@[simp] theorem headerAt_setPageHeader (s : State) (p q : Nat) (st : pageStatus)
    (blk c : Nat) :
    headerAt (setPageHeader s p st blk c) q
      = if q = p then ⟨st, c, blk⟩ else headerAt s q := by
  unfold headerAt setPageHeader
  by_cases h : q = p <;> simp [h]

@[simp] theorem headerAt_setAvailableBlock (s : State) (p q blk : Nat) :
    headerAt (setAvailableBlock s p blk) q
      = if q = p then ⟨(headerAt s p).status, (headerAt s p).classSize, blk⟩
        else headerAt s q := by
  unfold setAvailableBlock
  by_cases h : q = p <;> simp [h, headerAt]

@[simp] theorem headerAt_setBucket (s : State) (k : Int) (l : List Nat) (q : Nat) :
    headerAt (setBucket s k l) q = headerAt s q := rfl

@[simp] theorem headerAt_touchBucket (s : State) (k : Int) (q : Nat) :
    headerAt (touchBucket s k) q = headerAt s q := rfl

@[simp] theorem bucket_touchHeader (s : State) (p : Nat) (k : Int) :
    bucket (touchHeader s p) k = bucket s k := rfl

@[simp] theorem bucket_setPageHeader (s : State) (p : Nat) (st : pageStatus)
    (blk c : Nat) (k : Int) :
    bucket (setPageHeader s p st blk c) k = bucket s k := rfl

@[simp] theorem bucket_setAvailableBlock (s : State) (p blk : Nat) (k : Int) :
    bucket (setAvailableBlock s p blk) k = bucket s k := rfl

theorem isSome_setPageHeader (s : State) (p q : Nat) (st : pageStatus) (blk c : Nat)
    (h : (s.headers q).isSome = true) :
    ((setPageHeader s p st blk c).headers q).isSome = true := by
  unfold setPageHeader
  by_cases hq : q = p <;> simp [hq, h]

theorem isSome_touchHeader (s : State) (p q : Nat) (h : (s.headers q).isSome = true) :
    ((touchHeader s p).headers q).isSome = true := by
  unfold touchHeader
  by_cases hq : q = p <;> simp [hq, h]

theorem isSome_setAvailableBlock (s : State) (p q blk : Nat)
    (h : (s.headers q).isSome = true) :
    ((setAvailableBlock s p blk).headers q).isSome = true := by
  unfold setAvailableBlock
  by_cases hq : q = p <;> simp [hq, h]

theorem ptrAdd_eq (p n : Nat) (h : p + n < WORD) : ptrAdd p n = p + n := by
  unfold ptrAdd
  exact Nat.mod_eq_of_lt h

theorem ptrSub_eq (p n : Nat) (h : n ≤ p) (hp : p < WORD) : ptrSub p n = p - n := by
  unfold ptrSub WORD at *
  omega

theorem toInt_eq (n : Nat) (h : n ≤ INT_MAX) : toInt n = (n : Int) := by
  unfold toInt INT_MAX at *
  have h1 : n % 4294967296 = n := by omega
  rw [h1]
  simp [h]

theorem powerOfTwoLoop_small (n : Nat) (hn : n ≤ 2049) :
    ∀ fuel k : Nat, 13 ≤ k + fuel → k ≤ 12 → 2 ^ k ≤ 2 * n →
      ∃ j, k ≤ j ∧ j ≤ 12 ∧ powerOfTwoLoop n fuel (2 ^ k) = some (2 ^ j)
        ∧ n < 2 ^ j ∧ 2 ^ j ≤ 2 * n := by
  intro fuel
  induction fuel with
  | zero => intro k h1 h2 _; omega
  | succ f ih =>
    intro k h1 h2 h3
    by_cases hle : 2 ^ k ≤ n
    · have hk : k ≤ 11 := by
        by_contra hc
        have hk12 : k = 12 := by omega
        subst hk12
        norm_num at hle
        omega
      have hlt : 2 ^ k * 2 < WORD := by
        have : 2 ^ k ≤ 2 ^ 11 := Nat.pow_le_pow_right (by norm_num) hk
        unfold WORD
        omega
      obtain ⟨j, hj1, hj2, hj3, hj4, hj5⟩ :=
        ih (k + 1) (by omega) (by omega) (by rw [pow_succ]; omega)
      refine ⟨j, by omega, hj2, ?_, hj4, hj5⟩
      rw [powerOfTwoLoop, if_pos hle, Nat.mod_eq_of_lt hlt, ← pow_succ]
      exact hj3
    · refine ⟨k, le_refl k, h2, ?_, by omega, h3⟩
      rw [powerOfTwoLoop, if_neg hle]

/-- The value of `powerOfTwoAligment` on every argument `mem_alloc` passes. -/
theorem powerOfTwoAligment_class (n : Nat) (h2 : 2 ≤ n) (h : n ≤ 2049) :
    ∃ c, powerOfTwoAligment n = some c ∧ c ∈ classSizes ∧ n < c ∧ c ≤ 2 * n := by
  obtain ⟨j, _, hj2, hj3, hj4, hj5⟩ :=
    powerOfTwoLoop_small n h 66 0 (by omega) (by omega) (by simp; omega)
  refine ⟨2 ^ j, ?_, ?_, hj4, hj5⟩
  · simpa [powerOfTwoAligment] using hj3
  · have hj0 : 2 ≤ j := by
      by_contra hc
      have : j = 0 ∨ j = 1 := by omega
      rcases this with rfl | rfl <;> norm_num at hj4 <;> omega
    unfold classSizes
    interval_cases j <;> simp

/-! ## Failure of `mem_alloc` -/

/-- C4 (counterexample): once a request of 16384 bytes has emptied the pool, the
map has no bucket for class 4; a request of 1 byte then returns `nullptr` and
leaves an (empty) bucket for class 4 in `classifiedPages`: the size-class index
is not exactly as before the failed call. -/
theorem C4_failed_alloc_creates_bucket :
    ((mem_alloc (freshState 65536) 16384).bind fun r =>
        (mem_alloc r.2 1).map fun q =>
          (r.2.freePages, r.2.classifiedPages 4, q.1, q.2.classifiedPages 4))
      = some ([], none, 0, some []) := by
  decide

/-- C4 (amended): in each of the three failure cases (size 0; a size of the
first branch whose class bucket and pool are empty; a larger size whose page
count fits an `int` and exceeds the pool length) `mem_alloc` returns `nullptr`,
and the page headers, the pool, the array bytes and the content of every bucket
are as before the call. -/
theorem C4_alloc_failure_atomic (s : State) (size : Nat)
    (hfail : size = 0
      ∨ (size ≤ PAGE_SIZE / 2
          ∧ (∃ c, powerOfTwoAligment (size + BLOCK_HEADER_SIZE) = some c
                ∧ bucket s (toInt c) = [])
          ∧ s.freePages = [])
      ∨ (PAGE_SIZE / 2 < size ∧ size ≤ INT_MAX * PAGE_SIZE
          ∧ s.freePages.length < (size + (PAGE_SIZE - 1)) / PAGE_SIZE)) :
    ∃ s', mem_alloc s size = some (0, s')
      ∧ s'.startPointer = s.startPointer ∧ s'.memory = s.memory
      ∧ s'.freePages = s.freePages ∧ s'.headers = s.headers
      ∧ ∀ k, bucket s' k = bucket s k := by
  by_cases h0 : size = 0
  · exact ⟨s, by simp [mem_alloc, h0], rfl, rfl, rfl, rfl, fun _ => rfl⟩
  rcases hfail with h | ⟨hle, ⟨c, hc, hb⟩, hpool⟩ | ⟨hgt, hmax, hlen⟩
  · exact absurd h h0
  · refine ⟨touchBucket s (toInt c), ?_, rfl, rfl, rfl, rfl, fun k => by simp⟩
    have hadd : ptrAdd size BLOCK_HEADER_SIZE = size + BLOCK_HEADER_SIZE := by
      apply ptrAdd_eq
      unfold PAGE_SIZE at hle
      unfold BLOCK_HEADER_SIZE WORD
      omega
    have hpool1 : (touchBucket s (toInt c)).freePages = [] := hpool
    simp [mem_alloc, h0, hle, hadd, hc, hb, setBlocksSize, hpool1]
  · refine ⟨s, ?_, rfl, rfl, rfl, rfl, fun _ => rfl⟩
    have hnot : ¬ size ≤ PAGE_SIZE / 2 := by omega
    have hpn : pagesNeededOf size = some ((size + (PAGE_SIZE - 1)) / PAGE_SIZE) := by
      unfold pagesNeededOf
      rw [if_pos]
      unfold PAGE_SIZE INT_MAX at *
      omega
    simp [mem_alloc, h0, hnot, hpn, hlen]

/-- C4 (witness): after `mem_alloc(16384)` in a fresh array at `65536` the
four pages are one live block and the pool is empty; in that state requests of
0, 100 and 5000 bytes fail, one in each of the three ways, without any
change. -/
theorem C4_alloc_failure_atomic_witness :
    (run [Call.alloc 16384] (initSys 65536)).map (fun x => (addrs x, x.state.freePages))
        = some ([65536], [])
    ∧ (∃ s', mem_alloc (stateAfter [Call.alloc 16384] 65536) 0 = some (0, s')
        ∧ s'.startPointer = (stateAfter [Call.alloc 16384] 65536).startPointer
        ∧ s'.memory = (stateAfter [Call.alloc 16384] 65536).memory
        ∧ s'.freePages = (stateAfter [Call.alloc 16384] 65536).freePages
        ∧ s'.headers = (stateAfter [Call.alloc 16384] 65536).headers
        ∧ ∀ k, bucket s' k = bucket (stateAfter [Call.alloc 16384] 65536) k)
    ∧ (∃ s', mem_alloc (stateAfter [Call.alloc 16384] 65536) 100 = some (0, s')
        ∧ s'.startPointer = (stateAfter [Call.alloc 16384] 65536).startPointer
        ∧ s'.memory = (stateAfter [Call.alloc 16384] 65536).memory
        ∧ s'.freePages = (stateAfter [Call.alloc 16384] 65536).freePages
        ∧ s'.headers = (stateAfter [Call.alloc 16384] 65536).headers
        ∧ ∀ k, bucket s' k = bucket (stateAfter [Call.alloc 16384] 65536) k)
    ∧ (∃ s', mem_alloc (stateAfter [Call.alloc 16384] 65536) 5000 = some (0, s')
        ∧ s'.startPointer = (stateAfter [Call.alloc 16384] 65536).startPointer
        ∧ s'.memory = (stateAfter [Call.alloc 16384] 65536).memory
        ∧ s'.freePages = (stateAfter [Call.alloc 16384] 65536).freePages
        ∧ s'.headers = (stateAfter [Call.alloc 16384] 65536).headers
        ∧ ∀ k, bucket s' k = bucket (stateAfter [Call.alloc 16384] 65536) k) :=
  ⟨by decide,
   C4_alloc_failure_atomic (stateAfter [Call.alloc 16384] 65536) 0 (Or.inl rfl),
   C4_alloc_failure_atomic (stateAfter [Call.alloc 16384] 65536) 100
     (Or.inr (Or.inl ⟨by decide, ⟨128, by decide, by decide⟩, by decide⟩)),
   C4_alloc_failure_atomic (stateAfter [Call.alloc 16384] 65536) 5000
     (Or.inr (Or.inr ⟨by decide, by decide, by decide⟩))⟩

/-! ## The multi-page branch of `mem_alloc` -/

theorem chainLinked_frame (s s' : State) (total : Nat) :
    ∀ l : List Nat, (∀ q ∈ l, headerAt s' q = headerAt s q) →
      chainLinked s total l → chainLinked s' total l
  | [], _, _ => trivial
  | [q], h, hl => by
    unfold chainLinked at *
    rw [h q (by simp)]
    exact hl
  | q :: q' :: r, h, hl => by
    unfold chainLinked at *
    refine ⟨by rw [h q (by simp)]; exact hl.1, ?_⟩
    exact chainLinked_frame s s' total (q' :: r)
      (fun x hx => h x (List.mem_cons_of_mem _ hx)) hl.2

theorem chainLinked_header (s : State) (total : Nat) :
    ∀ l : List Nat, chainLinked s total l → ∀ q ∈ l,
      (headerAt s q).status = pageStatus.MultipageBlock ∧ (headerAt s q).classSize = total
  | [], _, q, hq => by simp at hq
  | [q0], hl, q, hq => by
    unfold chainLinked at hl
    simp at hq
    subst hq
    rw [hl]
    exact ⟨rfl, rfl⟩
  | q0 :: q' :: r, hl, q, hq => by
    unfold chainLinked at hl
    rcases List.mem_cons.1 hq with h | h
    · subst h
      rw [hl.1]
      exact ⟨rfl, rfl⟩
    · exact chainLinked_header s total (q' :: r) hl.2 q h

theorem chainFrom_of_chainLinked (s : State) (total : Nat) :
    ∀ (l : List Nat) (q : Nat) (fuel : Nat), chainLinked s total (q :: l) →
      (∀ x ∈ l, x + 1 < WORD) → l.length < fuel → chainFrom s fuel q = q :: l
  | [], q, fuel, hl, _, hf => by
    unfold chainLinked at hl
    obtain ⟨f, rfl⟩ : ∃ f, fuel = f + 1 := ⟨fuel - 1, by simp at hf; omega⟩
    simp [chainFrom, hl]
  | q' :: r, q, fuel, hl, hw, hf => by
    unfold chainLinked at hl
    obtain ⟨f, rfl⟩ : ∃ f, fuel = f + 1 := ⟨fuel - 1, by simp at hf; omega⟩
    have hq' : q' + 1 < WORD := hw q' (by simp)
    have h1 : ptrAdd q' BLOCK_HEADER_SIZE = q' + 1 := ptrAdd_eq _ _ hq'
    have h2 : ptrSub (q' + 1) BLOCK_HEADER_SIZE = q' := by
      rw [ptrSub_eq _ _ (by unfold BLOCK_HEADER_SIZE; omega) hq']
      simp [BLOCK_HEADER_SIZE]
    have ih := chainFrom_of_chainLinked s total r q' f hl.2
      (fun x hx => hw x (List.mem_cons_of_mem _ hx)) (by simp at hf ⊢; omega)
    simp [chainFrom, hl.1, h1, h2, ih]

/-- What the loop of the multi-page branch does to a pool whose first
`remaining` entries are pairwise distinct. -/
theorem allocChainLoop_spec (pagesNeeded : Nat) (hN : pagesNeeded * PAGE_SIZE ≤ INT_MAX) :
    ∀ (remaining : Nat) (s : State), remaining ≤ s.freePages.length →
      (s.freePages.take remaining).Nodup →
      ∃ s', allocChainLoop pagesNeeded remaining s = some s'
        ∧ s'.freePages = s.freePages.drop remaining
        ∧ s'.startPointer = s.startPointer ∧ s'.memory = s.memory
        ∧ s'.classifiedPages = s.classifiedPages
        ∧ (∀ q, q ∉ s.freePages.take remaining → s'.headers q = s.headers q)
        ∧ chainLinked s' (pagesNeeded * PAGE_SIZE) (s.freePages.take remaining)
        ∧ (∀ q, (s.headers q).isSome = true → (s'.headers q).isSome = true) := by
  intro remaining
  induction remaining with
  | zero =>
    intro s _ _
    exact ⟨s, rfl, by simp, rfl, rfl, rfl, fun _ _ => rfl, by simp [chainLinked],
      fun _ h => h⟩
  | succ r ih =>
    intro s hlen hnd
    have hgt : ¬ pagesNeeded * PAGE_SIZE > INT_MAX := by omega
    match hfp : s.freePages with
    | [] => rw [hfp] at hlen; simp at hlen
    | page :: rest =>
      rw [hfp] at hlen hnd
      simp only [List.take_succ_cons, List.nodup_cons, List.length_cons] at hlen hnd
      by_cases hr : r = 0
      · subst hr
        refine ⟨{ setPageHeader s page pageStatus.MultipageBlock 0
                    (pagesNeeded * PAGE_SIZE) with freePages := rest },
          ?_, ?_, ?_, ?_, ?_, ?_, ?_, ?_⟩
        · rw [allocChainLoop, hfp]
          simp [hgt, allocChainLoop, setPageHeader, hfp]
        · simp
        · rfl
        · rfl
        · rfl
        · intro q hq
          simp at hq
          simp [setPageHeader, hq]
        · simp [chainLinked, headerAt, setPageHeader]
        · intro q hq
          exact isSome_setPageHeader s page q _ _ _ hq
      · match hrest : rest with
        | [] => subst hrest; simp at hlen; omega
        | nextPage :: rest' =>
          let s1 : State :=
            { setPageHeader s page pageStatus.MultipageBlock
                (ptrAdd nextPage BLOCK_HEADER_SIZE) (pagesNeeded * PAGE_SIZE) with
              freePages := nextPage :: rest' }
          have hs1 : s1.freePages = nextPage :: rest' := rfl
          obtain ⟨s', h1, h2, h3, h4, h5, h6, h7, h8⟩ := ih s1
            (by rw [hs1]; simpa using hlen) (by rw [hs1]; exact hnd.2)
          rw [hs1] at h2 h6 h7
          obtain ⟨r', rfl⟩ : ∃ r', r = r' + 1 := ⟨r - 1, by omega⟩
          refine ⟨s', ?_, ?_, h3, h4, h5, ?_, ?_, ?_⟩
          · rw [allocChainLoop, hfp]
            simp only [hgt, if_false, Nat.succ_ne_zero]
            simpa [setPageHeader, hfp] using h1
          · rw [h2]; rfl
          · intro q hq
            simp only [List.take_succ_cons, List.mem_cons, not_or] at hq
            rw [h6 q (by simp only [List.take_succ_cons, List.mem_cons, not_or]; exact hq.2)]
            simp [s1, setPageHeader, hq.1]
          · simp only [List.take_succ_cons] at h7 ⊢
            unfold chainLinked
            refine ⟨?_, h7⟩
            have : s'.headers page = s1.headers page := h6 page hnd.1
            unfold headerAt
            rw [this]
            simp [s1, setPageHeader]
          · intro q hq
            exact h8 q (isSome_setPageHeader s page q _ _ _ hq)

theorem length_le_four_of_pages (b : Nat) (l : List Nat) (hnd : l.Nodup)
    (hp : ∀ p ∈ l, p ∈ pagesOf b) : l.length ≤ 4 := by
  have h := (hnd.subperm (fun p hp' => hp p hp')).length_le
  simpa [pagesOf] using h

theorem mem_pagesOf (b p : Nat) :
    p ∈ pagesOf b ↔ p = b ∨ p = b + 4096 ∨ p = b + 8192 ∨ p = b + 12288 := by
  simp [pagesOf, PAGE_SIZE]

theorem class_facts (c : Nat) (hc : c ∈ classSizes) :
    4 ≤ c ∧ c ∣ 4096 ∧ c ≤ 4096 := by
  simp only [classSizes, List.mem_cons, List.mem_singleton, List.not_mem_nil, or_false] at hc
  rcases hc with rfl | rfl | rfl | rfl | rfl | rfl | rfl | rfl | rfl | rfl | rfl <;>
    refine ⟨by omega, by decide, by omega⟩

theorem class_toInt (c : Nat) (hc : c ∈ classSizes) :
    toInt c = (c : Int) ∧ (c : Int) ≠ 0 := by
  have h := class_facts c hc
  refine ⟨toInt_eq c (by unfold INT_MAX; omega), ?_⟩
  omega

/-- A block that starts inside a page ends inside the page. -/
theorem block_bound (c o : Nat) (hc : c ∈ classSizes) (ho : o < 4096) (hd : c ∣ o) :
    o + c ≤ 4096 := by
  have h := class_facts c hc
  have h1 : c ∣ 4096 - o := Nat.dvd_sub' h.2.1 hd
  have h2 : c ≤ 4096 - o := Nat.le_of_dvd (by omega) h1
  omega

theorem pageOf_add (b p o : Nat) (hp : p ∈ pagesOf b) (ho : o < 4096) :
    pageOf b (p + o) = p := by
  rw [mem_pagesOf] at hp
  unfold pageOf PAGE_SIZE
  rcases hp with rfl | rfl | rfl | rfl <;> omega

theorem pageOf_page (b p : Nat) (hp : p ∈ pagesOf b) : pageOf b p = p :=
  pageOf_add b p 0 hp (by omega)

theorem pageOf_mem (b a : Nat) (h1 : b ≤ a) (h2 : a < b + MEMORY_SIZE) :
    pageOf b a ∈ pagesOf b := by
  rw [mem_pagesOf]
  unfold pageOf PAGE_SIZE
  unfold MEMORY_SIZE at h2
  omega

/-- An address of the array is its page plus an offset below the page size. -/
theorem pageOf_offset (b a : Nat) (h1 : b ≤ a) :
    pageOf b a ≤ a ∧ a < pageOf b a + 4096 := by
  unfold pageOf PAGE_SIZE
  omega

/-- Two flag bytes at the same place are the same block of the same page. -/
theorem flag_place_inj (b p p' o o' : Nat) (hp : p ∈ pagesOf b) (hp' : p' ∈ pagesOf b)
    (ho : o < 4096) (ho' : o' < 4096) (h : p - b + o = p' - b + o') :
    p = p' ∧ o = o' := by
  rw [mem_pagesOf] at hp hp'
  rcases hp with rfl | rfl | rfl | rfl <;> rcases hp' with rfl | rfl | rfl | rfl <;> omega

theorem page_bounds (b p : Nat) (hp : p ∈ pagesOf b) :
    b ≤ p ∧ p + 4096 ≤ b + MEMORY_SIZE := by
  rw [mem_pagesOf] at hp
  unfold MEMORY_SIZE
  rcases hp with rfl | rfl | rfl | rfl <;> omega

/-! ## The loops over the blocks of a page -/

theorem readByte_block (s : State) (p o : Nat) (hp : p ∈ pagesOf s.startPointer)
    (ho : o < 4096) :
    readByte s (p + o) = some (s.memory (p - s.startPointer + o)) := by
  have h := page_bounds _ _ hp
  unfold readByte
  rw [if_pos (by omega)]
  congr 2
  omega

theorem writeByte_block (s : State) (p o v : Nat) (hp : p ∈ pagesOf s.startPointer)
    (ho : o < 4096) :
    writeByte s (p + o) v = some { s with memory := fun i =>
      if i = p - s.startPointer + o then v else s.memory i } := by
  have h := page_bounds _ _ hp
  unfold writeByte
  rw [if_pos (by omega)]
  have : p + o - s.startPointer = p - s.startPointer + o := by omega
  rw [this]

theorem next_block_le (c o o' : Nat) (hd : c ∣ o) (hd' : c ∣ o') (h : o < o') :
    o + c ≤ o' := by
  have h1 : c ∣ o' - o := Nat.dvd_sub' hd' hd
  have h2 : c ≤ o' - o := Nat.le_of_dvd (by omega) h1
  omega

theorem anyFreeBlockLoop_spec (s : State) (p c : Nat)
    (hb : s.startPointer + MEMORY_SIZE < WORD) (hp : p ∈ pagesOf s.startPointer)
    (hc : c ∈ classSizes) :
    ∀ fuel o, o ≤ 4096 → c ∣ o → 4096 < fuel + o →
      ∃ r, anyFreeBlockLoop s (p + 4096) c fuel (p + o) = some r ∧
        ((r = 0 ∧ ∀ o', o ≤ o' → o' < 4096 → c ∣ o' → ¬ flagFree s p o')
          ∨ (∃ o', o' < 4096 ∧ c ∣ o' ∧ r = p + o' + 1 ∧ flagFree s p o')) := by
  have hcf := class_facts c hc
  have hpb := page_bounds _ _ hp
  intro fuel
  induction fuel with
  | zero => intro o h1 _ h3; omega
  | succ f ih =>
    intro o h1 h2 h3
    by_cases ho : o = 4096
    · subst ho
      refine ⟨0, by simp [anyFreeBlockLoop], Or.inl ⟨rfl, ?_⟩⟩
      intro o' h4 h5
      omega
    · have ho' : o < 4096 := by omega
      have hne : ¬ p + o = p + 4096 := by omega
      rw [anyFreeBlockLoop, if_neg hne, readByte_block s p o hp ho']
      by_cases hfl : s.memory (p - s.startPointer + o) ≠ 0
      · refine ⟨p + o + 1, ?_, Or.inr ⟨o, ho', h2, rfl, hfl⟩⟩
        simp only [hfl, ne_eq, not_false_eq_true, if_true]
        rw [ptrAdd_eq]
        · rfl
        · unfold BLOCK_HEADER_SIZE
          omega
      · have hbb := block_bound c o hc ho' h2
        have hnext : ptrAdd (p + o) c = p + (o + c) := by
          rw [ptrAdd_eq] <;> omega
        obtain ⟨r, hr, hres⟩ := ih (o + c) hbb (Dvd.dvd.add h2 (dvd_refl c)) (by omega)
        refine ⟨r, ?_, ?_⟩
        · simp only [hfl, if_false]
          rw [hnext]
          exact hr
        · rcases hres with ⟨h0, hall⟩ | hfound
          · refine Or.inl ⟨h0, ?_⟩
            intro o' h4 h5 h6
            by_cases heq : o' = o
            · subst heq
              exact hfl
            · exact hall o' (next_block_le c o o' h2 h6 (by omega)) h5 h6
          · exact Or.inr hfound

theorem anyFreeBlock_spec (s : State) (p c : Nat)
    (hb : s.startPointer + MEMORY_SIZE < WORD) (hp : p ∈ pagesOf s.startPointer)
    (hc : c ∈ classSizes) :
    ∃ r, anyFreeBlock s p c = some r ∧
      ((r = 0 ∧ ∀ o', o' < 4096 → c ∣ o' → ¬ flagFree s p o')
        ∨ (∃ o', o' < 4096 ∧ c ∣ o' ∧ r = p + o' + 1 ∧ flagFree s p o')) := by
  have hpb := page_bounds _ _ hp
  obtain ⟨r, hr, hres⟩ := anyFreeBlockLoop_spec s p c hb hp hc LOOP_FUEL 0
    (by omega) (dvd_zero c) (by unfold LOOP_FUEL; omega)
  refine ⟨r, ?_, ?_⟩
  · unfold anyFreeBlock
    rw [ptrAdd_eq _ _ (by unfold PAGE_SIZE; omega)]
    exact hr
  · rcases hres with ⟨h0, hall⟩ | hfound
    · exact Or.inl ⟨h0, fun o' h1 h2 => hall o' (by omega) h1 h2⟩
    · exact Or.inr hfound

theorem isEveryBlockFreeLoop_spec (s : State) (p c : Nat)
    (hb : s.startPointer + MEMORY_SIZE < WORD) (hp : p ∈ pagesOf s.startPointer)
    (hc : c ∈ classSizes) :
    ∀ fuel o, o ≤ 4096 → c ∣ o → 4096 < fuel + o →
      ∃ r, isEveryBlockFreeLoop s (p + 4096) c fuel (p + o) = some r ∧
        (r = true ↔ ∀ o', o ≤ o' → o' < 4096 → c ∣ o' → flagFree s p o') := by
  have hcf := class_facts c hc
  have hpb := page_bounds _ _ hp
  intro fuel
  induction fuel with
  | zero => intro o h1 _ h3; omega
  | succ f ih =>
    intro o h1 h2 h3
    by_cases ho : o = 4096
    · subst ho
      refine ⟨true, by simp [isEveryBlockFreeLoop], ?_⟩
      simp only [true_iff]
      intro o' h4 h5
      omega
    · have ho' : o < 4096 := by omega
      have hne : ¬ p + o = p + 4096 := by omega
      rw [isEveryBlockFreeLoop, if_neg hne, readByte_block s p o hp ho']
      by_cases hfl : s.memory (p - s.startPointer + o) = 0
      · refine ⟨false, by simp [hfl], ?_⟩
        simp only [Bool.false_eq_true, false_iff, not_forall]
        exact ⟨o, le_refl o, ho', h2, by unfold flagFree; simp [hfl]⟩
      · have hbb := block_bound c o hc ho' h2
        have hnext : ptrAdd (p + o) c = p + (o + c) := by
          rw [ptrAdd_eq] <;> omega
        obtain ⟨r, hr, hres⟩ := ih (o + c) hbb (Dvd.dvd.add h2 (dvd_refl c)) (by omega)
        refine ⟨r, ?_, ?_⟩
        · simp only [hfl, if_false]
          rw [hnext]
          exact hr
        · rw [hres]
          constructor
          · intro hall o' h4 h5 h6
            by_cases heq : o' = o
            · subst heq
              exact hfl
            · exact hall o' (next_block_le c o o' h2 h6 (by omega)) h5 h6
          · intro hall o' h4 h5 h6
            exact hall o' (by omega) h5 h6

theorem isEveryBlockFree_spec (s : State) (p c : Nat)
    (hb : s.startPointer + MEMORY_SIZE < WORD) (hp : p ∈ pagesOf s.startPointer)
    (hc : c ∈ classSizes) :
    ∃ r, isEveryBlockFree s p c = some r ∧
      (r = true ↔ ∀ o', o' < 4096 → c ∣ o' → flagFree s p o') := by
  have hpb := page_bounds _ _ hp
  obtain ⟨r, hr, hres⟩ := isEveryBlockFreeLoop_spec s p c hb hp hc LOOP_FUEL 0
    (by omega) (dvd_zero c) (by unfold LOOP_FUEL; omega)
  refine ⟨r, ?_, ?_⟩
  · unfold isEveryBlockFree
    rw [ptrAdd_eq _ _ (by unfold PAGE_SIZE; omega)]
    exact hr
  · rw [hres]
    exact ⟨fun h o' h1 h2 => h o' (by omega) h1 h2, fun h o' _ h1 h2 => h o' h1 h2⟩

theorem setFlagsLoop_spec (p c b : Nat) (hb : b + MEMORY_SIZE < WORD)
    (hp : p ∈ pagesOf b) (hc : c ∈ classSizes) :
    ∀ fuel o (s : State), s.startPointer = b → o ≤ 4096 → c ∣ o → 4096 < fuel + o →
      ∃ s1, setFlagsLoop (p + 4096) c fuel (p + o) s = some s1
        ∧ s1.startPointer = s.startPointer ∧ s1.freePages = s.freePages
        ∧ s1.headers = s.headers ∧ s1.classifiedPages = s.classifiedPages
        ∧ ∀ i, s1.memory i =
            if p - b + o ≤ i ∧ i < p - b + 4096 ∧ c ∣ (i - (p - b)) then 1
            else s.memory i := by
  have hcf := class_facts c hc
  have hpb := page_bounds _ _ hp
  intro fuel
  induction fuel with
  | zero => intro o s _ h1 _ h3; omega
  | succ f ih =>
    intro o s hs h1 h2 h3
    by_cases ho : o = 4096
    · subst ho
      refine ⟨s, by simp [setFlagsLoop], rfl, rfl, rfl, rfl, ?_⟩
      intro i
      rw [if_neg (by omega)]
    · have ho' : o < 4096 := by omega
      have hne : ¬ p + o = p + 4096 := by omega
      have hbb := block_bound c o hc ho' h2
      have hnext : ptrAdd (p + o) c = p + (o + c) := by
        rw [ptrAdd_eq] <;> omega
      subst hs
      rw [setFlagsLoop, if_neg hne, writeByte_block s p o 1 hp ho']
      obtain ⟨s1, hr, e1, e2, e3, e4, e5⟩ :=
        ih (o + c) { s with memory := fun i =>
          if i = p - s.startPointer + o then 1 else s.memory i } rfl hbb
          (Dvd.dvd.add h2 (dvd_refl c)) (by omega)
      refine ⟨s1, ?_, e1, e2, e3, e4, ?_⟩
      · simp only
        rw [hnext]
        exact hr
      · intro i
        rw [e5 i]
        by_cases hi : i = p - s.startPointer + o
        · subst hi
          have hd : c ∣ p - s.startPointer + o - (p - s.startPointer) := by
            rw [Nat.add_sub_cancel_left]
            exact h2
          rw [if_neg (by omega), if_pos ⟨le_refl _, by omega, hd⟩]
          simp
        · simp only [hi, if_false]
          by_cases hcond : p - s.startPointer + o ≤ i ∧ i < p - s.startPointer + 4096
              ∧ c ∣ (i - (p - s.startPointer))
          · have hlt : o < i - (p - s.startPointer) := by omega
            have := next_block_le c o _ h2 hcond.2.2 hlt
            rw [if_pos hcond, if_pos ⟨by omega, hcond.2.1, hcond.2.2⟩]
          · rw [if_neg hcond, if_neg]
            intro hcon
            exact hcond ⟨by omega, hcon.2.1, hcon.2.2⟩

/-! ## What the branches of `mem_alloc` and `mem_free` do -/

/-- `setBlocksSize` on a pool whose first page is a page of the array. -/
theorem setBlocksSize_spec (s : State) (c q : Nat) (rest : List Nat)
    (hb : s.startPointer + MEMORY_SIZE < WORD) (hpool : s.freePages = q :: rest)
    (hq : q ∈ pagesOf s.startPointer) (hc : c ∈ classSizes) :
    ∃ s2, setBlocksSize s c = some (true, s2)
      ∧ s2.startPointer = s.startPointer ∧ s2.freePages = rest
      ∧ (∀ i, s2.memory i =
          if q - s.startPointer ≤ i ∧ i < q - s.startPointer + 4096
            ∧ c ∣ (i - (q - s.startPointer)) then 1 else s.memory i)
      ∧ (∀ p, headerAt s2 p
          = if p = q then ⟨pageStatus.Divided, c, q + 1⟩ else headerAt s p)
      ∧ (∀ k, bucket s2 k = if k = (c : Int) then bucket s k ++ [q] else bucket s k)
      ∧ (∀ p, (s.headers p).isSome = true → (s2.headers p).isSome = true) := by
  have hpb := page_bounds _ _ hq
  obtain ⟨s1, h1, e1, e2, e3, e4, e5⟩ := setFlagsLoop_spec q c s.startPointer hb hq hc
    LOOP_FUEL 0 s rfl (by omega) (dvd_zero c) (by unfold LOOP_FUEL; omega)
  have hend : ptrAdd q PAGE_SIZE = q + 4096 := by
    rw [ptrAdd_eq] <;> unfold PAGE_SIZE <;> omega
  have hq1 : ptrAdd q BLOCK_HEADER_SIZE = q + 1 := by
    rw [ptrAdd_eq] <;> unfold BLOCK_HEADER_SIZE <;> omega
  have hk := (class_toInt c hc).1
  refine ⟨setBucket (setPageHeader { s1 with freePages := s1.freePages.tail } q
      pageStatus.Divided (q + 1) c) (c : Int)
      (bucket (setPageHeader { s1 with freePages := s1.freePages.tail } q
        pageStatus.Divided (q + 1) c) (c : Int) ++ [q]), ?_, ?_, ?_, ?_, ?_, ?_, ?_⟩
  · unfold setBlocksSize
    rw [hpool]
    simp only [hend, hq1, hk]
    have h1' : setFlagsLoop (q + 4096) c LOOP_FUEL q s = some s1 := h1
    rw [h1']
  · exact e1
  · show s1.freePages.tail = rest
    rw [e2, hpool]
    rfl
  · intro i
    have := e5 i
    simpa using this
  · intro p
    simp only [headerAt_setBucket, headerAt_setPageHeader]
    by_cases hp : p = q
    · simp [hp]
    · simp only [hp, if_false]
      unfold headerAt
      show (s1.headers p).getD defaultHeader = _
      rw [e3]
  · intro k
    simp only [bucket_setBucket, bucket_setPageHeader]
    have hbk : ∀ j, bucket { s1 with freePages := s1.freePages.tail } j = bucket s j := by
      intro j
      unfold bucket
      show (s1.classifiedPages j).getD [] = _
      rw [e4]
    by_cases hkc : k = (c : Int)
    · simp [hkc, hbk]
    · simp [hkc, hbk]
  · intro p hp
    apply isSome_setPageHeader
    show (s1.headers p).isSome = true
    rw [e3]
    exact hp

/-- `allocFromBucket` when the first page of the bucket is a divided page of the
class whose cursor designates one of its blocks. -/
theorem allocFromBucket_spec (s : State) (c p o : Nat) (rest : List Nat)
    (hb : s.startPointer + MEMORY_SIZE < WORD) (hc : c ∈ classSizes)
    (hbk : bucket s (c : Int) = p :: rest) (hnd : (bucket s (c : Int)).Nodup)
    (hp : p ∈ pagesOf s.startPointer)
    (hh : headerAt s p = ⟨pageStatus.Divided, c, p + o + 1⟩)
    (ho : o < 4096) (hd : c ∣ o) :
    ∃ s' o'' B', allocFromBucket s c = some (p + o + 1, s')
      ∧ s'.startPointer = s.startPointer ∧ s'.freePages = s.freePages
      ∧ (∀ i, s'.memory i = if i = p - s.startPointer + o then 0 else s.memory i)
      ∧ (∀ q, (s.headers q).isSome = true → (s'.headers q).isSome = true)
      ∧ o'' < 4096 ∧ c ∣ o''
      ∧ (∀ q, headerAt s' q
          = if q = p then ⟨pageStatus.Divided, c, p + o'' + 1⟩ else headerAt s q)
      ∧ (∀ k, bucket s' k = if k = (c : Int) then B' else bucket s k)
      ∧ (p ∈ B' ↔ ∃ o', o' < 4096 ∧ c ∣ o' ∧ flagFree s' p o')
      ∧ (∀ p', p' ≠ p → (p' ∈ B' ↔ p' ∈ bucket s (c : Int)))
      ∧ B'.Nodup := by
  have hpb := page_bounds _ _ hp
  have hk := (class_toInt c hc).1
  have hbb := block_bound c o hc ho hd
  have hcf := class_facts c hc
  have hsub : ptrSub (p + o + 1) BLOCK_HEADER_SIZE = p + o := by
    show ptrSub (p + o + 1) 1 = p + o
    rw [ptrSub_eq _ _ (by omega) (by omega)]
    omega
  let s2 : State := touchHeader (touchBucket s (c : Int)) p
  let s3 : State := { s2 with memory := fun i =>
    if i = p - s.startPointer + o then 0 else s2.memory i }
  have hw : setBlockHeader s2 (p + o) false = some s3 := by
    unfold setBlockHeader
    exact writeByte_block s2 p o 0 hp ho
  have hh3 : ∀ q, headerAt s3 q = headerAt s q := by
    intro q
    show headerAt s2 q = _
    simp [s2]
  have hb3 : ∀ k, bucket s3 k = bucket s k := by
    intro k
    show bucket s2 k = _
    simp [s2]
  have hsome3 : ∀ q, (s.headers q).isSome = true → (s3.headers q).isSome = true := by
    intro q hq
    show (s2.headers q).isSome = true
    exact isSome_touchHeader _ _ _ hq
  obtain ⟨r, hr, hres⟩ := anyFreeBlock_spec s3 p c hb hp hc
  have hstart : allocFromBucket s c =
      (if r ≠ 0 then some (p + o + 1, setAvailableBlock s3 p r)
        else if p ∈ bucket s3 (c : Int) then
          some (p + o + 1, setBucket s3 (c : Int) ((bucket s3 (c : Int)).erase p))
        else none) := by
    unfold allocFromBucket
    simp only [hk, bucket_touchBucket, hbk, headerAt_touchHeader, headerAt_touchBucket, hh,
      hsub]
    rw [hw]
    simp only [hr]
  rcases hres with ⟨h0, hall⟩ | ⟨o', ho', hd', hr', hfree⟩
  · have hin : p ∈ bucket s3 (c : Int) := by rw [hb3, hbk]; simp
    refine ⟨setBucket s3 (c : Int) ((bucket s3 (c : Int)).erase p), o,
      (bucket s (c : Int)).erase p, ?_, rfl, rfl, fun i => rfl, hsome3, ho, hd, ?_, ?_, ?_,
      ?_, hnd.erase p⟩
    · rw [hstart, h0]
      simp [hin]
    · intro q
      rw [headerAt_setBucket, hh3]
      by_cases hq : q = p
      · simp [hq, hh]
      · simp [hq]
    · intro k
      rw [bucket_setBucket, hb3, hb3]
    · constructor
      · intro hmem
        exact absurd hmem (by rw [hnd.mem_erase_iff]; simp)
      · rintro ⟨o', h1, h2, h3⟩
        exact absurd h3 (hall o' h1 h2)
    · intro p' hne
      rw [hnd.mem_erase_iff]
      simp [hne]
  · have hr0 : r ≠ 0 := by omega
    refine ⟨setAvailableBlock s3 p r, o', bucket s (c : Int), ?_, rfl, rfl, fun i => rfl,
      ?_, ho', hd', ?_, ?_, ?_, fun _ _ => Iff.rfl, hnd⟩
    · rw [hstart]
      simp [hr0]
    · intro q hq
      exact isSome_setAvailableBlock _ _ _ _ (hsome3 q hq)
    · intro q
      rw [headerAt_setAvailableBlock, hh3, hh3, hh, hr']
    · intro k
      rw [bucket_setAvailableBlock, hb3]
      by_cases hkc : k = (c : Int) <;> simp [hkc]
    · constructor
      · intro _
        exact ⟨o', ho', hd', hfree⟩
      · intro _
        rw [hbk]
        simp

/-! ## Preservation of the invariant by `mem_alloc` -/

theorem flagFree_congr (s s' : State) (p o : Nat) (hs : s'.startPointer = s.startPointer)
    (hm : s'.memory (p - s.startPointer + o) = s.memory (p - s.startPointer + o)) :
    flagFree s' p o ↔ flagFree s p o := by
  unfold flagFree
  rw [hs, hm]

/-- Handing out the block at offset `o` of the divided page `p`: the flag byte
becomes busy, the cursor moves to some block of the page, and the page stays in
its bucket exactly when it still has a free block. -/
theorem inv_alloc_block (s s' : State) (A : List Nat) (chains : List (List Nat))
    (c p o o'' : Nat) (B' : List Nat)
    (hI : InvCore s A chains)
    (hbusy : ∀ q ∈ pagesOf s.startPointer, q ≠ p →
      (headerAt s q).status = pageStatus.Divided → hasBusy s q)
    (hc : c ∈ classSizes) (hp : p ∈ pagesOf s.startPointer)
    (hh : headerAt s p = ⟨pageStatus.Divided, c, p + o + 1⟩) (ho : o < 4096) (hd : c ∣ o)
    (e1 : s'.startPointer = s.startPointer) (e2 : s'.freePages = s.freePages)
    (e3 : ∀ i, s'.memory i = if i = p - s.startPointer + o then 0 else s.memory i)
    (e4 : ∀ q, (s.headers q).isSome = true → (s'.headers q).isSome = true)
    (ho'' : o'' < 4096) (hd'' : c ∣ o'')
    (e5 : ∀ q, headerAt s' q
      = if q = p then ⟨pageStatus.Divided, c, p + o'' + 1⟩ else headerAt s q)
    (e6 : ∀ k, bucket s' k = if k = (c : Int) then B' else bucket s k)
    (e7 : p ∈ B' ↔ ∃ o', o' < 4096 ∧ c ∣ o' ∧ flagFree s' p o')
    (e8 : ∀ p', p' ≠ p → (p' ∈ B' ↔ p' ∈ bucket s (c : Int)))
    (e9 : B'.Nodup) :
    InvCore s' (A ++ [p + o + 1]) chains ∧ allBusy s' := by
  have hcf := class_facts c hc
  have hbb := block_bound c o hc ho hd
  have hpb := page_bounds _ _ hp
  have hst : ∀ q, (headerAt s' q).status = (headerAt s q).status := by
    intro q
    rw [e5]
    by_cases hq : q = p
    · simp [hq, hh]
    · simp [hq]
  have hcs : ∀ q, (headerAt s' q).classSize = (headerAt s q).classSize := by
    intro q
    rw [e5]
    by_cases hq : q = p
    · simp [hq, hh]
    · simp [hq]
  have hhne : ∀ q, q ≠ p → headerAt s' q = headerAt s q := by
    intro q hq
    rw [e5]
    simp [hq]
  have hflag : ∀ q ∈ pagesOf s.startPointer, ∀ o1, o1 < 4096 →
      (flagFree s' q o1 ↔ ¬ (q = p ∧ o1 = o) ∧ flagFree s q o1) := by
    intro q hq o1 ho1
    unfold flagFree
    rw [e1, e3]
    by_cases heq : q - s.startPointer + o1 = p - s.startPointer + o
    · have := flag_place_inj _ _ _ _ _ hq hp ho1 ho heq
      simp [heq, this]
    · have : ¬ (q = p ∧ o1 = o) := by
        rintro ⟨rfl, rfl⟩
        exact heq rfl
      simp [heq, this]
  have hpo : pageOf s.startPointer (p + o + 1) = p := by
    rw [Nat.add_assoc]
    exact pageOf_add _ _ _ hp (by omega)
  have hpD : (headerAt s p).status = pageStatus.Divided := by rw [hh]
  have hpC : (headerAt s p).classSize = c := by rw [hh]
  refine ⟨{
    base_pos := by rw [e1]; exact hI.base_pos
    base_lt := by rw [e1]; exact hI.base_lt
    hdr_some := by
      intro q hq
      rw [e1] at hq
      exact e4 q (hI.hdr_some q hq)
    pool_nodup := by rw [e2]; exact hI.pool_nodup
    pool_iff := by
      intro q
      rw [e2, e1, hst]
      exact hI.pool_iff q
    free_hdr := by
      intro q hq hf
      rw [e1] at hq
      rw [hst] at hf
      have hne : q ≠ p := by
        rintro rfl
        rw [hpD] at hf
        exact absurd hf (by decide)
      rw [hhne q hne]
      exact hI.free_hdr q hq hf
    div_class := by
      intro q hq hdv
      rw [e1] at hq
      rw [hst] at hdv
      rw [hcs]
      exact hI.div_class q hq hdv
    div_cursor := by
      intro q hq hdv
      rw [e1] at hq
      rw [hst] at hdv
      by_cases hne : q = p
      · subst hne
        refine ⟨o'', ho'', ?_, ?_⟩
        · rw [hcs, hpC]; exact hd''
        · rw [e5]; simp
      · rw [hhne q hne]
        exact hI.div_cursor q hq hdv
    div_bucket := by
      intro q hq hdv
      rw [e1] at hq
      rw [hst] at hdv
      by_cases hne : q = p
      · subst hne
        rw [hcs, hpC, e6, if_pos rfl]
        exact e7
      · have hmem : q ∈ bucket s' ((headerAt s' q).classSize : Int)
            ↔ q ∈ bucket s ((headerAt s q).classSize : Int) := by
          rw [hcs, e6]
          by_cases hk : ((headerAt s q).classSize : Int) = (c : Int)
          · rw [if_pos hk, hk]
            exact e8 q hne
          · rw [if_neg hk]
        rw [hmem, hI.div_bucket q hq hdv, hcs]
        constructor
        · rintro ⟨o1, h1, h2, h3⟩
          exact ⟨o1, h1, h2, (hflag q hq o1 h1).2 ⟨fun h => hne h.1, h3⟩⟩
        · rintro ⟨o1, h1, h2, h3⟩
          exact ⟨o1, h1, h2, ((hflag q hq o1 h1).1 h3).2⟩
    bucket_pages := by
      intro k hk q hq
      rw [e1, hst, hcs]
      rw [e6] at hq
      by_cases hkc : k = (c : Int)
      · rw [if_pos hkc] at hq
        by_cases hne : q = p
        · subst hne
          exact ⟨hp, hpD, by rw [hpC, hkc]⟩
        · have := (e8 q hne).1 hq
          rw [← hkc] at this
          exact hI.bucket_pages k hk q this
      · rw [if_neg hkc] at hq
        exact hI.bucket_pages k hk q hq
    bucket_nodup := by
      intro k hk
      rw [e6]
      by_cases hkc : k = (c : Int)
      · rw [if_pos hkc]; exact e9
      · rw [if_neg hkc]; exact hI.bucket_nodup k hk
    live_arena := by
      intro a ha
      rw [e1, hst]
      rcases List.mem_append.1 ha with h | h
      · exact hI.live_arena a h
      · simp only [List.mem_singleton] at h
        subst h
        rw [hpo, hpD]
        exact ⟨by omega, by omega, by decide⟩
    live_div := by
      intro a ha hdv
      rw [e1] at hdv ⊢
      rw [hst] at hdv
      rw [hcs]
      rcases List.mem_append.1 ha with h | h
      · obtain ⟨o1, h1, h2, h3, h4⟩ := hI.live_div a h hdv
        have hq := pageOf_mem _ _ (hI.live_arena a h).1 (hI.live_arena a h).2.1
        exact ⟨o1, h1, h2, h3, fun hf => h4 ((hflag _ hq o1 h1).1 hf).2⟩
      · simp only [List.mem_singleton] at h
        subst h
        rw [hpo, hpC]
        refine ⟨o, ho, hd, rfl, ?_⟩
        intro hf
        exact ((hflag p hp o ho).1 hf).1 ⟨rfl, rfl⟩
    busy_live := by
      intro q hq hdv o1 h1 h2 h3
      rw [e1] at hq
      rw [hst] at hdv
      rw [hcs] at h2
      by_cases heq : q = p ∧ o1 = o
      · rw [heq.1, heq.2]
        simp
      · have : ¬ flagFree s q o1 := fun hf => h3 ((hflag q hq o1 h1).2 ⟨heq, hf⟩)
        exact List.mem_append_left _ (hI.busy_live q hq hdv o1 h1 h2 this)
    live_multi := by
      intro a ha hm
      rw [e1, hst] at hm
      rcases List.mem_append.1 ha with h | h
      · exact hI.live_multi a h hm
      · simp only [List.mem_singleton] at h
        subst h
        rw [hpo, hpD] at hm
        exact absurd hm (by decide)
    chains_nodup := hI.chains_nodup
    chains_disjoint := hI.chains_disjoint
    chains_multi := by
      intro q
      rw [e1, hst]
      exact hI.chains_multi q
    chains_linked := by
      intro ch hch
      apply chainLinked_frame s s' _ ch _ (hI.chains_linked ch hch)
      intro q hq
      have := (hI.chains_multi q).1 ⟨ch, hch, hq⟩
      apply hhne
      rintro rfl
      rw [hpD] at this
      exact absurd this.2 (by decide)
    chains_head := by
      intro ch hch
      obtain ⟨a, ha, hhead⟩ := hI.chains_head ch hch
      exact ⟨a, List.mem_append_left _ ha, hhead⟩ }, ?_⟩
  intro q hq hdv
  rw [e1] at hq
  rw [hst] at hdv
  unfold hasBusy
  rw [hcs]
  by_cases hne : q = p
  · subst hne
    refine ⟨o, ho, by rw [hpC]; exact hd, ?_⟩
    intro hf
    exact ((hflag q hp o ho).1 hf).1 ⟨rfl, rfl⟩
  · obtain ⟨o1, h1, h2, h3⟩ := hbusy q hq hne hdv
    exact ⟨o1, h1, h2, fun hf => h3 ((hflag q hq o1 h1).1 hf).2⟩

/-- Dividing the first page `q` of the pool into blocks of `c` bytes.  All the
blocks of `q` are free afterwards, so `q` alone may lack a busy block. -/
theorem inv_carve (s s2 : State) (A : List Nat) (chains : List (List Nat))
    (c q : Nat) (rest : List Nat)
    (hI : InvCore s A chains) (hB : allBusy s)
    (hc : c ∈ classSizes) (hpool : s.freePages = q :: rest)
    (e1 : s2.startPointer = s.startPointer) (e2 : s2.freePages = rest)
    (e3 : ∀ i, s2.memory i =
      if q - s.startPointer ≤ i ∧ i < q - s.startPointer + 4096
        ∧ c ∣ (i - (q - s.startPointer)) then 1 else s.memory i)
    (e4 : ∀ p, headerAt s2 p
      = if p = q then ⟨pageStatus.Divided, c, q + 1⟩ else headerAt s p)
    (e5 : ∀ k, bucket s2 k = if k = (c : Int) then bucket s k ++ [q] else bucket s k)
    (e6 : ∀ p, (s.headers p).isSome = true → (s2.headers p).isSome = true) :
    InvCore s2 A chains
      ∧ ∀ p ∈ pagesOf s2.startPointer, p ≠ q →
          (headerAt s2 p).status = pageStatus.Divided → hasBusy s2 p := by
  have hcf := class_facts c hc
  have hck := (class_toInt c hc).2
  have hqpool : q ∈ s.freePages := by rw [hpool]; simp
  have hq := ((hI.pool_iff q).1 hqpool).1
  have hqF := ((hI.pool_iff q).1 hqpool).2
  have hqb := page_bounds _ _ hq
  have hnd : (q :: rest).Nodup := by rw [← hpool]; exact hI.pool_nodup
  have hhne : ∀ p, p ≠ q → headerAt s2 p = headerAt s p := by
    intro p hp
    rw [e4]
    simp [hp]
  have hhq : headerAt s2 q = ⟨pageStatus.Divided, c, q + 1⟩ := by
    rw [e4]
    simp
  have hnotF : ∀ p, (headerAt s p).status ≠ pageStatus.Free → p ≠ q := by
    rintro p h rfl
    exact h hqF
  have hflag : ∀ p ∈ pagesOf s.startPointer, p ≠ q → ∀ o1, o1 < 4096 →
      (flagFree s2 p o1 ↔ flagFree s p o1) := by
    intro p hp hne o1 ho1
    apply flagFree_congr _ _ _ _ e1
    rw [e3, if_neg]
    rintro ⟨h1, h2, _⟩
    have := flag_place_inj s.startPointer p q o1
      (p - s.startPointer + o1 - (q - s.startPointer)) hp hq ho1 (by omega) (by omega)
    exact hne this.1
  have hflagq : ∀ o1, o1 < 4096 → c ∣ o1 → flagFree s2 q o1 := by
    intro o1 ho1 hd1
    unfold flagFree
    rw [e1, e3, if_pos]
    · decide
    · refine ⟨by omega, by omega, ?_⟩
      rw [Nat.add_sub_cancel_left]
      exact hd1
  have hmemq : ∀ (l : List Nat) (p : Nat), p ≠ q → (p ∈ l ++ [q] ↔ p ∈ l) := by
    intro l p hp
    simp [hp]
  refine ⟨{
    base_pos := by rw [e1]; exact hI.base_pos
    base_lt := by rw [e1]; exact hI.base_lt
    hdr_some := by
      intro p hp
      rw [e1] at hp
      exact e6 p (hI.hdr_some p hp)
    pool_nodup := by rw [e2]; exact (List.nodup_cons.1 hnd).2
    pool_iff := by
      intro p
      rw [e2, e1]
      by_cases hp : p = q
      · subst hp
        rw [hhq]
        constructor
        · intro h
          exact absurd h (List.nodup_cons.1 hnd).1
        · rintro ⟨_, h⟩
          simp at h
      · rw [hhne p hp, ← hI.pool_iff p, hpool]
        simp [hp]
    free_hdr := by
      intro p hp hf
      rw [e1] at hp
      by_cases hne : p = q
      · subst hne
        rw [hhq] at hf
        simp at hf
      · rw [hhne p hne] at hf ⊢
        exact hI.free_hdr p hp hf
    div_class := by
      intro p hp hdv
      rw [e1] at hp
      by_cases hne : p = q
      · subst hne
        rw [hhq]
        exact hc
      · rw [hhne p hne] at hdv ⊢
        exact hI.div_class p hp hdv
    div_cursor := by
      intro p hp hdv
      rw [e1] at hp
      by_cases hne : p = q
      · subst hne
        rw [hhq]
        exact ⟨0, by omega, dvd_zero c, rfl⟩
      · rw [hhne p hne] at hdv ⊢
        exact hI.div_cursor p hp hdv
    div_bucket := by
      intro p hp hdv
      rw [e1] at hp
      by_cases hne : p = q
      · subst hne
        rw [hhq]
        simp only [e5, if_true]
        constructor
        · intro _
          exact ⟨0, by omega, dvd_zero c, hflagq 0 (by omega) (dvd_zero c)⟩
        · intro _
          simp
      · rw [hhne p hne] at hdv ⊢
        have hmem : p ∈ bucket s2 ((headerAt s p).classSize : Int)
            ↔ p ∈ bucket s ((headerAt s p).classSize : Int) := by
          rw [e5]
          by_cases hk : ((headerAt s p).classSize : Int) = (c : Int)
          · rw [if_pos hk]
            exact hmemq _ p hne
          · rw [if_neg hk]
        rw [hmem, hI.div_bucket p hp hdv]
        constructor
        · rintro ⟨o1, h1, h2, h3⟩
          exact ⟨o1, h1, h2, (hflag p hp hne o1 h1).2 h3⟩
        · rintro ⟨o1, h1, h2, h3⟩
          exact ⟨o1, h1, h2, (hflag p hp hne o1 h1).1 h3⟩
    bucket_pages := by
      intro k hk p hpk
      rw [e1]
      rw [e5] at hpk
      have hold : p ∈ bucket s k → p ∈ pagesOf s.startPointer
          ∧ (headerAt s2 p).status = pageStatus.Divided
          ∧ ((headerAt s2 p).classSize : Int) = k := by
        intro h
        have h' := hI.bucket_pages k hk p h
        have hne : p ≠ q := hnotF p (by rw [h'.2.1]; decide)
        rw [hhne p hne]
        exact h'
      by_cases hkc : k = (c : Int)
      · rw [if_pos hkc] at hpk
        rcases List.mem_append.1 hpk with h | h
        · exact hold h
        · simp only [List.mem_singleton] at h
          subst h
          rw [hhq]
          exact ⟨hq, rfl, hkc.symm⟩
      · rw [if_neg hkc] at hpk
        exact hold hpk
    bucket_nodup := by
      intro k hk
      rw [e5]
      by_cases hkc : k = (c : Int)
      · rw [if_pos hkc]
        apply List.Nodup.append (hI.bucket_nodup k hk) (List.nodup_singleton q)
        intro p hp1 hp2
        simp only [List.mem_singleton] at hp2
        subst hp2
        have := (hI.bucket_pages k hk p hp1).2.1
        rw [hqF] at this
        exact absurd this (by decide)
      · rw [if_neg hkc]
        exact hI.bucket_nodup k hk
    live_arena := by
      intro a ha
      rw [e1]
      have h := hI.live_arena a ha
      rw [hhne _ (hnotF _ h.2.2)]
      exact h
    live_div := by
      intro a ha hdv
      rw [e1] at hdv ⊢
      have h := hI.live_arena a ha
      have hne := hnotF _ h.2.2
      rw [hhne _ hne] at hdv ⊢
      obtain ⟨o1, h1, h2, h3, h4⟩ := hI.live_div a ha hdv
      exact ⟨o1, h1, h2, h3,
        fun hf => h4 ((hflag _ (pageOf_mem _ _ h.1 h.2.1) hne o1 h1).1 hf)⟩
    busy_live := by
      intro p hp hdv o1 h1 h2 h3
      rw [e1] at hp
      by_cases hne : p = q
      · subst hne
        rw [hhq] at h2
        exact absurd (hflagq o1 h1 h2) h3
      · rw [hhne p hne] at hdv h2
        exact hI.busy_live p hp hdv o1 h1 h2 (fun hf => h3 ((hflag p hp hne o1 h1).2 hf))
    live_multi := by
      intro a ha hm
      rw [e1] at hm
      have h := hI.live_arena a ha
      rw [hhne _ (hnotF _ h.2.2)] at hm
      exact hI.live_multi a ha hm
    chains_nodup := hI.chains_nodup
    chains_disjoint := hI.chains_disjoint
    chains_multi := by
      intro p
      rw [e1, hI.chains_multi p]
      by_cases hne : p = q
      · subst hne
        rw [hhq, hqF]
        simp
      · rw [hhne p hne]
    chains_linked := by
      intro ch hch
      apply chainLinked_frame s s2 _ ch _ (hI.chains_linked ch hch)
      intro p hp
      have := (hI.chains_multi p).1 ⟨ch, hch, hp⟩
      exact hhne p (hnotF p (by rw [this.2]; decide))
    chains_head := hI.chains_head }, ?_⟩
  intro p hp hne hdv
  rw [e1] at hp
  rw [hhne p hne] at hdv
  obtain ⟨o1, h1, h2, h3⟩ := hB p hp hdv
  unfold hasBusy
  rw [hhne p hne]
  exact ⟨o1, h1, h2, fun hf => h3 ((hflag p hp hne o1 h1).1 hf)⟩

/-- The invariant only looks at the state through `startPointer`, `memory`,
`freePages`, `headerAt`, `bucket` and the presence of the page headers. -/
theorem InvCore_congr (s s' : State) (A : List Nat) (chains : List (List Nat))
    (hI : InvCore s A chains)
    (e1 : s'.startPointer = s.startPointer) (e2 : s'.freePages = s.freePages)
    (e3 : ∀ i, s'.memory i = s.memory i)
    (e4 : ∀ q, headerAt s' q = headerAt s q)
    (e5 : ∀ k, bucket s' k = bucket s k)
    (e6 : ∀ q, (s.headers q).isSome = true → (s'.headers q).isSome = true) :
    InvCore s' A chains := by
  have hflag : ∀ p o, flagFree s' p o ↔ flagFree s p o :=
    fun p o => flagFree_congr s s' p o e1 (e3 _)
  exact {
    base_pos := by rw [e1]; exact hI.base_pos
    base_lt := by rw [e1]; exact hI.base_lt
    hdr_some := by
      intro q hq
      rw [e1] at hq
      exact e6 q (hI.hdr_some q hq)
    pool_nodup := by rw [e2]; exact hI.pool_nodup
    pool_iff := by
      intro q
      rw [e2, e1, e4]
      exact hI.pool_iff q
    free_hdr := by
      intro q hq hf
      rw [e1] at hq
      rw [e4] at hf ⊢
      exact hI.free_hdr q hq hf
    div_class := by
      intro q hq hdv
      rw [e1] at hq
      rw [e4] at hdv ⊢
      exact hI.div_class q hq hdv
    div_cursor := by
      intro q hq hdv
      rw [e1] at hq
      rw [e4] at hdv ⊢
      exact hI.div_cursor q hq hdv
    div_bucket := by
      intro q hq hdv
      rw [e1] at hq
      rw [e4] at hdv ⊢
      rw [e5, hI.div_bucket q hq hdv]
      simp only [hflag]
    bucket_pages := by
      intro k hk q hq
      rw [e5] at hq
      rw [e1, e4]
      exact hI.bucket_pages k hk q hq
    bucket_nodup := by
      intro k hk
      rw [e5]
      exact hI.bucket_nodup k hk
    live_arena := by
      intro a ha
      rw [e1, e4]
      exact hI.live_arena a ha
    live_div := by
      intro a ha hdv
      rw [e1] at hdv ⊢
      rw [e4] at hdv ⊢
      simp only [hflag]
      exact hI.live_div a ha hdv
    busy_live := by
      intro q hq hdv o1 h1 h2 h3
      rw [e1] at hq
      rw [e4] at hdv h2
      rw [hflag] at h3
      exact hI.busy_live q hq hdv o1 h1 h2 h3
    live_multi := by
      intro a ha hm
      rw [e1, e4] at hm
      exact hI.live_multi a ha hm
    chains_nodup := hI.chains_nodup
    chains_disjoint := hI.chains_disjoint
    chains_multi := by
      intro q
      rw [e1, e4]
      exact hI.chains_multi q
    chains_linked := by
      intro ch hch
      exact chainLinked_frame s s' _ ch (fun q _ => e4 q) (hI.chains_linked ch hch)
    chains_head := hI.chains_head }

theorem allBusy_congr (s s' : State) (hB : allBusy s)
    (e1 : s'.startPointer = s.startPointer) (e3 : ∀ i, s'.memory i = s.memory i)
    (e4 : ∀ q, headerAt s' q = headerAt s q) : allBusy s' := by
  intro q hq hdv
  rw [e1] at hq
  rw [e4] at hdv
  obtain ⟨o1, h1, h2, h3⟩ := hB q hq hdv
  unfold hasBusy
  rw [e4]
  exact ⟨o1, h1, h2, fun hf => h3 ((flagFree_congr s s' q o1 e1 (e3 _)).1 hf)⟩

theorem headerAt_of_headers_eq (s s' : State) (q : Nat) (h : s'.headers q = s.headers q) :
    headerAt s' q = headerAt s q := by
  unfold headerAt
  rw [h]

/-- Taking the first `n` pages of the pool as a new multi-page block. -/
theorem inv_alloc_multi (s s' : State) (A : List Nat) (chains : List (List Nat))
    (n first : Nat) (rest : List Nat)
    (hI : InvCore s A chains) (hB : allBusy s)
    (hn : 1 ≤ n) (hlen : n ≤ s.freePages.length) (hfp : s.freePages = first :: rest)
    (e1 : s'.startPointer = s.startPointer)
    (e2 : s'.freePages = s.freePages.drop n)
    (e3 : s'.memory = s.memory) (e4 : s'.classifiedPages = s.classifiedPages)
    (e5 : ∀ q, q ∉ s.freePages.take n → s'.headers q = s.headers q)
    (e6 : chainLinked s' (n * PAGE_SIZE) (s.freePages.take n))
    (e7 : ∀ q, (s.headers q).isSome = true → (s'.headers q).isSome = true) :
    InvCore s' (A ++ [first]) (chains ++ [s.freePages.take n]) ∧ allBusy s' := by
  have hnd := hI.pool_nodup
  have htake : ∀ q, q ∈ s.freePages.take n →
      q ∈ pagesOf s.startPointer ∧ (headerAt s q).status = pageStatus.Free :=
    fun q hq => (hI.pool_iff q).1 (List.mem_of_mem_take hq)
  have hnew := chainLinked_header s' _ _ e6
  have hhne : ∀ q, q ∉ s.freePages.take n → headerAt s' q = headerAt s q :=
    fun q hq => headerAt_of_headers_eq s s' q (e5 q hq)
  have hnotF : ∀ q, (headerAt s q).status ≠ pageStatus.Free → q ∉ s.freePages.take n :=
    fun q h hq => h (htake q hq).2
  have hbk : ∀ k, bucket s' k = bucket s k := by
    intro k
    unfold bucket
    rw [e4]
  have hflag : ∀ p o, flagFree s' p o ↔ flagFree s p o := by
    intro p o
    apply flagFree_congr _ _ _ _ e1
    rw [e3]
  have hsplit : s.freePages.take n ++ s.freePages.drop n = s.freePages :=
    List.take_append_drop n s.freePages
  have hnd2 : (s.freePages.take n ++ s.freePages.drop n).Nodup := by rw [hsplit]; exact hnd
  have hdisj := (List.nodup_append.1 hnd2).2.2
  have hfirst : first ∈ s.freePages.take n := by
    rw [hfp]
    obtain ⟨m, rfl⟩ : ∃ m, n = m + 1 := ⟨n - 1, by omega⟩
    simp
  have hfirstP := (htake first hfirst).1
  have hhead : (s.freePages.take n).head? = some first := by
    rw [hfp]
    obtain ⟨m, rfl⟩ : ∃ m, n = m + 1 := ⟨n - 1, by omega⟩
    simp
  have hDivne : ∀ q, (headerAt s' q).status = pageStatus.Divided →
      q ∉ s.freePages.take n := by
    intro q hdv hq
    rw [(hnew q hq).1] at hdv
    exact absurd hdv (by decide)
  refine ⟨{
    base_pos := by rw [e1]; exact hI.base_pos
    base_lt := by rw [e1]; exact hI.base_lt
    hdr_some := by
      intro q hq
      rw [e1] at hq
      exact e7 q (hI.hdr_some q hq)
    pool_nodup := by rw [e2]; exact (List.nodup_append.1 hnd2).2.1
    pool_iff := by
      intro q
      rw [e2, e1]
      by_cases hq : q ∈ s.freePages.take n
      · rw [(hnew q hq).1]
        constructor
        · intro h
          exact absurd h (fun h' => hdisj hq h')
        · rintro ⟨_, h⟩
          exact absurd h (by decide)
      · rw [hhne q hq, ← hI.pool_iff q]
        constructor
        · exact fun h => List.mem_of_mem_drop h
        · intro h
          rw [← hsplit] at h
          rcases List.mem_append.1 h with h' | h'
          · exact absurd h' hq
          · exact h'
    free_hdr := by
      intro q hq hf
      rw [e1] at hq
      by_cases hq' : q ∈ s.freePages.take n
      · rw [(hnew q hq').1] at hf
        exact absurd hf (by decide)
      · rw [hhne q hq'] at hf ⊢
        exact hI.free_hdr q hq hf
    div_class := by
      intro q hq hdv
      rw [e1] at hq
      have hq' := hDivne q hdv
      rw [hhne q hq'] at hdv ⊢
      exact hI.div_class q hq hdv
    div_cursor := by
      intro q hq hdv
      rw [e1] at hq
      have hq' := hDivne q hdv
      rw [hhne q hq'] at hdv ⊢
      exact hI.div_cursor q hq hdv
    div_bucket := by
      intro q hq hdv
      rw [e1] at hq
      have hq' := hDivne q hdv
      rw [hhne q hq'] at hdv ⊢
      rw [hbk, hI.div_bucket q hq hdv]
      simp only [hflag]
    bucket_pages := by
      intro k hk q hq
      rw [hbk] at hq
      rw [e1]
      have h := hI.bucket_pages k hk q hq
      rw [hhne q (hnotF q (by rw [h.2.1]; decide))]
      exact h
    bucket_nodup := by
      intro k hk
      rw [hbk]
      exact hI.bucket_nodup k hk
    live_arena := by
      intro a ha
      rw [e1]
      rcases List.mem_append.1 ha with h | h
      · have h' := hI.live_arena a h
        rw [hhne _ (hnotF _ h'.2.2)]
        exact h'
      · simp only [List.mem_singleton] at h
        subst h
        have hb := page_bounds _ _ hfirstP
        rw [pageOf_page _ _ hfirstP, (hnew a hfirst).1]
        exact ⟨hb.1, by omega, by decide⟩
    live_div := by
      intro a ha hdv
      rw [e1] at hdv ⊢
      rcases List.mem_append.1 ha with h | h
      · have h' := hI.live_arena a h
        rw [hhne _ (hnotF _ h'.2.2)] at hdv ⊢
        simp only [hflag]
        exact hI.live_div a h hdv
      · simp only [List.mem_singleton] at h
        subst h
        rw [pageOf_page _ _ hfirstP, (hnew a hfirst).1] at hdv
        exact absurd hdv (by decide)
    busy_live := by
      intro q hq hdv o1 h1 h2 h3
      rw [e1] at hq
      have hq' := hDivne q hdv
      rw [hhne q hq'] at hdv h2
      rw [hflag] at h3
      exact List.mem_append_left _ (hI.busy_live q hq hdv o1 h1 h2 h3)
    live_multi := by
      intro a ha hm
      rw [e1] at hm
      rcases List.mem_append.1 ha with h | h
      · have h' := hI.live_arena a h
        rw [hhne _ (hnotF _ h'.2.2)] at hm
        obtain ⟨ch, hch, hhd⟩ := hI.live_multi a h hm
        exact ⟨ch, List.mem_append_left _ hch, hhd⟩
      · simp only [List.mem_singleton] at h
        subst h
        exact ⟨_, List.mem_append_right _ (List.mem_singleton_self _), hhead⟩
    chains_nodup := by
      intro ch hch
      rcases List.mem_append.1 hch with h | h
      · exact hI.chains_nodup ch h
      · simp only [List.mem_singleton] at h
        subst h
        exact (List.nodup_append.1 hnd2).1
    chains_disjoint := by
      have hold : ∀ ch ∈ chains, ∀ p ∈ ch, p ∉ s.freePages.take n := by
        intro ch hch p hp
        have := (hI.chains_multi p).1 ⟨ch, hch, hp⟩
        exact hnotF p (by rw [this.2]; decide)
      intro ch hch ch' hch' p hp hp'
      rcases List.mem_append.1 hch with h | h <;> rcases List.mem_append.1 hch' with h' | h'
      · exact hI.chains_disjoint ch h ch' h' p hp hp'
      · simp only [List.mem_singleton] at h'
        subst h'
        exact absurd hp' (hold ch h p hp)
      · simp only [List.mem_singleton] at h
        subst h
        exact absurd hp (hold ch' h' p hp')
      · simp only [List.mem_singleton] at h h'
        rw [h, h']
    chains_multi := by
      intro q
      rw [e1]
      by_cases hq : q ∈ s.freePages.take n
      · rw [(hnew q hq).1]
        constructor
        · intro _
          exact ⟨(htake q hq).1, rfl⟩
        · intro _
          exact ⟨_, List.mem_append_right _ (List.mem_singleton_self _), hq⟩
      · rw [hhne q hq, ← hI.chains_multi q]
        constructor
        · rintro ⟨ch, hch, hqc⟩
          rcases List.mem_append.1 hch with h | h
          · exact ⟨ch, h, hqc⟩
          · simp only [List.mem_singleton] at h
            subst h
            exact absurd hqc hq
        · rintro ⟨ch, hch, hqc⟩
          exact ⟨ch, List.mem_append_left _ hch, hqc⟩
    chains_linked := by
      intro ch hch
      rcases List.mem_append.1 hch with h | h
      · apply chainLinked_frame s s' _ ch _ (hI.chains_linked ch h)
        intro q hq
        have := (hI.chains_multi q).1 ⟨ch, h, hq⟩
        exact hhne q (hnotF q (by rw [this.2]; decide))
      · simp only [List.mem_singleton] at h
        subst h
        rw [List.length_take, Nat.min_eq_left hlen]
        exact e6
    chains_head := by
      intro ch hch
      rcases List.mem_append.1 hch with h | h
      · obtain ⟨a, ha, hhd⟩ := hI.chains_head ch h
        exact ⟨a, List.mem_append_left _ ha, hhd⟩
      · simp only [List.mem_singleton] at h
        subst h
        exact ⟨first, by simp, hhead⟩ }, ?_⟩
  intro q hq hdv
  rw [e1] at hq
  have hq' := hDivne q hdv
  rw [hhne q hq'] at hdv
  obtain ⟨o1, h1, h2, h3⟩ := hB q hq hdv
  unfold hasBusy
  rw [hhne q hq']
  exact ⟨o1, h1, h2, fun hf => h3 ((hflag q o1).1 hf)⟩

theorem addrs_append (s s' : State) (L : List (Nat × Nat)) (a size : Nat) :
    addrs ⟨s', L ++ [(a, size)]⟩ = addrs ⟨s, L⟩ ++ [a] := by
  simp [addrs]

theorem header_eta (h : memoryPageHeader) (st : pageStatus) (c blk : Nat)
    (h1 : h.status = st) (h2 : h.classSize = c) (h3 : h.availableBlock = blk) :
    h = ⟨st, c, blk⟩ := by
  cases h
  simp at h1 h2 h3
  simp [h1, h2, h3]

/-- The first branch of `mem_alloc` in a state of the invariant: either the
bucket of the class and the pool are empty and the call returns `nullptr`, or
the call returns the address after the flag byte of a block of a divided page
of the class, and that flag byte is busy afterwards.  The invariant holds
again after the call. -/
theorem mem_alloc_small (x : Sys) (size : Nat) (hI : Inv x) (h0 : size ≠ 0)
    (hle : size ≤ 2048) :
    ∃ c, powerOfTwoAligment (size + 1) = some c ∧ c ∈ classSizes ∧ size + 1 < c ∧
      ((bucket x.state (c : Int) = [] ∧ x.state.freePages = []
          ∧ ∃ s', mem_alloc x.state size = some (0, s') ∧ Inv ⟨s', x.live⟩
              ∧ s'.startPointer = x.state.startPointer)
        ∨ ∃ p o s', mem_alloc x.state size = some (p + o + 1, s')
            ∧ p ∈ pagesOf x.state.startPointer ∧ o < 4096 ∧ c ∣ o
            ∧ s'.startPointer = x.state.startPointer
            ∧ (headerAt s' p).status = pageStatus.Divided
            ∧ (headerAt s' p).classSize = c
            ∧ ¬ flagFree s' p o
            ∧ Inv ⟨s', x.live ++ [(p + o + 1, size)]⟩) := by
  obtain ⟨chains, hC, hB⟩ := hI
  obtain ⟨c, hpow, hc, hlt, _⟩ := powerOfTwoAligment_class (size + 1) (by omega) (by omega)
  have hk := (class_toInt c hc).1
  have hk0 := (class_toInt c hc).2
  have hadd : ptrAdd size BLOCK_HEADER_SIZE = size + 1 := by
    show ptrAdd size 1 = size + 1
    exact ptrAdd_eq _ _ (by unfold WORD; omega)
  have hle' : size ≤ PAGE_SIZE / 2 := by unfold PAGE_SIZE; omega
  refine ⟨c, hpow, hc, hlt, ?_⟩
  -- the state after `classifiedPages[classSize]` has been evaluated
  have hC1 : InvCore (touchBucket x.state (c : Int)) (addrs x) chains :=
    InvCore_congr _ _ _ _ hC rfl rfl (fun _ => rfl) (fun _ => rfl) (fun k => by simp)
      (fun _ h => h)
  have hB1 : allBusy (touchBucket x.state (c : Int)) :=
    allBusy_congr _ _ hB rfl (fun _ => rfl) (fun _ => rfl)
  have hunf : mem_alloc x.state size =
      (match (if (bucket x.state (c : Int)).isEmpty
            then setBlocksSize (touchBucket x.state (c : Int)) c
            else some (true, touchBucket x.state (c : Int))) with
        | none => none
        | some (false, s2) => some (0, s2)
        | some (true, s2) => allocFromBucket s2 c) := by
    unfold mem_alloc
    simp only [h0, hle', hadd, hpow, hk, if_true, if_false, bucket_touchBucket]
  match hbk : bucket x.state (c : Int) with
  | [] =>
    match hfp : x.state.freePages with
    | [] =>
      refine Or.inl ⟨rfl, rfl, touchBucket x.state (c : Int), ?_, ⟨chains, hC1, hB1⟩, rfl⟩
      rw [hunf, hbk]
      have : (touchBucket x.state (c : Int)).freePages = [] := hfp
      simp [setBlocksSize, this]
    | q :: rest =>
      have hq : q ∈ pagesOf x.state.startPointer :=
        ((hC.pool_iff q).1 (by rw [hfp]; simp)).1
      obtain ⟨s2, hs2, f1, f2, f3, f4, f5, f6⟩ :=
        setBlocksSize_spec (touchBucket x.state (c : Int)) c q rest hC.base_lt hfp hq hc
      obtain ⟨hC2, hB2⟩ := inv_carve _ s2 _ chains c q rest hC1 hB1 hc hfp f1 f2 f3 f4 f5 f6
      have hbk2 : bucket s2 (c : Int) = [q] := by
        rw [f5, if_pos rfl, bucket_touchBucket, hbk]
        rfl
      have hh2 : headerAt s2 q = ⟨pageStatus.Divided, c, q + 0 + 1⟩ := by
        rw [f4, if_pos rfl]
      have hq2 : q ∈ pagesOf s2.startPointer := by rw [f1]; exact hq
      obtain ⟨s', o'', B', hres, g1, g2, g3, g4, g5, g6, g7, g8, g9, g10, g11⟩ :=
        allocFromBucket_spec s2 c q 0 [] (by rw [f1]; exact hC.base_lt) hc hbk2
          (by rw [hbk2]; simp) hq2 hh2 (by omega) (dvd_zero c)
      obtain ⟨hC3, hB3⟩ := inv_alloc_block s2 s' _ chains c q 0 o'' B' hC2
        (by rw [f1] at hB2; rw [f1]; exact hB2) hc hq2 hh2 (by omega) (dvd_zero c)
        g1 g2 g3 g4 g5 g6 g7 g8 g9 g10 g11
      refine Or.inr ⟨q, 0, s', ?_, hq, by omega, dvd_zero c, ?_, ?_, ?_, ?_,
        chains, ?_, hB3⟩
      · rw [hunf, hbk]
        simp only [List.isEmpty_nil, if_true, hs2]
        exact hres
      · rw [g1]; exact f1
      · rw [g7]; simp
      · rw [g7]; simp
      · have := hC3.live_div (q + 0 + 1) (by simp)
        have hpo : pageOf s'.startPointer (q + 0 + 1) = q := by
          rw [g1, f1]
          exact pageOf_add _ _ _ hq (by omega)
        rw [hpo] at this
        obtain ⟨o1, _, _, h3, h4⟩ := this (by rw [g7]; simp)
        have : o1 = 0 := by omega
        rw [this] at h4
        exact h4
      · rw [addrs_append x.state]
        exact hC3
  | p :: rest =>
    have hpb : p ∈ bucket x.state (c : Int) := by rw [hbk]; simp
    obtain ⟨hp, hpD, hpC⟩ := hC.bucket_pages (c : Int) hk0 p hpb
    have hpC' : (headerAt x.state p).classSize = c := by exact_mod_cast hpC
    obtain ⟨o, ho, hd, hcur⟩ := hC.div_cursor p hp hpD
    rw [hpC'] at hd
    have hh : headerAt (touchBucket x.state (c : Int)) p
        = ⟨pageStatus.Divided, c, p + o + 1⟩ :=
      header_eta _ _ _ _ hpD hpC' hcur
    have hbk1 : bucket (touchBucket x.state (c : Int)) (c : Int) = p :: rest := by
      rw [bucket_touchBucket, hbk]
    obtain ⟨s', o'', B', hres, g1, g2, g3, g4, g5, g6, g7, g8, g9, g10, g11⟩ :=
      allocFromBucket_spec (touchBucket x.state (c : Int)) c p o rest hC.base_lt hc hbk1
        (by rw [bucket_touchBucket]; exact hC.bucket_nodup _ hk0) hp hh ho hd
    obtain ⟨hC3, hB3⟩ := inv_alloc_block (touchBucket x.state (c : Int)) s' _ chains c p o o''
      B' hC1 (fun q hq _ hdv => hB1 q hq hdv) hc hp hh ho hd
      g1 g2 g3 g4 g5 g6 g7 g8 g9 g10 g11
    refine Or.inr ⟨p, o, s', ?_, hp, ho, hd, g1, ?_, ?_, ?_, chains, ?_, hB3⟩
    · rw [hunf, hbk]
      simp only [List.isEmpty_cons, Bool.false_eq_true, if_false]
      exact hres
    · rw [g7]; simp
    · rw [g7]; simp
    · have := hC3.live_div (p + o + 1) (by simp)
      have hpo : pageOf s'.startPointer (p + o + 1) = p := by
        rw [g1, Nat.add_assoc]
        have := block_bound c o hc ho hd
        have := class_facts c hc
        exact pageOf_add _ _ _ hp (by omega)
      rw [hpo] at this
      obtain ⟨o1, _, _, h3, h4⟩ := this (by rw [g7]; simp)
      have : o1 = o := by omega
      rw [this] at h4
      exact h4
    · rw [addrs_append x.state]
      exact hC3

/-- The multi-page branch of `mem_alloc` in a state of the invariant, for a
size whose page count fits an `int`: either the pool is too short and nothing
changes, or the first pool page is returned at the head of a new chain. -/
theorem mem_alloc_large (x : Sys) (size : Nat) (hI : Inv x) (hgt : 2048 < size)
    (hmax : (size + 4095) / 4096 ≤ INT_MAX) :
    (x.state.freePages.length < (size + 4095) / 4096
        ∧ mem_alloc x.state size = some (0, x.state))
      ∨ ∃ first s', mem_alloc x.state size = some (first, s')
          ∧ first ∈ pagesOf x.state.startPointer
          ∧ s'.startPointer = x.state.startPointer
          ∧ Inv ⟨s', x.live ++ [(first, size)]⟩ := by
  obtain ⟨chains, hC, hB⟩ := hI
  have h0 : size ≠ 0 := by omega
  have hnot : ¬ size ≤ PAGE_SIZE / 2 := by unfold PAGE_SIZE; omega
  have hpn : pagesNeededOf size = some ((size + 4095) / 4096) := by
    unfold pagesNeededOf
    simp only [PAGE_SIZE]
    rw [if_pos hmax]
  generalize hn : (size + 4095) / 4096 = n at *
  by_cases hlen : x.state.freePages.length < n
  · refine Or.inl ⟨hlen, ?_⟩
    simp [mem_alloc, h0, hnot, hpn, hlen]
  · have hlen' : n ≤ x.state.freePages.length := by omega
    have hn1 : 1 ≤ n := by omega
    have hlen4 := length_le_four_of_pages x.state.startPointer x.state.freePages
      hC.pool_nodup (fun p hp => ((hC.pool_iff p).1 hp).1)
    have hN : n * PAGE_SIZE ≤ INT_MAX := by
      unfold PAGE_SIZE INT_MAX
      omega
    obtain ⟨s', h1, h2, h3, h4, h5, h6, h7, h8⟩ :=
      allocChainLoop_spec n hN n x.state hlen' (hC.pool_nodup.sublist (List.take_sublist _ _))
    match hfp : x.state.freePages with
    | [] => rw [hfp] at hlen'; simp at hlen'; omega
    | first :: rest =>
      have hfirst : first ∈ pagesOf x.state.startPointer :=
        ((hC.pool_iff first).1 (by rw [hfp]; simp)).1
      obtain ⟨hC', hB'⟩ := inv_alloc_multi x.state s' _ chains n first rest hC hB hn1 hlen'
        hfp h3 h2 h4 h5 h6 h7 h8
      refine Or.inr ⟨first, s', ?_, hfirst, h3, chains ++ [x.state.freePages.take n], ?_, hB'⟩
      · have hnl : ¬ rest.length + 1 < n := by
          rw [hfp] at hlen
          simpa using hlen
        simp [mem_alloc, h0, hnot, hpn, hfp, hnl, h1]
      · rw [addrs_append x.state]
        exact hC'

/-- `mem_alloc` keeps the invariant. -/
theorem inv_step_alloc (x x' : Sys) (size : Nat) (hI : Inv x)
    (hstep : step x (Call.alloc size) = some x') :
    Inv x' ∧ x'.state.startPointer = x.state.startPointer := by
  simp only [step] at hstep
  by_cases hw : size < WORD
  · rw [if_pos hw] at hstep
    by_cases h0 : size = 0
    · subst h0
      have : mem_alloc x.state 0 = some (0, x.state) := by simp [mem_alloc]
      rw [this] at hstep
      simp only [if_true, Option.some.injEq] at hstep
      rw [← hstep]
      exact ⟨hI, rfl⟩
    · by_cases hle : size ≤ 2048
      · obtain ⟨c, _, _, _, hcase⟩ := mem_alloc_small x size hI h0 hle
        rcases hcase with ⟨_, _, s', hres, hI', hsp⟩ |
          ⟨p, o, s', hres, _, _, _, hsp, _, _, _, hI'⟩
        · rw [hres] at hstep
          simp only [if_true, Option.some.injEq] at hstep
          rw [← hstep]
          exact ⟨hI', hsp⟩
        · rw [hres] at hstep
          simp only [Nat.add_eq_zero, one_ne_zero, and_false, if_false,
            Option.some.injEq] at hstep
          rw [← hstep]
          exact ⟨hI', hsp⟩
      · match hpn : pagesNeededOf size with
        | none =>
          have hnot : ¬ size ≤ PAGE_SIZE / 2 := by unfold PAGE_SIZE; omega
          simp [mem_alloc, h0, hnot, hpn] at hstep
        | some n =>
          have hmax : (size + 4095) / 4096 ≤ INT_MAX := by
            unfold pagesNeededOf at hpn
            simp only [PAGE_SIZE] at hpn
            by_contra hcon
            rw [if_neg hcon] at hpn
            simp at hpn
          rcases mem_alloc_large x size hI (by omega) hmax with
            ⟨_, hres⟩ | ⟨first, s', hres, hf, hsp, hI'⟩
          · rw [hres] at hstep
            simp only [if_true, Option.some.injEq] at hstep
            rw [← hstep]
            exact ⟨hI, rfl⟩
          · rw [hres] at hstep
            have hb := page_bounds _ _ hf
            obtain ⟨chains, hC, _⟩ := hI
            have hpos := hC.base_pos
            have hne : first ≠ 0 := by omega
            simp only [hne, if_false, Option.some.injEq] at hstep
            rw [← hstep]
            exact ⟨hI', hsp⟩
  · rw [if_neg hw] at hstep
    simp at hstep

/-! ## Preservation of the invariant by `mem_free` -/

theorem block_addr_inj (b p q o o1 : Nat) (hp : p ∈ pagesOf b) (hq : q ∈ pagesOf b)
    (ho : o < 4096) (ho1 : o1 < 4096) (h : q + o1 = p + o) : q = p ∧ o1 = o := by
  have h1 := page_bounds _ _ hp
  have h2 := page_bounds _ _ hq
  exact flag_place_inj b q p o1 o hq hp ho1 ho (by omega)

theorem toInt_zero : toInt 0 = 0 := by
  rw [toInt_eq 0 (by unfold INT_MAX; omega)]
  rfl

/-- The `Divided` branch of `mem_free` for the block at offset `o` of the divided
page `p`: when another block of the page is busy the page is put into its
bucket unless it is there; when no other block is busy the page is released,
which is undefined unless the page is in its bucket. -/
theorem freeDivided_spec (s : State) (p c o cur : Nat)
    (hb : s.startPointer + MEMORY_SIZE < WORD) (hp : p ∈ pagesOf s.startPointer)
    (hc : c ∈ classSizes) (hh : headerAt s p = ⟨pageStatus.Divided, c, cur⟩)
    (ho : o < 4096) (hd : c ∣ o) :
    ((∃ o', o' < 4096 ∧ c ∣ o' ∧ o' ≠ o ∧ ¬ flagFree s p o') →
      ∃ s', freeDivided s (p + o + 1) p = some s'
        ∧ s'.startPointer = s.startPointer ∧ s'.freePages = s.freePages
        ∧ (∀ i, s'.memory i = if i = p - s.startPointer + o then 1 else s.memory i)
        ∧ (∀ q, headerAt s' q = headerAt s q)
        ∧ (∀ k, bucket s' k =
            if k = (c : Int) then
              (if p ∈ bucket s (c : Int) then bucket s (c : Int)
                else bucket s (c : Int) ++ [p])
            else bucket s k)
        ∧ (∀ q, (s.headers q).isSome = true → (s'.headers q).isSome = true))
    ∧ ((∀ o', o' < 4096 → c ∣ o' → o' ≠ o → flagFree s p o') →
        p ∈ bucket s (c : Int) →
        ∃ s', freeDivided s (p + o + 1) p = some s'
          ∧ s'.startPointer = s.startPointer ∧ s'.freePages = s.freePages ++ [p]
          ∧ (∀ i, s'.memory i = if i = p - s.startPointer + o then 1 else s.memory i)
          ∧ (∀ q, headerAt s' q
              = if q = p then ⟨pageStatus.Free, 0, 0⟩ else headerAt s q)
          ∧ (∀ k, bucket s' k =
              if k = 0 then
                (if p ∈ bucket s 0 then bucket s 0 else bucket s 0 ++ [p])
              else if k = (c : Int) then (bucket s (c : Int)).erase p
              else bucket s k)
          ∧ (∀ q, (s.headers q).isSome = true → (s'.headers q).isSome = true))
    ∧ ((∀ o', o' < 4096 → c ∣ o' → o' ≠ o → flagFree s p o') →
        p ∉ bucket s (c : Int) → freeDivided s (p + o + 1) p = none) := by
  have hpb := page_bounds _ _ hp
  have hk := (class_toInt c hc).1
  have hk0 := (class_toInt c hc).2
  have hbb := block_bound c o hc ho hd
  have hcf := class_facts c hc
  have hsub : ptrSub (p + o + 1) BLOCK_HEADER_SIZE = p + o := by
    show ptrSub (p + o + 1) 1 = p + o
    rw [ptrSub_eq _ _ (by omega) (by omega)]
    omega
  let s1 : State := { s with memory := fun i =>
    if i = p - s.startPointer + o then 1 else s.memory i }
  have hw : writeByte s (p + o) 1 = some s1 := writeByte_block s p o 1 hp ho
  have hh1 : ∀ q, headerAt s1 q = headerAt s q := fun _ => rfl
  have hb1 : ∀ k, bucket s1 k = bucket s k := fun _ => rfl
  have hcs1 : (headerAt s1 p).classSize = c := by rw [hh1, hh]
  obtain ⟨every, hev, hiff⟩ := isEveryBlockFree_spec s1 p c hb hp hc
  have hflag1 : ∀ o', o' < 4096 → (flagFree s1 p o' ↔ o' = o ∨ flagFree s p o') := by
    intro o' ho'
    unfold flagFree
    show (if p - s.startPointer + o' = p - s.startPointer + o then 1
      else s.memory (p - s.startPointer + o')) ≠ 0 ↔ _
    by_cases heq : o' = o
    · simp [heq]
    · have : ¬ p - s.startPointer + o' = p - s.startPointer + o := by omega
      simp [heq, this]
  have hstart : freeDivided s (p + o + 1) p =
      (match (if every = true then
            (if p ∈ bucket s (c : Int) then
              some { setPageHeader (setBucket (touchBucket s1 (c : Int)) (c : Int)
                  ((bucket s (c : Int)).erase p)) p pageStatus.Free 0 0 with
                freePages := s.freePages ++ [p] }
            else none)
          else some s1) with
        | none => none
        | some s5 =>
          if p ∈ bucket (touchBucket s5 (toInt (headerAt s5 p).classSize))
              (toInt (headerAt s5 p).classSize) then
            some (touchBucket s5 (toInt (headerAt s5 p).classSize))
          else some (setBucket (touchBucket s5 (toInt (headerAt s5 p).classSize))
            (toInt (headerAt s5 p).classSize)
            (bucket (touchBucket s5 (toInt (headerAt s5 p).classSize))
              (toInt (headerAt s5 p).classSize) ++ [p]))) := by
    unfold freeDivided
    rw [hsub, hw]
    simp only [hcs1, hev, hk, bucket_touchBucket, hb1]
    all_goals rfl
  refine ⟨?_, ?_, ?_⟩
  · rintro ⟨o', ho', hd', hne, hbusy⟩
    have hev' : every = false := by
      cases every
      · rfl
      · have := (hiff.1 rfl) o' ho' hd'
        rw [hflag1 o' ho'] at this
        rcases this with h | h
        · exact absurd h hne
        · exact absurd h hbusy
    rw [hstart, hev']
    simp only [Bool.false_eq_true, if_false, hcs1, hk, bucket_touchBucket, hb1]
    by_cases hin : p ∈ bucket s (c : Int)
    · refine ⟨touchBucket s1 (c : Int), by simp [hin], rfl, rfl, fun _ => rfl,
        fun _ => rfl, ?_, fun _ h => h⟩
      intro k
      rw [bucket_touchBucket, hb1]
      by_cases hkc : k = (c : Int)
      · simp [hkc, hin]
      · simp [hkc]
    · refine ⟨setBucket (touchBucket s1 (c : Int)) (c : Int) (bucket s (c : Int) ++ [p]),
        by simp [hin], rfl, rfl, fun _ => rfl, fun _ => rfl, ?_, fun _ h => h⟩
      intro k
      rw [bucket_setBucket, bucket_touchBucket, hb1]
      by_cases hkc : k = (c : Int)
      · simp [hkc, hin]
      · simp [hkc]
  · intro hall hin
    have hev' : every = true := by
      rw [hiff]
      intro o' ho' hd'
      rw [hflag1 o' ho']
      by_cases heq : o' = o
      · exact Or.inl heq
      · exact Or.inr (hall o' ho' hd' heq)
    rw [hstart, hev']
    simp only [if_true, hin]
    let s4 : State := { setPageHeader (setBucket (touchBucket s1 (c : Int)) (c : Int)
        ((bucket s (c : Int)).erase p)) p pageStatus.Free 0 0 with
      freePages := s.freePages ++ [p] }
    have hh4 : ∀ q, headerAt s4 q
        = if q = p then ⟨pageStatus.Free, 0, 0⟩ else headerAt s q := by
      intro q
      show headerAt (setPageHeader (setBucket (touchBucket s1 (c : Int)) (c : Int)
        ((bucket s (c : Int)).erase p)) p pageStatus.Free 0 0) q = _
      rw [headerAt_setPageHeader, headerAt_setBucket, headerAt_touchBucket, hh1]
    have hb4 : ∀ k, bucket s4 k
        = if k = (c : Int) then (bucket s (c : Int)).erase p else bucket s k := by
      intro k
      show bucket (setPageHeader (setBucket (touchBucket s1 (c : Int)) (c : Int)
        ((bucket s (c : Int)).erase p)) p pageStatus.Free 0 0) k = _
      rw [bucket_setPageHeader, bucket_setBucket, bucket_touchBucket, hb1]
    have hsome4 : ∀ q, (s.headers q).isSome = true → (s4.headers q).isSome = true := by
      intro q hq
      exact isSome_setPageHeader _ _ _ _ _ _ hq
    have hkey : toInt (headerAt s4 p).classSize = 0 := by
      rw [hh4, if_pos rfl]
      exact toInt_zero
    have hb40 : bucket s4 0 = bucket s 0 := by
      rw [hb4, if_neg (fun h => hk0 h.symm)]
    show ∃ s', (if p ∈ bucket (touchBucket s4 (toInt (headerAt s4 p).classSize))
              (toInt (headerAt s4 p).classSize) then
            some (touchBucket s4 (toInt (headerAt s4 p).classSize))
          else some (setBucket (touchBucket s4 (toInt (headerAt s4 p).classSize))
            (toInt (headerAt s4 p).classSize)
            (bucket (touchBucket s4 (toInt (headerAt s4 p).classSize))
              (toInt (headerAt s4 p).classSize) ++ [p]))) = some s' ∧ _
    rw [hkey]
    simp only [bucket_touchBucket, hb40]
    by_cases hin0 : p ∈ bucket s 0
    · refine ⟨touchBucket s4 0, by simp [hin0], rfl, rfl, fun _ => rfl, ?_, ?_, hsome4⟩
      · intro q
        rw [headerAt_touchBucket, hh4]
      · intro k
        rw [bucket_touchBucket, hb4]
        by_cases hk1 : k = 0
        · have hc0 : ¬ (0 : Int) = (c : Int) := fun h => hk0 h.symm
          simp [hk1, hin0, hc0]
        · simp [hk1]
    · refine ⟨setBucket (touchBucket s4 0) 0 (bucket s 0 ++ [p]), by simp [hin0], rfl, rfl,
        fun _ => rfl, ?_, ?_, hsome4⟩
      · intro q
        rw [headerAt_setBucket, headerAt_touchBucket, hh4]
      · intro k
        rw [bucket_setBucket, bucket_touchBucket, hb4]
        by_cases hk1 : k = 0
        · have hc0 : ¬ (0 : Int) = (c : Int) := fun h => hk0 h.symm
          simp [hk1, hin0, hc0]
        · simp [hk1]
  · intro hall hnin
    have hev' : every = true := by
      rw [hiff]
      intro o' ho' hd'
      rw [hflag1 o' ho']
      by_cases heq : o' = o
      · exact Or.inl heq
      · exact Or.inr (hall o' ho' hd' heq)
    rw [hstart, hev']
    simp [hnin]

theorem mem_filter_ne (A : List Nat) (a a' : Nat) :
    a' ∈ A.filter (fun e => decide (e ≠ a)) ↔ a' ∈ A ∧ a' ≠ a := by
  simp [List.mem_filter]

/-- Freeing the block at offset `o` of the divided page `p` while another block
of the page is busy. -/
theorem inv_free_div_some (s s' : State) (A : List Nat) (chains : List (List Nat))
    (c p o cur o2 : Nat)
    (hI : InvCore s A chains) (hB : allBusy s)
    (hc : c ∈ classSizes) (hp : p ∈ pagesOf s.startPointer)
    (hh : headerAt s p = ⟨pageStatus.Divided, c, cur⟩) (ho : o < 4096) (hd : c ∣ o)
    (ho2 : o2 < 4096) (hd2 : c ∣ o2) (hne2 : o2 ≠ o) (hbusy2 : ¬ flagFree s p o2)
    (e1 : s'.startPointer = s.startPointer) (e2 : s'.freePages = s.freePages)
    (e3 : ∀ i, s'.memory i = if i = p - s.startPointer + o then 1 else s.memory i)
    (e4 : ∀ q, headerAt s' q = headerAt s q)
    (e5 : ∀ k, bucket s' k =
      if k = (c : Int) then
        (if p ∈ bucket s (c : Int) then bucket s (c : Int) else bucket s (c : Int) ++ [p])
      else bucket s k)
    (e6 : ∀ q, (s.headers q).isSome = true → (s'.headers q).isSome = true) :
    InvCore s' (A.filter (fun e => decide (e ≠ p + o + 1))) chains ∧ allBusy s' := by
  have hcf := class_facts c hc
  have hck := (class_toInt c hc).2
  have hbb := block_bound c o hc ho hd
  have hpD : (headerAt s p).status = pageStatus.Divided := by rw [hh]
  have hpC : (headerAt s p).classSize = c := by rw [hh]
  have hpo : pageOf s.startPointer (p + o + 1) = p := by
    rw [Nat.add_assoc]
    exact pageOf_add _ _ _ hp (by omega)
  have hflag : ∀ q ∈ pagesOf s.startPointer, ∀ o1, o1 < 4096 →
      (flagFree s' q o1 ↔ (q = p ∧ o1 = o) ∨ flagFree s q o1) := by
    intro q hq o1 ho1
    unfold flagFree
    rw [e1, e3]
    by_cases heq : q - s.startPointer + o1 = p - s.startPointer + o
    · have := flag_place_inj _ _ _ _ _ hq hp ho1 ho heq
      simp [heq, this]
    · have : ¬ (q = p ∧ o1 = o) := by
        rintro ⟨rfl, rfl⟩
        exact heq rfl
      simp [heq, this]
  have hmemB : ∀ q, q ≠ p →
      (q ∈ (if p ∈ bucket s (c : Int) then bucket s (c : Int)
        else bucket s (c : Int) ++ [p]) ↔ q ∈ bucket s (c : Int)) := by
    intro q hq
    by_cases hin : p ∈ bucket s (c : Int)
    · rw [if_pos hin]
    · rw [if_neg hin]
      simp [hq]
  have hpinB : p ∈ (if p ∈ bucket s (c : Int) then bucket s (c : Int)
      else bucket s (c : Int) ++ [p]) := by
    by_cases hin : p ∈ bucket s (c : Int)
    · rw [if_pos hin]; exact hin
    · rw [if_neg hin]; simp
  refine ⟨{
    base_pos := by rw [e1]; exact hI.base_pos
    base_lt := by rw [e1]; exact hI.base_lt
    hdr_some := by
      intro q hq
      rw [e1] at hq
      exact e6 q (hI.hdr_some q hq)
    pool_nodup := by rw [e2]; exact hI.pool_nodup
    pool_iff := by
      intro q
      rw [e2, e1, e4]
      exact hI.pool_iff q
    free_hdr := by
      intro q hq hf
      rw [e1] at hq
      rw [e4] at hf ⊢
      exact hI.free_hdr q hq hf
    div_class := by
      intro q hq hdv
      rw [e1] at hq
      rw [e4] at hdv ⊢
      exact hI.div_class q hq hdv
    div_cursor := by
      intro q hq hdv
      rw [e1] at hq
      rw [e4] at hdv ⊢
      exact hI.div_cursor q hq hdv
    div_bucket := by
      intro q hq hdv
      rw [e1] at hq
      rw [e4] at hdv ⊢
      by_cases hne : q = p
      · subst hne
        rw [hpC, e5, if_pos rfl]
        constructor
        · intro _
          exact ⟨o, ho, hd, (hflag q hp o ho).2 (Or.inl ⟨rfl, rfl⟩)⟩
        · intro _
          exact hpinB
      · have hmem : q ∈ bucket s' ((headerAt s q).classSize : Int)
            ↔ q ∈ bucket s ((headerAt s q).classSize : Int) := by
          rw [e5]
          by_cases hk : ((headerAt s q).classSize : Int) = (c : Int)
          · rw [if_pos hk, hk]
            exact hmemB q hne
          · rw [if_neg hk]
        rw [hmem, hI.div_bucket q hq hdv]
        constructor
        · rintro ⟨o1, h1, h2, h3⟩
          exact ⟨o1, h1, h2, (hflag q hq o1 h1).2 (Or.inr h3)⟩
        · rintro ⟨o1, h1, h2, h3⟩
          rcases (hflag q hq o1 h1).1 h3 with h | h
          · exact absurd h.1 hne
          · exact ⟨o1, h1, h2, h⟩
    bucket_pages := by
      intro k hk q hq
      rw [e1, e4]
      rw [e5] at hq
      by_cases hkc : k = (c : Int)
      · rw [if_pos hkc] at hq
        by_cases hne : q = p
        · subst hne
          exact ⟨hp, hpD, by rw [hpC, hkc]⟩
        · have := (hmemB q hne).1 hq
          rw [← hkc] at this
          exact hI.bucket_pages k hk q this
      · rw [if_neg hkc] at hq
        exact hI.bucket_pages k hk q hq
    bucket_nodup := by
      intro k hk
      rw [e5]
      by_cases hkc : k = (c : Int)
      · rw [if_pos hkc]
        by_cases hin : p ∈ bucket s (c : Int)
        · rw [if_pos hin]
          exact hI.bucket_nodup _ hck
        · rw [if_neg hin]
          apply List.Nodup.append (hI.bucket_nodup _ hck) (List.nodup_singleton p)
          intro q hq1 hq2
          simp only [List.mem_singleton] at hq2
          subst hq2
          exact hin hq1
      · rw [if_neg hkc]
        exact hI.bucket_nodup k hk
    live_arena := by
      intro a ha
      rw [e1, e4]
      exact hI.live_arena a ((mem_filter_ne _ _ _).1 ha).1
    live_div := by
      intro a ha hdv
      rw [e1] at hdv ⊢
      rw [e4] at hdv ⊢
      obtain ⟨ha1, ha2⟩ := (mem_filter_ne _ _ _).1 ha
      obtain ⟨o1, h1, h2, h3, h4⟩ := hI.live_div a ha1 hdv
      have hq := pageOf_mem _ _ (hI.live_arena a ha1).1 (hI.live_arena a ha1).2.1
      refine ⟨o1, h1, h2, h3, ?_⟩
      intro hf
      rcases (hflag _ hq o1 h1).1 hf with h | h
      · apply ha2
        rw [h3, h.1, h.2]
      · exact h4 h
    busy_live := by
      intro q hq hdv o1 h1 h2 h3
      rw [e1] at hq
      rw [e4] at hdv h2
      have hnf : ¬ flagFree s q o1 := fun hf => h3 ((hflag q hq o1 h1).2 (Or.inr hf))
      have hnp : ¬ (q = p ∧ o1 = o) := fun hf => h3 ((hflag q hq o1 h1).2 (Or.inl hf))
      rw [mem_filter_ne]
      refine ⟨hI.busy_live q hq hdv o1 h1 h2 hnf, ?_⟩
      intro heq
      exact hnp (block_addr_inj _ p q o o1 hp hq ho h1 (by omega))
    live_multi := by
      intro a ha hm
      rw [e1, e4] at hm
      exact hI.live_multi a ((mem_filter_ne _ _ _).1 ha).1 hm
    chains_nodup := hI.chains_nodup
    chains_disjoint := hI.chains_disjoint
    chains_multi := by
      intro q
      rw [e1, e4]
      exact hI.chains_multi q
    chains_linked := by
      intro ch hch
      exact chainLinked_frame s s' _ ch (fun q _ => e4 q) (hI.chains_linked ch hch)
    chains_head := by
      intro ch hch
      obtain ⟨a, ha, hhead⟩ := hI.chains_head ch hch
      refine ⟨a, (mem_filter_ne _ _ _).2 ⟨ha, ?_⟩, hhead⟩
      intro heq
      have hach : a ∈ ch := List.mem_of_mem_head? hhead
      have ham := (hI.chains_multi a).1 ⟨ch, hch, hach⟩
      have : pageOf s.startPointer a = a := pageOf_page _ _ ham.1
      rw [heq, hpo] at this
      omega }, ?_⟩
  intro q hq hdv
  rw [e1] at hq
  rw [e4] at hdv
  unfold hasBusy
  rw [e4]
  by_cases hne : q = p
  · subst hne
    refine ⟨o2, ho2, by rw [hpC]; exact hd2, ?_⟩
    intro hf
    rcases (hflag q hp o2 ho2).1 hf with h | h
    · exact hne2 h.2
    · exact hbusy2 h
  · obtain ⟨o1, h1, h2, h3⟩ := hB q hq hdv
    refine ⟨o1, h1, h2, ?_⟩
    intro hf
    rcases (hflag q hq o1 h1).1 hf with h | h
    · exact hne h.1
    · exact h3 h

/-- Freeing the last busy block of the divided page `p`: the page leaves its
bucket and goes to the end of the pool with a `Free` header. -/
theorem inv_free_div_all (s s' : State) (A : List Nat) (chains : List (List Nat))
    (c p o cur : Nat) (B0 : List Nat)
    (hI : InvCore s A chains) (hB : allBusy s)
    (hc : c ∈ classSizes) (hp : p ∈ pagesOf s.startPointer)
    (hh : headerAt s p = ⟨pageStatus.Divided, c, cur⟩) (ho : o < 4096) (hd : c ∣ o)
    (hall : ∀ o', o' < 4096 → c ∣ o' → o' ≠ o → flagFree s p o')
    (e1 : s'.startPointer = s.startPointer) (e2 : s'.freePages = s.freePages ++ [p])
    (e3 : ∀ i, s'.memory i = if i = p - s.startPointer + o then 1 else s.memory i)
    (e4 : ∀ q, headerAt s' q = if q = p then ⟨pageStatus.Free, 0, 0⟩ else headerAt s q)
    (e5 : ∀ k, bucket s' k =
      if k = 0 then B0
      else if k = (c : Int) then (bucket s (c : Int)).erase p else bucket s k)
    (e6 : ∀ q, (s.headers q).isSome = true → (s'.headers q).isSome = true) :
    InvCore s' (A.filter (fun e => decide (e ≠ p + o + 1))) chains ∧ allBusy s' := by
  have hcf := class_facts c hc
  have hck := (class_toInt c hc).2
  have hbb := block_bound c o hc ho hd
  have hpD : (headerAt s p).status = pageStatus.Divided := by rw [hh]
  have hpC : (headerAt s p).classSize = c := by rw [hh]
  have hpo : pageOf s.startPointer (p + o + 1) = p := by
    rw [Nat.add_assoc]
    exact pageOf_add _ _ _ hp (by omega)
  have hhne : ∀ q, q ≠ p → headerAt s' q = headerAt s q := by
    intro q hq
    rw [e4, if_neg hq]
  have hhp : headerAt s' p = ⟨pageStatus.Free, 0, 0⟩ := by rw [e4, if_pos rfl]
  have hnotD : ∀ q, (headerAt s' q).status ≠ pageStatus.Free → q ≠ p := by
    rintro q h rfl
    rw [hhp] at h
    exact h rfl
  have hflag : ∀ q ∈ pagesOf s.startPointer, q ≠ p → ∀ o1, o1 < 4096 →
      (flagFree s' q o1 ↔ flagFree s q o1) := by
    intro q hq hne o1 ho1
    apply flagFree_congr _ _ _ _ e1
    rw [e3, if_neg]
    intro heq
    exact hne (flag_place_inj _ _ _ _ _ hq hp ho1 ho heq).1
  have hbkne : ∀ k : Int, k ≠ 0 → ∀ q, q ∈ bucket s' k ↔ q ∈ bucket s k ∧ q ≠ p := by
    intro k hk q
    rw [e5, if_neg hk]
    by_cases hkc : k = (c : Int)
    · rw [if_pos hkc, (hI.bucket_nodup _ hck).mem_erase_iff, hkc]
      exact and_comm
    · rw [if_neg hkc]
      constructor
      · intro h
        refine ⟨h, ?_⟩
        rintro rfl
        have := (hI.bucket_pages k hk q h).2.2
        rw [hpC] at this
        exact hkc this.symm
      · exact fun h => h.1
  -- no other live address lies in the released page
  have hlive : ∀ a ∈ A, a ≠ p + o + 1 → pageOf s.startPointer a ≠ p := by
    intro a ha hne hpa
    have hdv : (headerAt s (pageOf s.startPointer a)).status = pageStatus.Divided := by
      rw [hpa]; exact hpD
    obtain ⟨o1, h1, h2, h3, h4⟩ := hI.live_div a ha hdv
    rw [hpa] at h2 h3 h4
    rw [hpC] at h2
    by_cases heq : o1 = o
    · apply hne
      rw [h3, heq]
    · exact h4 (hall o1 h1 h2 heq)
  have hpnotpool : p ∉ s.freePages := by
    intro h
    have := ((hI.pool_iff p).1 h).2
    rw [hpD] at this
    exact absurd this (by decide)
  have hheadne : ∀ ch ∈ chains, ∀ a, ch.head? = some a → a ≠ p + o + 1 := by
    intro ch hch a hhead heq
    have hach : a ∈ ch := List.mem_of_mem_head? hhead
    have ham := (hI.chains_multi a).1 ⟨ch, hch, hach⟩
    have : pageOf s.startPointer a = a := pageOf_page _ _ ham.1
    rw [heq, hpo] at this
    omega
  refine ⟨{
    base_pos := by rw [e1]; exact hI.base_pos
    base_lt := by rw [e1]; exact hI.base_lt
    hdr_some := by
      intro q hq
      rw [e1] at hq
      exact e6 q (hI.hdr_some q hq)
    pool_nodup := by
      rw [e2]
      apply List.Nodup.append hI.pool_nodup (List.nodup_singleton p)
      intro q hq1 hq2
      simp only [List.mem_singleton] at hq2
      subst hq2
      exact hpnotpool hq1
    pool_iff := by
      intro q
      rw [e2, e1]
      by_cases hne : q = p
      · subst hne
        rw [hhp]
        simp [hp]
      · rw [hhne q hne, ← hI.pool_iff q]
        simp [hne]
    free_hdr := by
      intro q hq hf
      rw [e1] at hq
      by_cases hne : q = p
      · subst hne
        exact hhp
      · rw [hhne q hne] at hf ⊢
        exact hI.free_hdr q hq hf
    div_class := by
      intro q hq hdv
      rw [e1] at hq
      have hne := hnotD q (by rw [hdv]; decide)
      rw [hhne q hne] at hdv ⊢
      exact hI.div_class q hq hdv
    div_cursor := by
      intro q hq hdv
      rw [e1] at hq
      have hne := hnotD q (by rw [hdv]; decide)
      rw [hhne q hne] at hdv ⊢
      exact hI.div_cursor q hq hdv
    div_bucket := by
      intro q hq hdv
      rw [e1] at hq
      have hne := hnotD q (by rw [hdv]; decide)
      rw [hhne q hne] at hdv ⊢
      have hk := (class_toInt _ (hI.div_class q hq hdv)).2
      constructor
      · intro hmem
        obtain ⟨o1, h1, h2, h3⟩ := (hI.div_bucket q hq hdv).1 ((hbkne _ hk q).1 hmem).1
        exact ⟨o1, h1, h2, (hflag q hq hne o1 h1).2 h3⟩
      · rintro ⟨o1, h1, h2, h3⟩
        exact (hbkne _ hk q).2
          ⟨(hI.div_bucket q hq hdv).2 ⟨o1, h1, h2, (hflag q hq hne o1 h1).1 h3⟩, hne⟩
    bucket_pages := by
      intro k hk q hq
      rw [e1]
      obtain ⟨hq1, hq2⟩ := (hbkne k hk q).1 hq
      rw [hhne q hq2]
      exact hI.bucket_pages k hk q hq1
    bucket_nodup := by
      intro k hk
      rw [e5, if_neg hk]
      by_cases hkc : k = (c : Int)
      · rw [if_pos hkc]
        exact (hI.bucket_nodup _ hck).erase p
      · rw [if_neg hkc]
        exact hI.bucket_nodup k hk
    live_arena := by
      intro a ha
      obtain ⟨ha1, ha2⟩ := (mem_filter_ne _ _ _).1 ha
      rw [e1, hhne _ (hlive a ha1 ha2)]
      exact hI.live_arena a ha1
    live_div := by
      intro a ha hdv
      obtain ⟨ha1, ha2⟩ := (mem_filter_ne _ _ _).1 ha
      have hne := hlive a ha1 ha2
      rw [e1] at hdv ⊢
      rw [hhne _ hne] at hdv ⊢
      obtain ⟨o1, h1, h2, h3, h4⟩ := hI.live_div a ha1 hdv
      have hq := pageOf_mem _ _ (hI.live_arena a ha1).1 (hI.live_arena a ha1).2.1
      exact ⟨o1, h1, h2, h3, fun hf => h4 ((hflag _ hq hne o1 h1).1 hf)⟩
    busy_live := by
      intro q hq hdv o1 h1 h2 h3
      rw [e1] at hq
      have hne := hnotD q (by rw [hdv]; decide)
      rw [hhne q hne] at hdv h2
      rw [mem_filter_ne]
      refine ⟨hI.busy_live q hq hdv o1 h1 h2 (fun hf => h3 ((hflag q hq hne o1 h1).2 hf)), ?_⟩
      intro heq
      exact hne (block_addr_inj _ p q o o1 hp hq ho h1 (by omega)).1
    live_multi := by
      intro a ha hm
      obtain ⟨ha1, ha2⟩ := (mem_filter_ne _ _ _).1 ha
      rw [e1, hhne _ (hlive a ha1 ha2)] at hm
      exact hI.live_multi a ha1 hm
    chains_nodup := hI.chains_nodup
    chains_disjoint := hI.chains_disjoint
    chains_multi := by
      intro q
      rw [e1, hI.chains_multi q]
      by_cases hne : q = p
      · subst hne
        rw [hhp, hpD]
        simp
      · rw [hhne q hne]
    chains_linked := by
      intro ch hch
      apply chainLinked_frame s s' _ ch _ (hI.chains_linked ch hch)
      intro q hq
      have := (hI.chains_multi q).1 ⟨ch, hch, hq⟩
      apply hhne
      rintro rfl
      rw [hpD] at this
      exact absurd this.2 (by decide)
    chains_head := by
      intro ch hch
      obtain ⟨a, ha, hhead⟩ := hI.chains_head ch hch
      exact ⟨a, (mem_filter_ne _ _ _).2 ⟨ha, hheadne ch hch a hhead⟩, hhead⟩ }, ?_⟩
  intro q hq hdv
  rw [e1] at hq
  have hne := hnotD q (by rw [hdv]; decide)
  rw [hhne q hne] at hdv
  obtain ⟨o1, h1, h2, h3⟩ := hB q hq hdv
  unfold hasBusy
  rw [hhne q hne]
  exact ⟨o1, h1, h2, fun hf => h3 ((hflag q hq hne o1 h1).1 hf)⟩

/-- The loop of the multi-page branch of `mem_free` along a linked chain. -/
theorem freeChainLoop_spec (total : Nat) :
    ∀ (l : List Nat) (q : Nat) (s : State), chainLinked s total (q :: l) →
      (q :: l).Nodup → (∀ x ∈ l, x + 1 < WORD) →
      (freeChainLoop (l.length + 1) q s).startPointer = s.startPointer
        ∧ (freeChainLoop (l.length + 1) q s).memory = s.memory
        ∧ (freeChainLoop (l.length + 1) q s).classifiedPages = s.classifiedPages
        ∧ (freeChainLoop (l.length + 1) q s).freePages = s.freePages ++ (q :: l)
        ∧ (∀ p, headerAt (freeChainLoop (l.length + 1) q s) p
            = if p ∈ q :: l then ⟨pageStatus.Free, 0, 0⟩ else headerAt s p)
        ∧ (∀ p, (s.headers p).isSome = true →
            ((freeChainLoop (l.length + 1) q s).headers p).isSome = true) := by
  intro l
  induction l with
  | nil =>
    intro q s _ _ _
    refine ⟨rfl, rfl, rfl, rfl, ?_, ?_⟩
    · intro p
      show headerAt (setPageHeader (touchHeader s q) q pageStatus.Free 0 0) p = _
      rw [headerAt_setPageHeader, headerAt_touchHeader]
      simp
    · intro p hp
      exact isSome_setPageHeader _ _ _ _ _ _ (isSome_touchHeader _ _ _ hp)
  | cons q' r ih =>
    intro q s hl hnd hw
    unfold chainLinked at hl
    have hq' : q' + 1 < WORD := hw q' (by simp)
    have hnext : ptrSub (headerAt (touchHeader s q) q).availableBlock BLOCK_HEADER_SIZE
        = q' := by
      rw [headerAt_touchHeader, hl.1]
      show ptrSub (ptrAdd q' 1) 1 = q'
      rw [ptrAdd_eq _ _ hq', ptrSub_eq _ _ (by omega) hq']
      omega
    let s3 : State := { setPageHeader (touchHeader s q) q pageStatus.Free 0 0 with
      freePages := s.freePages ++ [q] }
    have hstep : freeChainLoop ((q' :: r).length + 1) q s
        = freeChainLoop (r.length + 1) q' s3 := by
      show freeChainLoop (r.length + 1 + 1) q s = _
      rw [freeChainLoop]
      simp only [hnext]
      rfl
    have hh3 : ∀ p, headerAt s3 p
        = if p = q then ⟨pageStatus.Free, 0, 0⟩ else headerAt s p := by
      intro p
      show headerAt (setPageHeader (touchHeader s q) q pageStatus.Free 0 0) p = _
      rw [headerAt_setPageHeader, headerAt_touchHeader]
    have hnd' := List.nodup_cons.1 hnd
    have hl3 : chainLinked s3 total (q' :: r) := by
      apply chainLinked_frame s s3 total _ _ hl.2
      intro x hx
      rw [hh3, if_neg]
      rintro rfl
      exact hnd'.1 hx
    obtain ⟨i1, i2, i3, i4, i5, i6⟩ := ih q' s3 hl3 hnd'.2
      (fun x hx => hw x (List.mem_cons_of_mem _ hx))
    rw [hstep]
    refine ⟨i1, i2, i3, ?_, ?_, ?_⟩
    · rw [i4]
      show s.freePages ++ [q] ++ (q' :: r) = _
      simp
    · intro p
      rw [i5, hh3]
      by_cases hp1 : p ∈ q' :: r
      · simp [hp1]
      · by_cases hp2 : p = q
        · simp [hp2]
        · have : p ∉ q :: q' :: r := by
            simp only [List.mem_cons, not_or] at hp1 ⊢
            exact ⟨hp2, hp1⟩
          rw [if_neg hp1, if_neg hp2, if_neg this]
    · intro p hp
      apply i6
      exact isSome_setPageHeader _ _ _ _ _ _ (isSome_touchHeader _ _ _ hp)

/-- Freeing the multi-page block `ch` whose first page is the live address `a`. -/
theorem inv_free_multi (s s' : State) (A : List Nat) (chains : List (List Nat))
    (ch : List Nat) (a : Nat)
    (hI : InvCore s A chains) (hB : allBusy s)
    (hch : ch ∈ chains) (hhead : ch.head? = some a)
    (e1 : s'.startPointer = s.startPointer) (e2 : s'.freePages = s.freePages ++ ch)
    (e3 : s'.memory = s.memory) (e4 : s'.classifiedPages = s.classifiedPages)
    (e5 : ∀ p, headerAt s' p
      = if p ∈ ch then ⟨pageStatus.Free, 0, 0⟩ else headerAt s p)
    (e6 : ∀ p, (s.headers p).isSome = true → (s'.headers p).isSome = true) :
    InvCore s' (A.filter (fun e => decide (e ≠ a)))
        (chains.filter (fun c => decide (c.head? ≠ some a)))
      ∧ allBusy s' := by
  have hach : a ∈ ch := List.mem_of_mem_head? hhead
  have hchM : ∀ q ∈ ch, q ∈ pagesOf s.startPointer
      ∧ (headerAt s q).status = pageStatus.MultipageBlock :=
    fun q hq => (hI.chains_multi q).1 ⟨ch, hch, hq⟩
  have haP := (hchM a hach).1
  have hhin : ∀ q, q ∈ ch → headerAt s' q = ⟨pageStatus.Free, 0, 0⟩ := by
    intro q hq
    rw [e5, if_pos hq]
  have hhne : ∀ q, q ∉ ch → headerAt s' q = headerAt s q := by
    intro q hq
    rw [e5, if_neg hq]
  have hnotM : ∀ q, (headerAt s q).status ≠ pageStatus.MultipageBlock → q ∉ ch :=
    fun q h hq => h (hchM q hq).2
  have hnotF' : ∀ q, (headerAt s' q).status ≠ pageStatus.Free → q ∉ ch := by
    intro q h hq
    rw [hhin q hq] at h
    exact h rfl
  have hbk : ∀ k, bucket s' k = bucket s k := by
    intro k
    unfold bucket
    rw [e4]
  have hflag : ∀ p o, flagFree s' p o ↔ flagFree s p o := by
    intro p o
    apply flagFree_congr _ _ _ _ e1
    rw [e3]
  have huniq : ∀ ch' ∈ chains, ch'.head? = some a → ch' = ch :=
    fun ch' hch' h => hI.chains_disjoint ch' hch' ch hch a (List.mem_of_mem_head? h) hach
  have hmemc : ∀ ch', ch' ∈ chains.filter (fun c => decide (c.head? ≠ some a))
      ↔ ch' ∈ chains ∧ ch'.head? ≠ some a := by
    intro ch'
    simp [List.mem_filter]
  have hother : ∀ ch' ∈ chains, ch'.head? ≠ some a → ∀ q ∈ ch', q ∉ ch := by
    intro ch' hch' hne q hq hqc
    have := hI.chains_disjoint ch' hch' ch hch q hq hqc
    rw [this] at hne
    exact hne hhead
  have hlive : ∀ a' ∈ A, a' ≠ a → pageOf s.startPointer a' ∉ ch := by
    intro a' ha' hne hin
    obtain ⟨ch', hch', hhead'⟩ := hI.live_multi a' ha' (hchM _ hin).2
    have ha'c : a' ∈ ch' := List.mem_of_mem_head? hhead'
    have ha'P := ((hI.chains_multi a').1 ⟨ch', hch', ha'c⟩).1
    rw [pageOf_page _ _ ha'P] at hin
    have := hI.chains_disjoint ch' hch' ch hch a' ha'c hin
    rw [this, hhead] at hhead'
    exact hne (Option.some.inj hhead').symm
  have hDiv : ∀ q, (headerAt s' q).status = pageStatus.Divided → q ∉ ch :=
    fun q h => hnotF' q (by rw [h]; decide)
  refine ⟨{
    base_pos := by rw [e1]; exact hI.base_pos
    base_lt := by rw [e1]; exact hI.base_lt
    hdr_some := by
      intro q hq
      rw [e1] at hq
      exact e6 q (hI.hdr_some q hq)
    pool_nodup := by
      rw [e2]
      apply List.Nodup.append hI.pool_nodup (hI.chains_nodup ch hch)
      intro q hq1 hq2
      have := ((hI.pool_iff q).1 hq1).2
      rw [(hchM q hq2).2] at this
      exact absurd this (by decide)
    pool_iff := by
      intro q
      rw [e2, e1]
      by_cases hq : q ∈ ch
      · rw [hhin q hq]
        simp [hq, (hchM q hq).1]
      · rw [hhne q hq, ← hI.pool_iff q]
        simp [hq]
    free_hdr := by
      intro q hq hf
      rw [e1] at hq
      by_cases hq' : q ∈ ch
      · exact hhin q hq'
      · rw [hhne q hq'] at hf ⊢
        exact hI.free_hdr q hq hf
    div_class := by
      intro q hq hdv
      rw [e1] at hq
      have hq' := hDiv q hdv
      rw [hhne q hq'] at hdv ⊢
      exact hI.div_class q hq hdv
    div_cursor := by
      intro q hq hdv
      rw [e1] at hq
      have hq' := hDiv q hdv
      rw [hhne q hq'] at hdv ⊢
      exact hI.div_cursor q hq hdv
    div_bucket := by
      intro q hq hdv
      rw [e1] at hq
      have hq' := hDiv q hdv
      rw [hhne q hq'] at hdv ⊢
      rw [hbk, hI.div_bucket q hq hdv]
      simp only [hflag]
    bucket_pages := by
      intro k hk q hq
      rw [hbk] at hq
      rw [e1]
      have h := hI.bucket_pages k hk q hq
      rw [hhne q (hnotM q (by rw [h.2.1]; decide))]
      exact h
    bucket_nodup := by
      intro k hk
      rw [hbk]
      exact hI.bucket_nodup k hk
    live_arena := by
      intro a' ha'
      obtain ⟨h1, h2⟩ := (mem_filter_ne _ _ _).1 ha'
      rw [e1, hhne _ (hlive a' h1 h2)]
      exact hI.live_arena a' h1
    live_div := by
      intro a' ha' hdv
      obtain ⟨h1, h2⟩ := (mem_filter_ne _ _ _).1 ha'
      rw [e1] at hdv ⊢
      rw [hhne _ (hlive a' h1 h2)] at hdv ⊢
      simp only [hflag]
      exact hI.live_div a' h1 hdv
    busy_live := by
      intro q hq hdv o1 h1 h2 h3
      rw [e1] at hq
      have hq' := hDiv q hdv
      rw [hhne q hq'] at hdv h2
      rw [hflag] at h3
      rw [mem_filter_ne]
      refine ⟨hI.busy_live q hq hdv o1 h1 h2 h3, ?_⟩
      intro heq
      have hcq := hI.div_class q hq hdv
      have hbb := block_bound _ o1 hcq h1 h2
      have hcf := class_facts _ hcq
      have hpo : pageOf s.startPointer (q + o1 + 1) = q := by
        rw [Nat.add_assoc]
        exact pageOf_add _ _ _ hq (by omega)
      rw [heq, pageOf_page _ _ haP] at hpo
      omega
    live_multi := by
      intro a' ha' hm
      obtain ⟨h1, h2⟩ := (mem_filter_ne _ _ _).1 ha'
      rw [e1, hhne _ (hlive a' h1 h2)] at hm
      obtain ⟨ch', hch', hhead'⟩ := hI.live_multi a' h1 hm
      refine ⟨ch', (hmemc ch').2 ⟨hch', ?_⟩, hhead'⟩
      rw [hhead']
      intro h
      exact h2 (Option.some.inj h)
    chains_nodup := fun ch' hch' => hI.chains_nodup ch' ((hmemc ch').1 hch').1
    chains_disjoint := fun ch1 h1 ch2 h2 =>
      hI.chains_disjoint ch1 ((hmemc ch1).1 h1).1 ch2 ((hmemc ch2).1 h2).1
    chains_multi := by
      intro q
      rw [e1]
      by_cases hq : q ∈ ch
      · rw [hhin q hq]
        constructor
        · rintro ⟨ch', hch', hqc⟩
          obtain ⟨h1, h2⟩ := (hmemc ch').1 hch'
          exact absurd hq (hother ch' h1 h2 q hqc)
        · rintro ⟨_, h⟩
          exact absurd h (by decide)
      · rw [hhne q hq, ← hI.chains_multi q]
        constructor
        · rintro ⟨ch', hch', hqc⟩
          exact ⟨ch', ((hmemc ch').1 hch').1, hqc⟩
        · rintro ⟨ch', hch', hqc⟩
          refine ⟨ch', (hmemc ch').2 ⟨hch', ?_⟩, hqc⟩
          intro h
          rw [huniq ch' hch' h] at hqc
          exact hq hqc
    chains_linked := by
      intro ch' hch'
      obtain ⟨h1, h2⟩ := (hmemc ch').1 hch'
      apply chainLinked_frame s s' _ ch' _ (hI.chains_linked ch' h1)
      intro q hq
      exact hhne q (hother ch' h1 h2 q hq)
    chains_head := by
      intro ch' hch'
      obtain ⟨h1, h2⟩ := (hmemc ch').1 hch'
      obtain ⟨a', ha', hhead'⟩ := hI.chains_head ch' h1
      refine ⟨a', (mem_filter_ne _ _ _).2 ⟨ha', ?_⟩, hhead'⟩
      rintro rfl
      exact h2 hhead' }, ?_⟩
  intro q hq hdv
  rw [e1] at hq
  have hq' := hDiv q hdv
  rw [hhne q hq'] at hdv
  obtain ⟨o1, h1, h2, h3⟩ := hB q hq hdv
  unfold hasBusy
  rw [hhne q hq']
  exact ⟨o1, h1, h2, fun hf => h3 ((hflag q o1).1 hf)⟩

theorem addrs_filter (s s' : State) (L : List (Nat × Nat)) (a : Nat) :
    addrs ⟨s', L.filter (fun e => decide (e.1 ≠ a))⟩
      = (addrs ⟨s, L⟩).filter (fun e => decide (e ≠ a)) := by
  unfold addrs
  show List.map Prod.fst (List.filter (fun e => decide (e.1 ≠ a)) L)
    = List.filter (fun e => decide (e ≠ a)) (List.map Prod.fst L)
  rw [List.filter_map]
  rfl

/-- `mem_free` on an address inside the array. -/
theorem mem_free_unfold (s : State) (a : Nat) (hb0 : 0 < s.startPointer)
    (hbw : s.startPointer + MEMORY_SIZE < WORD) (h1 : s.startPointer ≤ a)
    (h2 : a < s.startPointer + MEMORY_SIZE) :
    mem_free s a =
      (match (if (headerAt s (pageOf s.startPointer a)).status = pageStatus.Divided then
            freeDivided (touchHeader s (pageOf s.startPointer a)) a (pageOf s.startPointer a)
          else some (touchHeader s (pageOf s.startPointer a))) with
        | none => none
        | some s1 =>
          if (headerAt s1 (pageOf s.startPointer a)).status = pageStatus.MultipageBlock then
            (if (headerAt s (pageOf s.startPointer a)).classSize / PAGE_SIZE > INT_MAX then none
              else some (freeChainLoop
                ((headerAt s (pageOf s.startPointer a)).classSize / PAGE_SIZE)
                (pageOf s.startPointer a) s1))
          else some s1) := by
  have ha0 : a ≠ 0 := by omega
  have hend : ptrAdd s.startPointer MEMORY_SIZE = s.startPointer + MEMORY_SIZE :=
    ptrAdd_eq _ _ hbw
  have hguard : ¬ (a < s.startPointer ∨ a > s.startPointer + MEMORY_SIZE) := by omega
  have hpg := pageOf_offset s.startPointer a h1
  have hpage : ptrAdd s.startPointer ((a - s.startPointer) / PAGE_SIZE * PAGE_SIZE)
      = pageOf s.startPointer a := by
    unfold pageOf at hpg ⊢
    exact ptrAdd_eq _ _ (by omega)
  unfold mem_free
  simp only [ha0, hend, hguard, hpage, if_false, headerAt_touchHeader]

/-- `mem_free` on a live address keeps the invariant. -/
theorem mem_free_live (x : Sys) (a : Nat) (s' : State) (hI : Inv x) (ha : a ∈ addrs x)
    (hres : mem_free x.state a = some s') :
    Inv ⟨s', x.live.filter (fun e => decide (e.1 ≠ a))⟩
      ∧ s'.startPointer = x.state.startPointer := by
  obtain ⟨chains, hC, hB⟩ := hI
  obtain ⟨h1, h2, hnF⟩ := hC.live_arena a ha
  have hp := pageOf_mem _ _ h1 h2
  rw [mem_free_unfold x.state a hC.base_pos hC.base_lt h1 h2] at hres
  generalize hpdef : pageOf x.state.startPointer a = p at *
  have hC0 : InvCore (touchHeader x.state p) (addrs x) chains :=
    InvCore_congr _ _ _ _ hC rfl rfl (fun _ => rfl) (fun _ => by simp) (fun _ => rfl)
      (fun q h => isSome_touchHeader _ _ _ h)
  have hB0 : allBusy (touchHeader x.state p) :=
    allBusy_congr _ _ hB rfl (fun _ => rfl) (fun _ => by simp)
  match hst : (headerAt x.state p).status with
  | pageStatus.Free => exact absurd hst hnF
  | pageStatus.Divided =>
    have hc := hC.div_class p hp hst
    obtain ⟨o, ho, hd, hao, hbusy⟩ := hC.live_div a ha (by rw [hpdef]; exact hst)
    rw [hpdef] at hd hao hbusy
    have hh : headerAt (touchHeader x.state p) p
        = ⟨pageStatus.Divided, (headerAt x.state p).classSize,
            (headerAt x.state p).availableBlock⟩ := by
      rw [headerAt_touchHeader]
      exact header_eta _ _ _ _ hst rfl rfl
    obtain ⟨hsome, hall_in, hall_out⟩ := freeDivided_spec (touchHeader x.state p) p
      (headerAt x.state p).classSize o (headerAt x.state p).availableBlock hC.base_lt hp hc hh
      ho hd
    rw [if_pos hst, hao] at hres
    by_cases hex : ∃ o', o' < 4096 ∧ (headerAt x.state p).classSize ∣ o' ∧ o' ≠ o
        ∧ ¬ flagFree (touchHeader x.state p) p o'
    · obtain ⟨s1, hs1, e1, e2, e3, e4, e5, e6⟩ := hsome hex
      obtain ⟨o2, ho2, hd2, hne2, hb2⟩ := hex
      rw [hs1] at hres
      have hnotM : ¬ (headerAt s1 p).status = pageStatus.MultipageBlock := by
        rw [e4, headerAt_touchHeader, hst]
        decide
      simp only [hnotM, if_false, Option.some.injEq] at hres
      subst hres
      obtain ⟨hC', hB'⟩ := inv_free_div_some (touchHeader x.state p) s1 _ chains _ p o _ o2
        hC0 hB0 hc hp hh ho hd ho2 hd2 hne2 hb2 e1 e2 e3 e4 e5 e6
      refine ⟨⟨chains, ?_, hB'⟩, e1⟩
      rw [addrs_filter x.state, hao]
      exact hC'
    · have hall : ∀ o', o' < 4096 → (headerAt x.state p).classSize ∣ o' → o' ≠ o →
          flagFree (touchHeader x.state p) p o' := by
        intro o' h1' h2' h3'
        by_contra hcon
        exact hex ⟨o', h1', h2', h3', hcon⟩
      by_cases hin : p ∈ bucket (touchHeader x.state p)
          ((headerAt x.state p).classSize : Int)
      · obtain ⟨s1, hs1, e1, e2, e3, e4, e5, e6⟩ := hall_in hall hin
        rw [hs1] at hres
        have hnotM : ¬ (headerAt s1 p).status = pageStatus.MultipageBlock := by
          rw [e4, if_pos rfl]
          decide
        simp only [hnotM, if_false, Option.some.injEq] at hres
        subst hres
        obtain ⟨hC', hB'⟩ := inv_free_div_all (touchHeader x.state p) s1 _ chains _ p o _ _
          hC0 hB0 hc hp hh ho hd hall e1 e2 e3 e4 e5 e6
        refine ⟨⟨chains, ?_, hB'⟩, e1⟩
        rw [addrs_filter x.state, hao]
        exact hC'
      · rw [hall_out hall hin] at hres
        simp at hres
  | pageStatus.MultipageBlock =>
    obtain ⟨ch, hch, hhead⟩ := hC.live_multi a ha (by rw [hpdef]; exact hst)
    have hach : a ∈ ch := List.mem_of_mem_head? hhead
    have haP := ((hC.chains_multi a).1 ⟨ch, hch, hach⟩).1
    have hpa : p = a := by rw [← hpdef]; exact pageOf_page _ _ haP
    subst hpa
    have hnotD : ¬ (headerAt x.state p).status = pageStatus.Divided := by
      rw [hst]; decide
    rw [if_neg hnotD] at hres
    simp only [headerAt_touchHeader, hst, if_true] at hres
    obtain ⟨l, rfl⟩ : ∃ l, ch = p :: l := by
      cases ch with
      | nil => simp at hhead
      | cons y l =>
        simp only [List.head?_cons, Option.some.injEq] at hhead
        exact ⟨l, by rw [hhead]⟩
    have hlink := hC.chains_linked _ hch
    have hcs := (chainLinked_header _ _ _ hlink p (by simp)).2
    have hnd := hC.chains_nodup _ hch
    have hsub : ∀ q ∈ p :: l, q ∈ pagesOf x.state.startPointer :=
      fun q hq => ((hC.chains_multi q).1 ⟨_, hch, hq⟩).1
    have hlen4 := length_le_four_of_pages _ _ hnd hsub
    have hdiv : (headerAt x.state p).classSize / PAGE_SIZE = l.length + 1 := by
      rw [hcs]
      exact Nat.mul_div_cancel _ (by unfold PAGE_SIZE; omega)
    rw [hdiv] at hres
    have hle : ¬ l.length + 1 > INT_MAX := by
      simp only [List.length_cons] at hlen4
      unfold INT_MAX
      omega
    simp only [hle, if_false, Option.some.injEq] at hres
    have hlink0 : chainLinked (touchHeader x.state p) ((p :: l).length * PAGE_SIZE) (p :: l) :=
      chainLinked_frame _ _ _ _ (fun q _ => by simp) hlink
    obtain ⟨e1, e2, e3, e4, e5, e6⟩ := freeChainLoop_spec _ l p (touchHeader x.state p)
      hlink0 hnd (by
        intro q hq
        have := page_bounds _ _ (hsub q (List.mem_cons_of_mem _ hq))
        have := hC.base_lt
        omega)
    rw [hres] at e1 e2 e3 e4 e5 e6
    obtain ⟨hC', hB'⟩ := inv_free_multi (touchHeader x.state p) s' _ chains (p :: l) p
      hC0 hB0 hch hhead e1 e4 e2 e3 e5 e6
    refine ⟨⟨chains.filter (fun c => decide (c.head? ≠ some p)), ?_, hB'⟩, e1⟩
    rw [addrs_filter x.state]
    exact hC'

/-- `mem_free` on a live address keeps the invariant. -/
theorem inv_step_free (x x' : Sys) (a : Nat) (hI : Inv x)
    (hstep : step x (Call.free a) = some x') :
    Inv x' ∧ x'.state.startPointer = x.state.startPointer := by
  simp only [step] at hstep
  by_cases ha : a ∈ x.live.map Prod.fst
  · rw [if_pos ha] at hstep
    match hres : mem_free x.state a with
    | none =>
      rw [hres] at hstep
      simp at hstep
    | some s' =>
      rw [hres] at hstep
      simp only [Option.some.injEq] at hstep
      rw [← hstep]
      exact mem_free_live x a s' hI ha hres
  · rw [if_neg ha] at hstep
    simp at hstep

theorem inv_step (x x' : Sys) (c : Call) (hI : Inv x) (hstep : step x c = some x') :
    Inv x' ∧ x'.state.startPointer = x.state.startPointer := by
  cases c with
  | alloc size => exact inv_step_alloc x x' size hI hstep
  | free a => exact inv_step_free x x' a hI hstep

theorem inv_run (cs : List Call) :
    ∀ (x x' : Sys), Inv x → run cs x = some x' →
      Inv x' ∧ x'.state.startPointer = x.state.startPointer := by
  induction cs with
  | nil =>
    intro x x' hI h
    simp only [run, Option.some.injEq] at h
    rw [← h]
    exact ⟨hI, rfl⟩
  | cons c cs ih =>
    intro x x' hI h
    rw [run] at h
    match hs : step x c with
    | none => rw [hs] at h; simp at h
    | some x1 =>
      rw [hs] at h
      obtain ⟨hI1, hsp1⟩ := inv_step x x1 c hI hs
      obtain ⟨hI2, hsp2⟩ := ih x1 x' hI1 h
      exact ⟨hI2, by rw [hsp2, hsp1]⟩

/-! ## The initial state -/

theorem initClassesLoop_obs :
    ∀ (fuel c : Nat) (s : State),
      (initClassesLoop fuel c s).startPointer = s.startPointer
        ∧ (initClassesLoop fuel c s).memory = s.memory
        ∧ (initClassesLoop fuel c s).freePages = s.freePages
        ∧ (initClassesLoop fuel c s).headers = s.headers
        ∧ ((∀ k, bucket s k = []) → ∀ k, bucket (initClassesLoop fuel c s) k = []) := by
  intro fuel
  induction fuel with
  | zero => intro c s; exact ⟨rfl, rfl, rfl, rfl, fun h => h⟩
  | succ f ih =>
    intro c s
    rw [initClassesLoop]
    by_cases hc : c ≤ PAGE_SIZE / 2
    · rw [if_pos hc]
      obtain ⟨h1, h2, h3, h4, h5⟩ := ih (c * 2)
        { s with classifiedPages := fun j =>
            if j = (c : Int) then some ((s.classifiedPages j).getD [])
            else s.classifiedPages j }
      refine ⟨h1, h2, h3, h4, ?_⟩
      intro hb
      apply h5
      intro k
      have := hb k
      unfold bucket at this ⊢
      by_cases hk : k = (c : Int)
      · simp [hk] at this ⊢
        exact this
      · simp [hk]
        exact this
    · rw [if_neg hc]
      exact ⟨rfl, rfl, rfl, rfl, fun h => h⟩

/-- The state after `initializePages`: every page is in the pool in address
order with a `Free` header, every bucket is empty, the array is zero. -/
theorem freshState_obs (b : Nat) (hbw : b + MEMORY_SIZE < WORD) :
    (freshState b).startPointer = b
      ∧ (freshState b).memory = (fun _ => 0)
      ∧ (freshState b).freePages = pagesOf b
      ∧ (∀ p ∈ pagesOf b, (freshState b).headers p = some ⟨pageStatus.Free, 0, 0⟩)
      ∧ (∀ q, headerAt (freshState b) q = ⟨pageStatus.Free, 0, 0⟩)
      ∧ (∀ k, bucket (freshState b) k = []) := by
  unfold MEMORY_SIZE at hbw
  have e0 : ptrAdd b 0 = b := ptrAdd_eq _ _ (by omega)
  have e1 : ptrAdd b PAGE_SIZE = b + 4096 :=
    ptrAdd_eq _ _ (by unfold PAGE_SIZE; omega)
  have e2 : ptrAdd b (PAGE_SIZE * 2) = b + 8192 := by
    rw [ptrAdd_eq _ _ (by unfold PAGE_SIZE; omega)]
    unfold PAGE_SIZE
    omega
  have e3 : ptrAdd b (PAGE_SIZE * 3) = b + 12288 := by
    rw [ptrAdd_eq _ _ (by unfold PAGE_SIZE; omega)]
    unfold PAGE_SIZE
    omega
  obtain ⟨h1, h2, h3, h4, h5⟩ := initClassesLoop_obs PAGE_SIZE MIN_CLASS_SIZE
    (initPagesLoop (PAGE_AMOUNT + 1) 0 { staticState with startPointer := b })
  have hsp : (initPagesLoop (PAGE_AMOUNT + 1) 0
      { staticState with startPointer := b }).startPointer = b := by
    simp [initPagesLoop, PAGE_AMOUNT, staticState]
  have hmem : (initPagesLoop (PAGE_AMOUNT + 1) 0
      { staticState with startPointer := b }).memory = fun _ => 0 := by
    simp [initPagesLoop, PAGE_AMOUNT, staticState]
  have hfp : (initPagesLoop (PAGE_AMOUNT + 1) 0
      { staticState with startPointer := b }).freePages = pagesOf b := by
    simp [initPagesLoop, PAGE_AMOUNT, staticState, e0, e1, e2, e3, pagesOf]
    unfold PAGE_SIZE
    omega
  have hhd : ∀ q, ((initPagesLoop (PAGE_AMOUNT + 1) 0
      { staticState with startPointer := b }).headers q).getD defaultHeader
        = defaultHeader := by
    intro q
    simp [initPagesLoop, PAGE_AMOUNT, staticState, e0, e1, e2, e3]
    split_ifs <;> rfl
  have hhp : ∀ p ∈ pagesOf b, (initPagesLoop (PAGE_AMOUNT + 1) 0
      { staticState with startPointer := b }).headers p = some defaultHeader := by
    intro p hp
    rw [mem_pagesOf] at hp
    simp [initPagesLoop, PAGE_AMOUNT, staticState, e0, e1, e2, e3]
    rcases hp with rfl | rfl | rfl | rfl <;> simp
  have hbk : ∀ k, bucket (initPagesLoop (PAGE_AMOUNT + 1) 0
      { staticState with startPointer := b }) k = [] := by
    intro k
    simp [bucket, initPagesLoop, PAGE_AMOUNT, staticState]
  unfold freshState initializePages
  simp only
  refine ⟨by rw [h1, hsp], by rw [h2, hmem], by rw [h3, hfp], ?_, ?_, h5 hbk⟩
  · intro p hp
    rw [h4, hhp p hp]
    rfl
  · intro q
    unfold headerAt
    rw [h4, hhd]
    rfl

theorem invCore_fresh (b : Nat) (hb : 0 < b) (hbw : b + MEMORY_SIZE < WORD) :
    InvCore (freshState b) [] [] := by
  obtain ⟨h1, h2, h3, h4, h5, h6⟩ := freshState_obs b hbw
  have hnoD : ∀ p, ¬ (headerAt (freshState b) p).status = pageStatus.Divided := by
    intro p h
    rw [h5] at h
    exact absurd h (by decide)
  exact {
    base_pos := by rw [h1]; exact hb
    base_lt := by rw [h1]; exact hbw
    hdr_some := by
      intro p hp
      rw [h1] at hp
      rw [h4 p hp]
      rfl
    pool_nodup := by
      rw [h3]
      unfold pagesOf PAGE_SIZE
      simp
    pool_iff := by
      intro p
      rw [h3, h1, h5]
      simp
    free_hdr := fun p _ _ => h5 p
    div_class := fun p _ hd => absurd hd (hnoD p)
    div_cursor := fun p _ hd => absurd hd (hnoD p)
    div_bucket := fun p _ hd => absurd hd (hnoD p)
    bucket_pages := by
      intro k _ p hp
      rw [h6] at hp
      simp at hp
    bucket_nodup := by
      intro k _
      rw [h6]
      exact List.nodup_nil
    live_arena := by
      intro a ha
      simp at ha
    live_div := by
      intro a ha
      simp at ha
    busy_live := fun p _ hd => absurd hd (hnoD p)
    live_multi := by
      intro a ha
      simp at ha
    chains_nodup := by
      intro ch hch
      simp at hch
    chains_disjoint := by
      intro ch hch
      simp at hch
    chains_multi := by
      intro p
      rw [h5]
      simp
    chains_linked := by
      intro ch hch
      simp at hch
    chains_head := by
      intro ch hch
      simp at hch }

theorem inv_init (b : Nat) (hb : 0 < b) (hbw : b + MEMORY_SIZE < WORD) :
    Inv (initSys b) := by
  refine ⟨[], invCore_fresh b hb hbw, ?_⟩
  intro p _ hd
  have h5 := (freshState_obs b hbw).2.2.2.2.1
  have : (headerAt (freshState b) p).status = pageStatus.Divided := hd
  rw [h5] at this
  exact absurd this (by decide)

/-- Every state reached from the initial one by calls that free only live
addresses satisfies the invariant, and the array does not move. -/
theorem inv_reachable (b : Nat) (hb : 0 < b) (hbw : b + MEMORY_SIZE < WORD)
    (cs : List Call) (x : Sys) (hrun : run cs (initSys b) = some x) :
    Inv x ∧ x.state.startPointer = b := by
  obtain ⟨hI, hsp⟩ := inv_run cs (initSys b) x (inv_init b hb hbw) hrun
  refine ⟨hI, ?_⟩
  rw [hsp]
  exact (freshState_obs b hbw).1

/-! ## The calls are defined in the states of the invariant -/

/-- In a state of the invariant `mem_alloc` has a defined result for every size
whose page count fits an `int`. -/
theorem mem_alloc_defined (x : Sys) (size : Nat) (hI : Inv x)
    (hmax : (size + 4095) / 4096 ≤ INT_MAX) :
    ∃ r s', mem_alloc x.state size = some (r, s') := by
  by_cases h0 : size = 0
  · exact ⟨0, x.state, by simp [mem_alloc, h0]⟩
  · by_cases hle : size ≤ 2048
    · obtain ⟨c, _, _, _, hcase⟩ := mem_alloc_small x size hI h0 hle
      rcases hcase with ⟨_, _, s', hres, _⟩ | ⟨p, o, s', hres, _⟩
      · exact ⟨0, s', hres⟩
      · exact ⟨p + o + 1, s', hres⟩
    · rcases mem_alloc_large x size hI (by omega) hmax with ⟨_, hres⟩ | ⟨first, s', hres, _⟩
      · exact ⟨0, x.state, hres⟩
      · exact ⟨first, s', hres⟩

/-- In a state of the invariant `mem_free` of a live address has a defined
result exactly when the address is not the block of a page divided into one
block of 4096 bytes; for such a block `mem_free` erases `end()` from the
bucket. -/
theorem mem_free_defined_iff (x : Sys) (a : Nat) (hI : Inv x) (ha : a ∈ addrs x) :
    (∃ s', mem_free x.state a = some s') ↔
      ¬ ((headerAt x.state (pageOf x.state.startPointer a)).status = pageStatus.Divided
          ∧ (headerAt x.state (pageOf x.state.startPointer a)).classSize = 4096) := by
  obtain ⟨chains, hC, hB⟩ := hI
  obtain ⟨h1, h2, hnF⟩ := hC.live_arena a ha
  have hp := pageOf_mem _ _ h1 h2
  rw [mem_free_unfold x.state a hC.base_pos hC.base_lt h1 h2]
  generalize hpdef : pageOf x.state.startPointer a = p at *
  match hst : (headerAt x.state p).status with
  | pageStatus.Free => exact absurd hst hnF
  | pageStatus.Divided =>
    have hc := hC.div_class p hp hst
    have hcf := class_facts _ hc
    obtain ⟨o, ho, hd, hao, hbusy⟩ := hC.live_div a ha (by rw [hpdef]; exact hst)
    rw [hpdef] at hd hao hbusy
    have hh : headerAt (touchHeader x.state p) p
        = ⟨pageStatus.Divided, (headerAt x.state p).classSize,
            (headerAt x.state p).availableBlock⟩ := by
      rw [headerAt_touchHeader]
      exact header_eta _ _ _ _ hst rfl rfl
    obtain ⟨hsome, hall_in, hall_out⟩ := freeDivided_spec (touchHeader x.state p) p
      (headerAt x.state p).classSize o (headerAt x.state p).availableBlock hC.base_lt hp hc hh
      ho hd
    simp only [if_true, hao, true_and]
    by_cases hex : ∃ o', o' < 4096 ∧ (headerAt x.state p).classSize ∣ o' ∧ o' ≠ o
        ∧ ¬ flagFree (touchHeader x.state p) p o'
    · obtain ⟨s1, hs1, _, _, _, e4, _⟩ := hsome hex
      obtain ⟨o2, ho2, hd2, hne2, _⟩ := hex
      have hnotM : ¬ (headerAt s1 p).status = pageStatus.MultipageBlock := by
        rw [e4, headerAt_touchHeader, hst]
        decide
      have hne : (headerAt x.state p).classSize ≠ 4096 := by
        intro h
        rw [h] at hd hd2
        obtain ⟨k, hk⟩ := hd
        obtain ⟨k2, hk2⟩ := hd2
        omega
      rw [hs1]
      simp only [hnotM, if_false]
      exact ⟨fun _ => hne, fun _ => ⟨s1, rfl⟩⟩
    · have hall : ∀ o', o' < 4096 → (headerAt x.state p).classSize ∣ o' → o' ≠ o →
          flagFree (touchHeader x.state p) p o' := by
        intro o' h1' h2' h3'
        by_contra hcon
        exact hex ⟨o', h1', h2', h3', hcon⟩
      by_cases hin : p ∈ bucket (touchHeader x.state p)
          ((headerAt x.state p).classSize : Int)
      · obtain ⟨s1, hs1, _, _, _, e4, _⟩ := hall_in hall hin
        have hnotM : ¬ (headerAt s1 p).status = pageStatus.MultipageBlock := by
          rw [e4, if_pos rfl]
          decide
        obtain ⟨o1, ho1, hd1, hf1⟩ := (hC.div_bucket p hp hst).1 hin
        have hne : (headerAt x.state p).classSize ≠ 4096 := by
          intro h
          rw [h] at hd hd1
          obtain ⟨k, hk⟩ := hd
          obtain ⟨k1, hk1⟩ := hd1
          have h0 : o = 0 := by omega
          have h10 : o1 = 0 := by omega
          rw [h10] at hf1
          rw [h0] at hbusy
          exact hbusy hf1
        rw [hs1]
        simp only [hnotM, if_false]
        exact ⟨fun _ => hne, fun _ => ⟨s1, rfl⟩⟩
      · rw [hall_out hall hin]
        constructor
        · rintro ⟨s1, hs1⟩
          simp at hs1
        intro hne
        exfalso
        apply hin
        apply (hC.div_bucket p hp hst).2
        have hbb := block_bound _ o hc ho hd
        by_cases ho0 : o = 0
        · have hlt : (headerAt x.state p).classSize < 4096 := by omega
          exact ⟨_, hlt, dvd_refl _, hall _ hlt (dvd_refl _) (by omega)⟩
        · exact ⟨0, by omega, dvd_zero _, hall 0 (by omega) (dvd_zero _) (by omega)⟩
  | pageStatus.MultipageBlock =>
    obtain ⟨ch, hch, hhead⟩ := hC.live_multi a ha (by rw [hpdef]; exact hst)
    have hach : a ∈ ch := List.mem_of_mem_head? hhead
    have hlink := hC.chains_linked _ hch
    have hnd := hC.chains_nodup _ hch
    have hsub : ∀ q ∈ ch, q ∈ pagesOf x.state.startPointer :=
      fun q hq => ((hC.chains_multi q).1 ⟨_, hch, hq⟩).1
    have hlen4 := length_le_four_of_pages _ _ hnd hsub
    have hpa : p = a := by rw [← hpdef]; exact pageOf_page _ _ (hsub a hach)
    have hcs : (headerAt x.state p).classSize = ch.length * PAGE_SIZE := by
      rw [hpa]
      exact (chainLinked_header _ _ _ hlink a hach).2
    have hdiv : (headerAt x.state p).classSize / PAGE_SIZE = ch.length := by
      rw [hcs]
      exact Nat.mul_div_cancel _ (by unfold PAGE_SIZE; omega)
    have hle : ¬ ch.length > INT_MAX := by
      unfold INT_MAX
      omega
    constructor
    · rintro _ ⟨hD, _⟩
      exact absurd hD (by decide)
    · intro _
      have hnotD : ¬ (pageStatus.MultipageBlock = pageStatus.Divided) := by decide
      rw [if_neg hnotD]
      simp only [headerAt_touchHeader, hst, hdiv, hle, if_true, if_false]
      exact ⟨_, rfl⟩

/-! ## Invariants of the reachable states -/

/-- C8: in every state reached from the initial one by allocations and frees of
live addresses, the pool has no duplicate entry and an address is in the pool
exactly when it is a page of the array whose header status is `Free`. -/
theorem C8_pool_iff_free (b : Nat) (hb : 0 < b) (hbw : b + MEMORY_SIZE < WORD)
    (cs : List Call) (x : Sys) (hrun : run cs (initSys b) = some x) :
    x.state.freePages.Nodup
      ∧ ∀ p, p ∈ x.state.freePages ↔
          p ∈ pagesOf b ∧ (headerAt x.state p).status = pageStatus.Free := by
  obtain ⟨⟨chains, hC, _⟩, hsp⟩ := inv_reachable b hb hbw cs x hrun
  refine ⟨hC.pool_nodup, ?_⟩
  intro p
  rw [← hsp]
  exact hC.pool_iff p

/-- C8 (witness): the calls of `main` up to the first free, the array at 65536. -/
theorem C8_pool_iff_free_witness :
    ∃ x, run [Call.alloc 9000, Call.alloc 400, Call.alloc 400, Call.free 77825]
          (initSys 65536) = some x
      ∧ x.state.freePages.Nodup
      ∧ ∀ p, p ∈ x.state.freePages ↔
          p ∈ pagesOf 65536 ∧ (headerAt x.state p).status = pageStatus.Free := by
  have h : (run [Call.alloc 9000, Call.alloc 400, Call.alloc 400, Call.free 77825]
      (initSys 65536)).isSome = true := by decide
  obtain ⟨x, hx⟩ := Option.isSome_iff_exists.1 h
  exact ⟨x, hx, C8_pool_iff_free 65536 (by decide) (by decide) _ x hx⟩

/-- C9: in every state reached from the initial one by allocations and frees of
live addresses, a divided page is in the bucket of its class size exactly when
one of its `PAGE_SIZE / classSize` blocks has a flag byte that reads as free. -/
theorem C9_bucket_iff_free_block (b : Nat) (hb : 0 < b) (hbw : b + MEMORY_SIZE < WORD)
    (cs : List Call) (x : Sys) (hrun : run cs (initSys b) = some x) :
    ∀ p ∈ pagesOf b, (headerAt x.state p).status = pageStatus.Divided →
      (p ∈ bucket x.state (toInt (headerAt x.state p).classSize) ↔
        ∃ k, k < PAGE_SIZE / (headerAt x.state p).classSize
          ∧ flagFree x.state p (k * (headerAt x.state p).classSize)) := by
  obtain ⟨⟨chains, hC, _⟩, hsp⟩ := inv_reachable b hb hbw cs x hrun
  intro p hp hdv
  rw [← hsp] at hp
  have hc := hC.div_class p hp hdv
  have hcf := class_facts _ hc
  have hdvd : (headerAt x.state p).classSize ∣ PAGE_SIZE := hcf.2.1
  rw [(class_toInt _ hc).1, hC.div_bucket p hp hdv]
  constructor
  · rintro ⟨o, ho, ⟨k, hk⟩, hf⟩
    refine ⟨k, ?_, ?_⟩
    · rw [Nat.lt_div_iff_mul_lt hdvd]
      unfold PAGE_SIZE
      rw [← hk]
      exact ho
    · rw [Nat.mul_comm, ← hk]
      exact hf
  · rintro ⟨k, hk, hf⟩
    rw [Nat.lt_div_iff_mul_lt hdvd] at hk
    unfold PAGE_SIZE at hk
    exact ⟨k * (headerAt x.state p).classSize, by rw [Nat.mul_comm]; exact hk,
      Dvd.intro_left k rfl, hf⟩

/-- C9 (witness): the calls of `main` up to the first free, the array at 65536. -/
theorem C9_bucket_iff_free_block_witness :
    ∃ x, run [Call.alloc 9000, Call.alloc 400, Call.alloc 400, Call.free 77825]
          (initSys 65536) = some x
      ∧ ∀ p ∈ pagesOf 65536, (headerAt x.state p).status = pageStatus.Divided →
          (p ∈ bucket x.state (toInt (headerAt x.state p).classSize) ↔
            ∃ k, k < PAGE_SIZE / (headerAt x.state p).classSize
              ∧ flagFree x.state p (k * (headerAt x.state p).classSize)) := by
  have h : (run [Call.alloc 9000, Call.alloc 400, Call.alloc 400, Call.free 77825]
      (initSys 65536)).isSome = true := by decide
  obtain ⟨x, hx⟩ := Option.isSome_iff_exists.1 h
  exact ⟨x, hx, C9_bucket_iff_free_block 65536 (by decide) (by decide) _ x hx⟩

/-- C5: in every state reached from the initial one by allocations and frees of
live addresses, when `mem_alloc` with `0 < size ≤ PAGE_SIZE / 2` returns a
non-null address `r`, then `r` lies in a page of the array that is `Divided`
with the class size computed for `size`, `r` is one byte past a multiple of the
class size from the start of the page, and the flag byte at `r - 1` is busy
after the call. -/
theorem C5_alloc_returns_payload (b : Nat) (hb : 0 < b) (hbw : b + MEMORY_SIZE < WORD)
    (cs : List Call) (x : Sys) (hrun : run cs (initSys b) = some x)
    (size r : Nat) (s' : State) (h0 : 0 < size) (hle : size ≤ PAGE_SIZE / 2)
    (hres : mem_alloc x.state size = some (r, s')) (hr : r ≠ 0) :
    ∃ c, powerOfTwoAligment (size + BLOCK_HEADER_SIZE) = some c
      ∧ pageOf b r ∈ pagesOf b ∧ pageOf b r < r ∧ r < pageOf b r + PAGE_SIZE
      ∧ (headerAt s' (pageOf b r)).status = pageStatus.Divided
      ∧ (headerAt s' (pageOf b r)).classSize = c
      ∧ (r - pageOf b r) % c = 1
      ∧ readByte s' (r - 1) = some 0 := by
  obtain ⟨hI, hsp⟩ := inv_reachable b hb hbw cs x hrun
  have hle' : size ≤ 2048 := by unfold PAGE_SIZE at hle; omega
  obtain ⟨c, hpow, hc, _, hcase⟩ := mem_alloc_small x size hI (by omega) hle'
  have hcf := class_facts c hc
  rcases hcase with ⟨_, _, s1, hres1, _⟩ | ⟨p, o, s1, hres1, hp, ho, hd, hsp1, hst, hcs, hfl, _⟩
  · rw [hres1] at hres
    simp only [Option.some.injEq, Prod.mk.injEq] at hres
    exact absurd hres.1.symm hr
  · rw [hres1] at hres
    simp only [Option.some.injEq, Prod.mk.injEq] at hres
    obtain ⟨rfl, rfl⟩ := hres
    rw [hsp] at hp hsp1
    have hbb := block_bound c o hc ho hd
    have hpo : pageOf b (p + o + 1) = p := by
      rw [Nat.add_assoc]
      exact pageOf_add _ _ _ hp (by omega)
    rw [hpo]
    refine ⟨c, hpow, hp, by omega, by unfold PAGE_SIZE; omega, hst, hcs, ?_, ?_⟩
    · have h1 : p + o + 1 - p = o + 1 := by omega
      obtain ⟨k, rfl⟩ := hd
      rw [h1, Nat.mul_add_mod]
      exact Nat.mod_eq_of_lt (by omega)
    · have h1 : p + o + 1 - 1 = p + o := by omega
      rw [h1, readByte_block s1 p o (by rw [hsp1]; exact hp) ho]
      unfold flagFree at hfl
      simp only [ne_eq, not_not] at hfl
      rw [hfl]

/-- C5 (witness): after the first call of `main`, the request of 400 bytes. -/
theorem C5_alloc_returns_payload_witness :
    ∃ x r s', run [Call.alloc 9000] (initSys 65536) = some x
      ∧ mem_alloc x.state 400 = some (r, s') ∧ r = 77825
      ∧ ∃ c, powerOfTwoAligment (400 + BLOCK_HEADER_SIZE) = some c
        ∧ pageOf 65536 r ∈ pagesOf 65536 ∧ pageOf 65536 r < r
        ∧ r < pageOf 65536 r + PAGE_SIZE
        ∧ (headerAt s' (pageOf 65536 r)).status = pageStatus.Divided
        ∧ (headerAt s' (pageOf 65536 r)).classSize = c
        ∧ (r - pageOf 65536 r) % c = 1
        ∧ readByte s' (r - 1) = some 0 := by
  have h : ((run [Call.alloc 9000] (initSys 65536)).bind
      (fun x => (mem_alloc x.state 400).map Prod.fst)) = some 77825 := by decide
  match hx : run [Call.alloc 9000] (initSys 65536) with
  | none => rw [hx] at h; simp at h
  | some x =>
    match hm : mem_alloc x.state 400 with
    | none => rw [hx] at h; simp [hm] at h
    | some (r, s') =>
      have hr : r = 77825 := by
        rw [hx] at h
        simpa [hm] using h
      exact ⟨x, r, s', rfl, hm, hr,
        C5_alloc_returns_payload 65536 (by decide) (by decide) _ x hx 400 r s'
          (by decide) (by decide) hm (by omega)⟩


/-- C3 (counterexample): one request of 400 bytes and the free of the returned
address.  No address is live afterwards, but the pool is `[69632, 73728, 77824,
65536]` where the fresh pool is `[65536, 69632, 73728, 77824]`, and the bucket
of key 0 lists page 65536 where the fresh state has no page in any bucket. -/
theorem C3_round_trip_differs :
    (run [Call.alloc 400, Call.free 65537] (initSys 65536)).map
        (fun x => (x.live, x.state.freePages, bucket x.state 0))
      = some ([], [69632, 73728, 77824, 65536], [65536])
      ∧ (freshState 65536).freePages = [65536, 69632, 73728, 77824]
      ∧ bucket (freshState 65536) 0 = [] := by
  decide

theorem run_frees_live :
    ∀ (frees : List Nat) (y x : Sys), run (frees.map Call.free) y = some x →
      x.live = y.live.filter (fun e => decide (e.1 ∉ frees)) := by
  intro frees
  induction frees with
  | nil =>
    intro y x h
    simp only [List.map_nil, run, Option.some.injEq] at h
    rw [← h]
    simp
  | cons a frees ih =>
    intro y x h
    rw [List.map_cons, run] at h
    match hs : step y (Call.free a) with
    | none => rw [hs] at h; simp at h
    | some y1 =>
      rw [hs] at h
      have hy1 : y1.live = y.live.filter (fun e => decide (e.1 ≠ a)) := by
        simp only [step] at hs
        by_cases ha : a ∈ y.live.map Prod.fst
        · rw [if_pos ha] at hs
          match hm : mem_free y.state a with
          | none => rw [hm] at hs; simp at hs
          | some s1 =>
            rw [hm] at hs
            simp only [Option.some.injEq] at hs
            rw [← hs]
        · rw [if_neg ha] at hs
          simp at hs
      rw [ih y1 x h, hy1, List.filter_filter]
      congr 1
      funext e
      by_cases he : e.1 = a <;> simp [he]

/-- C3 (amended): after any sequence of allocations on the fresh state followed
by the free of every returned non-null address, in any order, all calls being
defined, no address is live, every page header is `(Free, 0, nullptr)` as in the
fresh state, the pool holds the pages of the fresh pool, each once, possibly in
another order, and every bucket of a non-zero key is empty as in the fresh
state. -/
theorem C3_round_trip (b : Nat) (hb : 0 < b) (hbw : b + MEMORY_SIZE < WORD)
    (sizes frees : List Nat) (y x : Sys)
    (hallocs : run (sizes.map Call.alloc) (initSys b) = some y)
    (hperm : frees.Perm (addrs y))
    (hfrees : run (frees.map Call.free) y = some x) :
    x.live = []
      ∧ (∀ p ∈ pagesOf b, x.state.headers p = some ⟨pageStatus.Free, 0, 0⟩
          ∧ (freshState b).headers p = some ⟨pageStatus.Free, 0, 0⟩)
      ∧ (x.state.freePages.Perm (pagesOf b) ∧ (freshState b).freePages = pagesOf b)
      ∧ (∀ k : Int, k ≠ 0 → bucket x.state k = [] ∧ bucket (freshState b) k = []) := by
  obtain ⟨hIy, hspy⟩ := inv_reachable b hb hbw _ y hallocs
  obtain ⟨⟨chains, hC, hB⟩, hspx⟩ := inv_run _ y x hIy hfrees
  rw [hspy] at hspx
  obtain ⟨_, _, f3, f4, _, f6⟩ := freshState_obs b hbw
  have hlive : x.live = [] := by
    rw [run_frees_live frees y x hfrees, List.filter_eq_nil_iff]
    intro e he
    have : e.1 ∈ addrs y := List.mem_map_of_mem Prod.fst he
    have : e.1 ∈ frees := hperm.symm.subset this
    simp [this]
  have haddrs : addrs x = [] := by
    unfold addrs
    rw [hlive]
    rfl
  rw [haddrs] at hC
  have hpg : ∀ p, p ∈ pagesOf b → p ∈ pagesOf x.state.startPointer := by
    intro p hp
    rw [hspx]
    exact hp
  have hnoD : ∀ p ∈ pagesOf x.state.startPointer,
      (headerAt x.state p).status ≠ pageStatus.Divided := by
    intro p hp hdv
    obtain ⟨o, ho, hd, hbusy⟩ := hB p hp hdv
    have := hC.busy_live p hp hdv o ho hd hbusy
    simp at this
  have hnoM : ∀ p ∈ pagesOf x.state.startPointer,
      (headerAt x.state p).status ≠ pageStatus.MultipageBlock := by
    intro p hp hm
    obtain ⟨ch, hch, _⟩ := (hC.chains_multi p).2 ⟨hp, hm⟩
    obtain ⟨a, ha, _⟩ := hC.chains_head ch hch
    simp at ha
  have hF : ∀ p ∈ pagesOf x.state.startPointer,
      (headerAt x.state p).status = pageStatus.Free := by
    intro p hp
    have h1 := hnoD p hp
    have h2 := hnoM p hp
    cases hst : (headerAt x.state p).status
    · rfl
    · exact absurd hst h1
    · exact absurd hst h2
  refine ⟨hlive, ?_, ⟨?_, f3⟩, ?_⟩
  · intro p hp
    refine ⟨?_, f4 p hp⟩
    have h1 := hC.hdr_some p (hpg p hp)
    have h2 := hC.free_hdr p (hpg p hp) (hF p (hpg p hp))
    obtain ⟨h, hh⟩ := Option.isSome_iff_exists.1 h1
    unfold headerAt at h2
    rw [hh] at h2 ⊢
    simpa using h2
  · rw [List.perm_ext_iff_of_nodup hC.pool_nodup]
    · intro p
      rw [hC.pool_iff p, hspx]
      exact ⟨fun h => h.1, fun h => ⟨h, hF p (hpg p h)⟩⟩
    · unfold pagesOf PAGE_SIZE
      simp
  · intro k hk
    refine ⟨?_, f6 k⟩
    rw [List.eq_nil_iff_forall_not_mem]
    intro p hp
    have := hC.bucket_pages k hk p hp
    exact hnoD p this.1 this.2.1

/-- C3 (witness): the three allocations of `main`, freed last, first, second. -/
theorem C3_round_trip_witness :
    ∃ y x, run ([9000, 400, 400].map Call.alloc) (initSys 65536) = some y
      ∧ [78337, 65536, 77825].Perm (addrs y)
      ∧ run ([78337, 65536, 77825].map Call.free) y = some x
      ∧ x.live = []
      ∧ (∀ p ∈ pagesOf 65536, x.state.headers p = some ⟨pageStatus.Free, 0, 0⟩
          ∧ (freshState 65536).headers p = some ⟨pageStatus.Free, 0, 0⟩)
      ∧ (x.state.freePages.Perm (pagesOf 65536)
          ∧ (freshState 65536).freePages = pagesOf 65536)
      ∧ (∀ k : Int, k ≠ 0 → bucket x.state k = [] ∧ bucket (freshState 65536) k = []) := by
  have h1 : (run ([9000, 400, 400].map Call.alloc) (initSys 65536)).map addrs
      = some [65536, 77825, 78337] := by decide
  have h2 : ((run ([9000, 400, 400].map Call.alloc) (initSys 65536)).bind fun y =>
      run ([78337, 65536, 77825].map Call.free) y).isSome = true := by decide
  have h0 : (run ([9000, 400, 400].map Call.alloc) (initSys 65536)).isSome = true := by
    decide
  obtain ⟨y, hy⟩ := Option.isSome_iff_exists.1 h0
  rw [hy] at h1 h2
  rw [Option.some_bind] at h2
  obtain ⟨x, hx⟩ := Option.isSome_iff_exists.1 h2
  have hay : addrs y = [65536, 77825, 78337] := Option.some.inj h1
  have hperm : [78337, 65536, 77825].Perm (addrs y) := by
    rw [hay]
    decide
  exact ⟨y, x, hy, hperm, hx,
    C3_round_trip 65536 (by decide) (by decide) [9000, 400, 400] [78337, 65536, 77825]
      y x hy hperm hx⟩

/-! ## The rounding function on its whole domain -/

/-- From a power of two whose smaller powers are all at most `number`, the
loop returns the least power of two strictly above `number`. -/
theorem powerOfTwoLoop_least (n : Nat) (hn : n < 2 ^ 63) :
    ∀ fuel k : Nat, 65 ≤ fuel + k → k ≤ 63 → (∀ i, i < k → 2 ^ i ≤ n) →
      ∃ j, powerOfTwoLoop n fuel (2 ^ k) = some (2 ^ j) ∧ n < 2 ^ j ∧
        ∀ i, n < 2 ^ i → 2 ^ j ≤ 2 ^ i := by
  intro fuel
  induction fuel with
  | zero => intro k h1 h2; omega
  | succ fuel ih =>
    intro k h1 h2 hlow
    unfold powerOfTwoLoop
    by_cases hle : 2 ^ k ≤ n
    · rw [if_pos hle]
      have hk : k < 63 := by
        rcases Nat.lt_or_ge k 63 with h | h
        · exact h
        · have : k = 63 := by omega
          subst this
          omega
      have hpow : 2 ^ k * 2 = 2 ^ (k + 1) := by rw [pow_succ]
      have hlt : 2 ^ (k + 1) < WORD := by
        have : 2 ^ (k + 1) ≤ 2 ^ 63 := Nat.pow_le_pow_right (by decide) (by omega)
        have h63 : (2 : Nat) ^ 63 < WORD := by decide
        omega
      rw [hpow, Nat.mod_eq_of_lt hlt]
      apply ih (k + 1) (by omega) (by omega)
      intro i hi
      rcases Nat.lt_or_ge i k with h | h
      · exact hlow i h
      · have : i = k := by omega
        subst this
        exact hle
    · rw [if_neg hle]
      refine ⟨k, rfl, by omega, ?_⟩
      intro i hi
      rcases Nat.lt_or_ge i k with h | h
      · have := hlow i h
        omega
      · exact Nat.pow_le_pow_right (by decide) h

/-- With `minValue = 0` the loop never leaves. -/
theorem powerOfTwoLoop_zero (n : Nat) : ∀ fuel, powerOfTwoLoop n fuel 0 = none := by
  intro fuel
  induction fuel with
  | zero => rfl
  | succ fuel ih =>
    unfold powerOfTwoLoop
    rw [if_pos (Nat.zero_le n)]
    exact ih

/-- For a number of at least `2^63` the loop never leaves, whatever the number
of tests it is allowed. -/
theorem powerOfTwoLoop_diverges (n : Nat) (hn : 2 ^ 63 ≤ n) :
    ∀ fuel k : Nat, k ≤ 63 → powerOfTwoLoop n fuel (2 ^ k) = none := by
  intro fuel
  induction fuel with
  | zero => intro k _; rfl
  | succ fuel ih =>
    intro k hk
    unfold powerOfTwoLoop
    have hle : 2 ^ k ≤ n := le_trans (Nat.pow_le_pow_right (by decide) hk) hn
    rw [if_pos hle]
    rcases Nat.lt_or_ge k 63 with h | h
    · have hpow : 2 ^ k * 2 = 2 ^ (k + 1) := by rw [pow_succ]
      have hlt : 2 ^ (k + 1) < WORD := by
        have : 2 ^ (k + 1) ≤ 2 ^ 63 := Nat.pow_le_pow_right (by decide) (by omega)
        have h63 : (2 : Nat) ^ 63 < WORD := by decide
        omega
      rw [hpow, Nat.mod_eq_of_lt hlt]
      exact ih (k + 1) (by omega)
    · have : k = 63 := by omega
      subst this
      have : (2 ^ 63 * 2) % WORD = 0 := by decide
      rw [this]
      exact powerOfTwoLoop_zero n fuel

/-- For every `n < 2^63`, `powerOfTwoAligment n` returns the minimum power of
two strictly greater than `n`. -/
theorem powerOfTwoAligment_least (n : Nat) (hn : n < 2 ^ 63) :
    ∃ j, powerOfTwoAligment n = some (2 ^ j) ∧ n < 2 ^ j ∧
      ∀ i, n < 2 ^ i → 2 ^ j ≤ 2 ^ i := by
  have h := powerOfTwoLoop_least n hn 66 0 (by omega) (by omega) (by intro i hi; omega)
  simpa [powerOfTwoAligment] using h

/-- C19 (evaluation at the failing input): at an exact power of two the function returns the
next power, `64 -> 128`, although `64` itself is a power of two not less than
`64`; the documented example `55 -> 64` holds. -/
theorem C19_exact_power_is_doubled :
    powerOfTwoAligment 64 = some 128 ∧ (64 : Nat) = 2 ^ 6 ∧ powerOfTwoAligment 55 = some 64 := by
  decide

/-- C20 (evaluation at the failing input): for `n = 2^63` the loop of
`powerOfTwoAligment` is still running after any number of tests, so the
function does not return, and neither does `mem_realloc` of the live address
`65537` with that size. -/
theorem C20_rounding_never_returns :
    (∀ fuel, powerOfTwoLoop 9223372036854775808 fuel 1 = none) ∧
    powerOfTwoAligment 9223372036854775808 = none ∧
    (run [Call.alloc 400] (initSys 65536)).map addrs = some [65537] ∧
    (mem_realloc (stateAfter [Call.alloc 400] 65536) 65537 9223372036854775808).isSome
      = false := by
  refine ⟨?_, ?_, by decide, by decide⟩
  · intro fuel
    exact powerOfTwoLoop_diverges 9223372036854775808 (by decide) fuel 0 (by omega)
  · exact powerOfTwoLoop_diverges 9223372036854775808 (by decide) 66 0 (by omega)
/-! ## Evaluations of `mem_free` and `mem_realloc` -/

/-- The null pointer, and every address below the array or more than one past
its end, is rejected by `mem_free` and `mem_realloc` without any change. -/
theorem out_of_range_rejected (s : State) (a size : Nat)
    (h : a < s.startPointer ∨ a > ptrAdd s.startPointer MEMORY_SIZE) :
    mem_free s 0 = some s ∧ mem_free s a = some s
      ∧ (a ≠ 0 → mem_realloc s a size = some (0, s)) := by
  refine ⟨by simp [mem_free], ?_, ?_⟩
  · by_cases ha : a = 0
    · simp [mem_free, ha]
    · simp [mem_free, ha, h]
  · intro ha
    simp [mem_realloc, ha, h]

/-- The shrinking resize of `main`: the 3-page block of `mem_alloc(9000)` resized
to 5000 bytes keeps two pages of class size 8192 and releases the third. -/
theorem mem_realloc_shrink_example :
    (mem_realloc (stateAfter [Call.alloc 9000] 65536) 65536 5000).map
        (fun r => (r.1, r.2.freePages, headerAt r.2 65536, headerAt r.2 69632,
          headerAt r.2 73728))
      = some (65536, [77824, 73728], ⟨pageStatus.MultipageBlock, 8192, 69633⟩,
          ⟨pageStatus.MultipageBlock, 8192, 0⟩, ⟨pageStatus.Free, 0, 0⟩) := by
  decide

/-- C12 (evaluation at the failing input): the address one past the array,
`81920 = 65536 + 16384`, is outside `[65536, 81920)` but passes the range
checks of both functions: `mem_free` inserts a page header for it, and
`mem_realloc` reaches the end of the function without a `return`. -/
theorem C12_one_past_the_end_accepted :
    ¬ (65536 ≤ 81920 ∧ 81920 < 65536 + MEMORY_SIZE) ∧
    (freshState 65536).headers 81920 = none ∧
    (mem_free (freshState 65536) 81920).map (fun s => s.headers 81920)
      = some (some ⟨pageStatus.Free, 0, 0⟩) ∧
    (mem_realloc (freshState 65536) 81920 100).isSome = false := by
  decide

/-- C13 (evaluation at the failing input): `mem_alloc(511)` returns `65537`
in a page of class 1024; `mem_realloc(65537, 511)` does not return `65537` but
the next block `66561`, and marks the block of `65537` free.  For the 3-page
block of `mem_alloc(9000)`, `mem_realloc(65536, 9000)` enters the growing loop
and reads `freePages[1]` of a one-element pool. -/
theorem C13_same_size_resize_moves :
    (run [Call.alloc 511] (initSys 65536)).map addrs = some [65537] ∧
    headerAt (stateAfter [Call.alloc 511] 65536) 65536
      = ⟨pageStatus.Divided, 1024, 66561⟩ ∧
    (mem_realloc (stateAfter [Call.alloc 511] 65536) 65537 511).map
        (fun r => (r.1, readByte r.2 65536, readByte r.2 66560))
      = some (66561, some 1, some 0) ∧
    (run [Call.alloc 9000] (initSys 65536)).map
        (fun x => (addrs x, x.state.freePages)) = some ([65536], [77824]) ∧
    (mem_realloc (stateAfter [Call.alloc 9000] 65536) 65536 9000).isSome = false := by
  decide

/-- C14 (evaluation at the failing input): after `a = mem_alloc(1500)`,
`b = mem_alloc(1500)`, `mem_free(a)` the live address `b = 67585` is in a page
of class 2048 and `powerOfTwoAligment(1023) = 1024`; a fresh `mem_alloc(1023)`
succeeds, yet `mem_realloc(67585, 1023)` returns `67585` itself, with its flag
byte free and its page released to the pool. -/
theorem C14_resize_returns_released_block :
    (run [Call.alloc 1500, Call.alloc 1500, Call.free 65537] (initSys 65536)).map addrs
      = some [67585] ∧
    headerAt (stateAfter [Call.alloc 1500, Call.alloc 1500, Call.free 65537] 65536) 65536
      = ⟨pageStatus.Divided, 2048, 67585⟩ ∧
    powerOfTwoAligment 1023 = some 1024 ∧
    (mem_alloc (stateAfter [Call.alloc 1500, Call.alloc 1500, Call.free 65537] 65536)
        1023).map Prod.fst = some 67585 ∧
    (mem_realloc (stateAfter [Call.alloc 1500, Call.alloc 1500, Call.free 65537] 65536)
        67585 1023).map
        (fun r => (r.1, readByte r.2 67584, headerAt r.2 65536, r.2.freePages))
      = some (67585, some 1, ⟨pageStatus.Free, 0, 0⟩, [69632, 73728, 77824, 65536]) := by
  decide

/-- C16 (evaluation at the failing input): the one-page block `65536` of
`mem_alloc(3000)` is resized to 5000 bytes (2 pages) with 3 pages in the pool.
`mem_realloc` returns `65536`, takes two pages from the pool instead of one,
and leaves the header of `65536` as it was: the chain from `65536` is still the
single page with class size 4096.  Resizing the 2-page block of
`mem_alloc(5000)` to 9000 bytes reads `freePages[1]` of a one-element pool. -/
theorem C16_grow_does_not_extend_chain :
    (run [Call.alloc 3000] (initSys 65536)).map
        (fun x => (addrs x, x.state.freePages, headerAt x.state 65536))
      = some ([65536], [69632, 73728, 77824], ⟨pageStatus.MultipageBlock, 4096, 0⟩) ∧
    (mem_realloc (stateAfter [Call.alloc 3000] 65536) 65536 5000).map
        (fun r => (r.1, r.2.freePages, chainFrom r.2 4 65536, headerAt r.2 65536))
      = some (65536, [77824], [65536], ⟨pageStatus.MultipageBlock, 4096, 0⟩) ∧
    (mem_realloc (stateAfter [Call.alloc 3000] 65536) 65536 5000).map
        (fun r => (headerAt r.2 69632, headerAt r.2 73728))
      = some (⟨pageStatus.MultipageBlock, 8192, 73729⟩,
          ⟨pageStatus.MultipageBlock, 8192, 0⟩) ∧
    (run [Call.alloc 5000] (initSys 65536)).map
        (fun x => (addrs x, x.state.freePages)) = some ([65536], [73728, 77824]) ∧
    (mem_realloc (stateAfter [Call.alloc 5000] 65536) 65536 9000).isSome = false := by
  decide

/-- C17 (evaluation at the failing input): the 3-page block `65536` of
`mem_alloc(9000)` is resized to 4096 bytes, for which `ceil(4096 / 4096) = 1`.
`mem_realloc` keeps two pages, with class size 8192, and releases only the
third.  The 4-page block of `mem_alloc(16000)` resized to 9000 bytes
(`ceil(9000 / 4096) = 3`) is left as it is. -/
theorem C17_shrink_keeps_too_many_pages :
    (run [Call.alloc 9000] (initSys 65536)).map
        (fun x => (addrs x, x.state.freePages, chainFrom x.state 4 65536))
      = some ([65536], [77824], [65536, 69632, 73728]) ∧
    (4096 + PAGE_SIZE - 1) / PAGE_SIZE = 1 ∧
    (mem_realloc (stateAfter [Call.alloc 9000] 65536) 65536 4096).map
        (fun r => (r.1, r.2.freePages, headerAt r.2 65536, headerAt r.2 69632,
          headerAt r.2 73728))
      = some (65536, [77824, 73728], ⟨pageStatus.MultipageBlock, 8192, 69633⟩,
          ⟨pageStatus.MultipageBlock, 8192, 0⟩, ⟨pageStatus.Free, 0, 0⟩) ∧
    (9000 + PAGE_SIZE - 1) / PAGE_SIZE = 3 ∧
    (mem_realloc (stateAfter [Call.alloc 16000] 65536) 65536 9000).map
        (fun r => (r.1, r.2.freePages, chainFrom r.2 4 65536, headerAt r.2 65536))
      = some (65536, [], [65536, 69632, 73728, 77824],
          ⟨pageStatus.MultipageBlock, 16384, 69633⟩) := by
  decide

/-- C18 (evaluation at the failing input): after `a = mem_alloc(1500)`,
`b = mem_alloc(1500)`, `mem_free(a)` the page `65536` is in the bucket of class
2048 and its cursor is `67585`, the payload address of the block of `b`, whose
flag byte says busy; the free block is the one at `65536`. -/
theorem C18_cursor_on_busy_block :
    (run [Call.alloc 1500, Call.alloc 1500, Call.free 65537] (initSys 65536)).map
        (fun x => (addrs x, bucket x.state 2048, headerAt x.state 65536,
          readByte x.state 67584, readByte x.state 65536))
      = some ([67585], [65536], ⟨pageStatus.Divided, 2048, 67585⟩, some 0, some 1) := by
  decide
/-! ## Freeing a multi-page block, on the level of the header map -/

/-- The header map after the loop of `mem_free` over a linked chain: the pages
of the chain carry the reset header, every other key is as before. -/
theorem freeChainLoop_headers (total : Nat) :
    ∀ (l : List Nat) (q : Nat) (s : State), chainLinked s total (q :: l) →
      (q :: l).Nodup → (∀ x ∈ l, x + 1 < WORD) →
      ∀ p, (freeChainLoop (l.length + 1) q s).headers p
        = if p ∈ q :: l then some ⟨pageStatus.Free, 0, 0⟩ else s.headers p := by
  intro l
  induction l with
  | nil =>
    intro q s _ _ _ p
    show (if p = q then some ⟨pageStatus.Free, 0, 0⟩
      else if p = q then some (headerAt s q) else s.headers p) = _
    by_cases h : p = q <;> simp [h]
  | cons q' r ih =>
    intro q s hl hnd hw p
    unfold chainLinked at hl
    have hq' : q' + 1 < WORD := hw q' (by simp)
    have hnext : ptrSub (headerAt (touchHeader s q) q).availableBlock BLOCK_HEADER_SIZE
        = q' := by
      rw [headerAt_touchHeader, hl.1]
      show ptrSub (ptrAdd q' 1) 1 = q'
      rw [ptrAdd_eq _ _ hq', ptrSub_eq _ _ (by omega) hq']
      omega
    let s3 : State := { setPageHeader (touchHeader s q) q pageStatus.Free 0 0 with
      freePages := s.freePages ++ [q] }
    have hstep : freeChainLoop ((q' :: r).length + 1) q s
        = freeChainLoop (r.length + 1) q' s3 := by
      show freeChainLoop (r.length + 1 + 1) q s = _
      rw [freeChainLoop]
      simp only [hnext]
      rfl
    have hh3 : ∀ p, headerAt s3 p
        = if p = q then ⟨pageStatus.Free, 0, 0⟩ else headerAt s p := by
      intro p
      show headerAt (setPageHeader (touchHeader s q) q pageStatus.Free 0 0) p = _
      rw [headerAt_setPageHeader, headerAt_touchHeader]
    have hr3 : ∀ p, s3.headers p
        = if p = q then some ⟨pageStatus.Free, 0, 0⟩ else s.headers p := by
      intro p
      show (if p = q then some ⟨pageStatus.Free, 0, 0⟩
        else if p = q then some (headerAt s q) else s.headers p) = _
      by_cases h : p = q <;> simp [h]
    have hnd' := List.nodup_cons.1 hnd
    have hl3 : chainLinked s3 total (q' :: r) := by
      apply chainLinked_frame s s3 total _ _ hl.2
      intro x hx
      rw [hh3, if_neg]
      rintro rfl
      exact hnd'.1 hx
    rw [hstep, ih q' s3 hl3 hnd'.2 (fun x hx => hw x (List.mem_cons_of_mem _ hx)) p, hr3]
    by_cases h1 : p = q
    · subst h1
      simp
    · simp [h1]

/-- C11: in every state in which `a` heads a chain of `n` distinct pages of the
array, linked as one multi-page block of `n * PAGE_SIZE` bytes, `mem_free a`
is defined; the chain is what following the links from `a` for
`classSize / PAGE_SIZE` pages visits; the header of each of its pages becomes
`Free, 0, nullptr`; exactly those pages are appended to the end of the pool, in
chain order; and no other page header, no bucket and no byte changes. -/
theorem C11_free_releases_chain (s : State) (a : Nat) (l : List Nat)
    (hb0 : 0 < s.startPointer) (hbw : s.startPointer + MEMORY_SIZE < WORD)
    (hpg : ∀ p ∈ a :: l, p ∈ pagesOf s.startPointer) (hnd : (a :: l).Nodup)
    (hlink : chainLinked s ((a :: l).length * PAGE_SIZE) (a :: l)) :
    ∃ s', mem_free s a = some s'
      ∧ chainFrom s ((headerAt s a).classSize / PAGE_SIZE) a = a :: l
      ∧ s'.freePages = s.freePages ++ (a :: l)
      ∧ (∀ p ∈ a :: l, s'.headers p = some ⟨pageStatus.Free, 0, 0⟩)
      ∧ (∀ p, p ∉ a :: l → s'.headers p = s.headers p)
      ∧ s'.classifiedPages = s.classifiedPages
      ∧ s'.memory = s.memory ∧ s'.startPointer = s.startPointer := by
  have hap := hpg a (by simp)
  obtain ⟨h1, h2⟩ := page_bounds _ _ hap
  have hw : ∀ x ∈ l, x + 1 < WORD := by
    intro x hx
    have := (page_bounds _ _ (hpg x (List.mem_cons_of_mem _ hx))).2
    omega
  have hlen := length_le_four_of_pages _ _ hnd hpg
  obtain ⟨hst, hcs⟩ := chainLinked_header s _ _ hlink a (by simp)
  have hn : (headerAt s a).classSize / PAGE_SIZE = l.length + 1 := by
    rw [hcs]
    show (l.length + 1) * PAGE_SIZE / PAGE_SIZE = l.length + 1
    exact Nat.mul_div_cancel _ (by decide)
  have hl0 : chainLinked (touchHeader s a) ((a :: l).length * PAGE_SIZE) (a :: l) :=
    chainLinked_frame s _ _ _ (fun q _ => headerAt_touchHeader s a q) hlink
  have hfree : mem_free s a = some (freeChainLoop (l.length + 1) a (touchHeader s a)) := by
    rw [mem_free_unfold s a hb0 hbw h1 (by omega), pageOf_page _ _ hap, hn]
    have hnd1 : ¬ (headerAt s a).status = pageStatus.Divided := by rw [hst]; decide
    have hint : ¬ l.length + 1 > INT_MAX := by
      have : (a :: l).length = l.length + 1 := rfl
      unfold INT_MAX
      omega
    rw [if_neg hnd1]
    simp only [headerAt_touchHeader, hst, if_true, hint, if_false]
  obtain ⟨i1, i2, i3, i4, _, _⟩ := freeChainLoop_spec _ l a _ hl0 hnd hw
  have i5 := freeChainLoop_headers _ l a _ hl0 hnd hw
  refine ⟨_, hfree, ?_, i4, ?_, ?_, i3, i2, i1⟩
  · rw [hn]
    exact chainFrom_of_chainLinked s _ l a _ hlink hw (by omega)
  · intro p hp
    rw [i5 p, if_pos hp]
  · intro p hp
    rw [i5 p, if_neg hp]
    show (if p = a then some (headerAt s a) else s.headers p) = _
    rw [if_neg]
    rintro rfl
    exact hp (by simp)

/-- C11 (witness): the three-page block of `mem_alloc(9000)` in a fresh array at
`65536`. -/
theorem C11_free_releases_chain_witness :
    ∃ s', mem_free (stateAfter [Call.alloc 9000] 65536) 65536 = some s'
      ∧ chainFrom (stateAfter [Call.alloc 9000] 65536)
          ((headerAt (stateAfter [Call.alloc 9000] 65536) 65536).classSize / PAGE_SIZE) 65536
          = [65536, 69632, 73728]
      ∧ s'.freePages = (stateAfter [Call.alloc 9000] 65536).freePages
          ++ [65536, 69632, 73728]
      ∧ (∀ p ∈ [65536, 69632, 73728], s'.headers p = some ⟨pageStatus.Free, 0, 0⟩)
      ∧ (∀ p, p ∉ [65536, 69632, 73728] →
          s'.headers p = (stateAfter [Call.alloc 9000] 65536).headers p)
      ∧ s'.classifiedPages = (stateAfter [Call.alloc 9000] 65536).classifiedPages
      ∧ s'.memory = (stateAfter [Call.alloc 9000] 65536).memory
      ∧ s'.startPointer = (stateAfter [Call.alloc 9000] 65536).startPointer :=
  C11_free_releases_chain (stateAfter [Call.alloc 9000] 65536) 65536 [69632, 73728]
    (by decide) (by decide) (by decide) (by decide)
    (by simp only [chainLinked]; decide)
/-! ## Failing resizes -/

/-- Evaluating `headers[p]` for a key whose header is not the default one does
not change the state. -/
theorem touchHeader_eq_self (s : State) (p : Nat)
    (h : (headerAt s p).status ≠ pageStatus.Free) : touchHeader s p = s := by
  have hs : ∃ v, s.headers p = some v := by
    cases hv : s.headers p with
    | none =>
      exfalso
      apply h
      simp [headerAt, hv, defaultHeader]
    | some v => exact ⟨v, rfl⟩
  obtain ⟨v, hv⟩ := hs
  have hf : (fun k => if k = p then some (headerAt s p) else s.headers k) = s.headers := by
    funext k
    by_cases hk : k = p
    · subst hk
      simp [headerAt, hv]
    · simp [hk]
  show ({ s with headers := fun k => if k = p then some (headerAt s p) else s.headers k }
    : State) = s
  rw [hf]

/-- The three ways in which `mem_alloc` returns `nullptr`, and what is left of
the call. -/
theorem mem_alloc_fails (s : State) (size : Nat)
    (hfail : size = 0
      ∨ (size ≤ PAGE_SIZE / 2
          ∧ (∃ c, powerOfTwoAligment (size + BLOCK_HEADER_SIZE) = some c
                ∧ bucket s (toInt c) = [])
          ∧ s.freePages = [])
      ∨ (PAGE_SIZE / 2 < size ∧ size ≤ INT_MAX * PAGE_SIZE
          ∧ s.freePages.length < (size + (PAGE_SIZE - 1)) / PAGE_SIZE)) :
    ∃ s', mem_alloc s size = some (0, s')
      ∧ s'.startPointer = s.startPointer ∧ s'.memory = s.memory
      ∧ s'.freePages = s.freePages ∧ s'.headers = s.headers
      ∧ ∀ k, bucket s' k = bucket s k := by
  by_cases h0 : size = 0
  · exact ⟨s, by simp [mem_alloc, h0], rfl, rfl, rfl, rfl, fun _ => rfl⟩
  rcases hfail with h | ⟨hle, ⟨c, hc, hb⟩, hpool⟩ | ⟨hgt, hmax, hlen⟩
  · exact absurd h h0
  · refine ⟨touchBucket s (toInt c), ?_, rfl, rfl, rfl, rfl, fun k => by simp⟩
    have hadd : ptrAdd size BLOCK_HEADER_SIZE = size + BLOCK_HEADER_SIZE := by
      apply ptrAdd_eq
      unfold PAGE_SIZE at hle
      unfold BLOCK_HEADER_SIZE WORD
      omega
    have hpool1 : (touchBucket s (toInt c)).freePages = [] := hpool
    simp [mem_alloc, h0, hle, hadd, hc, hb, setBlocksSize, hpool1]
  · refine ⟨s, ?_, rfl, rfl, rfl, rfl, fun _ => rfl⟩
    have hnot : ¬ size ≤ PAGE_SIZE / 2 := by omega
    have hpn : pagesNeededOf size = some ((size + (PAGE_SIZE - 1)) / PAGE_SIZE) := by
      unfold pagesNeededOf
      rw [if_pos]
      unfold PAGE_SIZE INT_MAX at *
      omega
    simp [mem_alloc, h0, hnot, hpn, hlen]

/-- The first steps of `mem_realloc` on an address inside the array whose page
header is not `Free`. -/
theorem mem_realloc_unfold (s : State) (a size : Nat) (hb0 : 0 < s.startPointer)
    (hbw : s.startPointer + MEMORY_SIZE < WORD) (h1 : s.startPointer ≤ a)
    (h2 : a < s.startPointer + MEMORY_SIZE)
    (hF : (headerAt s (pageOf s.startPointer a)).status ≠ pageStatus.Free) :
    mem_realloc s a size =
      if (headerAt s (pageOf s.startPointer a)).status = pageStatus.Divided then
        match powerOfTwoAligment size with
        | none => none
        | some classSize =>
          if (headerAt s (pageOf s.startPointer a)).classSize = classSize then some (a, s)
          else
            match mem_alloc s size with
            | none => none
            | some (pointer, s1) =>
              if pointer ≠ 0 then
                match mem_free s1 a with
                | none => none
                | some s2 => some (pointer, s2)
              else some (a, s1)
      else if (headerAt s (pageOf s.startPointer a)).status = pageStatus.MultipageBlock then
        match powerOfTwoAligment size with
        | none => none
        | some aligned =>
          if (headerAt s (pageOf s.startPointer a)).classSize / PAGE_SIZE
              = aligned / PAGE_SIZE then some (a, s)
          else if size ≤ PAGE_SIZE / 2 then
            match mem_free s a with
            | none => none
            | some s1 => mem_alloc s1 size
          else if (headerAt s (pageOf s.startPointer a)).classSize / PAGE_SIZE
              < aligned / PAGE_SIZE then
            if aligned / PAGE_SIZE
                - (headerAt s (pageOf s.startPointer a)).classSize / PAGE_SIZE
                > s.freePages.length then some (0, s)
            else if aligned / PAGE_SIZE ≥ INT_MAX then none
            else
              match growLoop ((headerAt s (pageOf s.startPointer a)).classSize / PAGE_SIZE)
                  (aligned / PAGE_SIZE) (aligned / PAGE_SIZE) 1
                  (pageOf s.startPointer a) s with
              | none => none
              | some s1 => some (a, s1)
          else if (headerAt s (pageOf s.startPointer a)).classSize / PAGE_SIZE ≥ INT_MAX
            then none
          else some (a, shrinkLoop (aligned / PAGE_SIZE)
            ((headerAt s (pageOf s.startPointer a)).classSize / PAGE_SIZE) 1
            (pageOf s.startPointer a) s)
      else none := by
  have ha0 : a ≠ 0 := by omega
  have hend : ptrAdd s.startPointer MEMORY_SIZE = s.startPointer + MEMORY_SIZE :=
    ptrAdd_eq _ _ hbw
  have hguard : ¬ (a < s.startPointer ∨ a > s.startPointer + MEMORY_SIZE) := by omega
  have hpg := pageOf_offset s.startPointer a h1
  have hpage : ptrAdd s.startPointer ((a - s.startPointer) / PAGE_SIZE * PAGE_SIZE)
      = pageOf s.startPointer a := by
    unfold pageOf at hpg ⊢
    exact ptrAdd_eq _ _ (by omega)
  unfold mem_realloc
  simp only [ha0, hend, hguard, hpage, if_false, touchHeader_eq_self s _ hF]

/-- For a size above one page the rounded value is a whole number of pages
that holds the size. -/
theorem powerOfTwoAligment_pages (size : Nat) (h1 : PAGE_SIZE < size) (h2 : size < 2 ^ 63) :
    ∃ m, powerOfTwoAligment size = some (PAGE_SIZE * m) ∧ size < PAGE_SIZE * m := by
  obtain ⟨j, hj, hlt, _⟩ := powerOfTwoAligment_least size h2
  have hj12 : 12 ≤ j := by
    rcases Nat.lt_or_ge j 12 with h | h
    · have : 2 ^ j ≤ 2 ^ 12 := Nat.pow_le_pow_right (by decide) (by omega)
      unfold PAGE_SIZE at h1
      omega
    · exact h
  have hsplit : 2 ^ j = PAGE_SIZE * 2 ^ (j - 12) := by
    have : j = 12 + (j - 12) := by omega
    conv_lhs => rw [this, pow_add]
    rfl
  exact ⟨2 ^ (j - 12), by rw [hj, hsplit], by rw [← hsplit]; exact hlt⟩

/-- C15 (counterexample): with the pool empty and `65537` live in a page of
class 512, `mem_realloc(65537, 1)` fails to allocate and returns `65537`, but
the map of classes, which had no bucket for class 4, has an empty one after the
call. -/
theorem C15_failed_resize_creates_bucket :
    (run [Call.alloc 400, Call.alloc 12288] (initSys 65536)).map
        (fun x => (addrs x, x.state.freePages, headerAt x.state 65536))
      = some ([65537, 69632], [], ⟨pageStatus.Divided, 512, 66049⟩) ∧
    powerOfTwoAligment 1 = some 2 ∧
    (mem_alloc (stateAfter [Call.alloc 400, Call.alloc 12288] 65536) 1).map Prod.fst
      = some 0 ∧
    (stateAfter [Call.alloc 400, Call.alloc 12288] 65536).classifiedPages 4 = none ∧
    (mem_realloc (stateAfter [Call.alloc 400, Call.alloc 12288] 65536) 65537 1).map
        (fun r => (r.1, r.2.classifiedPages 4)) = some (65537, some []) := by
  decide

/-- C15 (amended): let `p` be an address of the array.
(a) If the page of `p` is `Divided`, `powerOfTwoAligment(size)` is not its class
size, and `mem_alloc(size)` fails in one of its three ways, then `mem_realloc`
returns `p`, and the page headers, the pool, the array bytes and the content of
every bucket are as before the call.
(b) If the page of `p` is `MultipageBlock` with `oldPages >= 1` pages,
`size < 2^63`, `ceil(size / PAGE_SIZE) > oldPages` and the pool holds fewer
than `ceil(size / PAGE_SIZE) - oldPages` pages, then `mem_realloc` returns
`nullptr` and the state is the one before the call. -/
theorem C15_resize_failure (s : State) (p size : Nat)
    (hb0 : 0 < s.startPointer) (hbw : s.startPointer + MEMORY_SIZE < WORD)
    (h1 : s.startPointer ≤ p) (h2 : p < s.startPointer + MEMORY_SIZE) :
    ((headerAt s (pageOf s.startPointer p)).status = pageStatus.Divided →
      powerOfTwoAligment size ≠ some (headerAt s (pageOf s.startPointer p)).classSize →
      (size = 0
        ∨ (size ≤ PAGE_SIZE / 2
            ∧ (∃ c, powerOfTwoAligment (size + BLOCK_HEADER_SIZE) = some c
                  ∧ bucket s (toInt c) = [])
            ∧ s.freePages = [])
        ∨ (PAGE_SIZE / 2 < size ∧ size ≤ INT_MAX * PAGE_SIZE
            ∧ s.freePages.length < (size + (PAGE_SIZE - 1)) / PAGE_SIZE)) →
      ∃ s', mem_realloc s p size = some (p, s')
        ∧ s'.startPointer = s.startPointer ∧ s'.memory = s.memory
        ∧ s'.freePages = s.freePages ∧ s'.headers = s.headers
        ∧ ∀ k, bucket s' k = bucket s k)
    ∧ ((headerAt s (pageOf s.startPointer p)).status = pageStatus.MultipageBlock →
      PAGE_SIZE ≤ (headerAt s (pageOf s.startPointer p)).classSize →
      size < 2 ^ 63 →
      (headerAt s (pageOf s.startPointer p)).classSize / PAGE_SIZE
        < (size + (PAGE_SIZE - 1)) / PAGE_SIZE →
      s.freePages.length < (size + (PAGE_SIZE - 1)) / PAGE_SIZE
        - (headerAt s (pageOf s.startPointer p)).classSize / PAGE_SIZE →
      mem_realloc s p size = some (0, s)) := by
  constructor
  · intro hst hcls hfail
    have hsz : size < 2 ^ 63 := by
      unfold PAGE_SIZE INT_MAX at hfail
      rcases hfail with h | ⟨h, _⟩ | ⟨_, h, _⟩ <;> omega
    obtain ⟨j, hj, _, _⟩ := powerOfTwoAligment_least size hsz
    obtain ⟨s', hs', k1, k2, k3, k4, k5⟩ := mem_alloc_fails s size hfail
    refine ⟨s', ?_, k1, k2, k3, k4, k5⟩
    rw [mem_realloc_unfold s p size hb0 hbw h1 h2 (by rw [hst]; decide), if_pos hst]
    rw [hj] at hcls ⊢
    have hne : ¬ (headerAt s (pageOf s.startPointer p)).classSize = 2 ^ j := by
      intro h
      exact hcls (by rw [h])
    simp only [hne, if_false, hs']
    simp
  · intro hst hold hsz hgrow hpool
    have hbig : PAGE_SIZE < size := by
      have := Nat.div_pos hold (by decide : 0 < PAGE_SIZE)
      unfold PAGE_SIZE at hgrow this ⊢
      omega
    obtain ⟨m, hm, hlt⟩ := powerOfTwoAligment_pages size hbig hsz
    have hmd : PAGE_SIZE * m / PAGE_SIZE = m := Nat.mul_div_cancel_left _ (by decide)
    have hceil : (size + (PAGE_SIZE - 1)) / PAGE_SIZE ≤ m := by
      unfold PAGE_SIZE at hlt ⊢
      omega
    rw [mem_realloc_unfold s p size hb0 hbw h1 h2 (by rw [hst]; decide)]
    have hnd : ¬ (headerAt s (pageOf s.startPointer p)).status = pageStatus.Divided := by
      rw [hst]; decide
    rw [if_neg hnd, if_pos hst, hm]
    have c1 : ¬ (headerAt s (pageOf s.startPointer p)).classSize / PAGE_SIZE = m := by omega
    have c2 : ¬ size ≤ PAGE_SIZE / 2 := by unfold PAGE_SIZE at hbig ⊢; omega
    have c3 : (headerAt s (pageOf s.startPointer p)).classSize / PAGE_SIZE < m := by omega
    have c4 : m - (headerAt s (pageOf s.startPointer p)).classSize / PAGE_SIZE
        > s.freePages.length := by omega
    simp only [hmd, c1, c2, c3, c4, if_false, if_true]

/-- C15 (witness): (a) the failed resize of the counterexample, and (b) the
three-page block `65536` of `mem_alloc(9000)` resized to 13000 bytes with an
empty pool. -/
theorem C15_resize_failure_witness :
    (∃ s', mem_realloc (stateAfter [Call.alloc 400, Call.alloc 12288] 65536) 65537 1
          = some (65537, s')
        ∧ s'.startPointer = (stateAfter [Call.alloc 400, Call.alloc 12288] 65536).startPointer
        ∧ s'.memory = (stateAfter [Call.alloc 400, Call.alloc 12288] 65536).memory
        ∧ s'.freePages = (stateAfter [Call.alloc 400, Call.alloc 12288] 65536).freePages
        ∧ s'.headers = (stateAfter [Call.alloc 400, Call.alloc 12288] 65536).headers
        ∧ ∀ k, bucket s' k
            = bucket (stateAfter [Call.alloc 400, Call.alloc 12288] 65536) k)
    ∧ mem_realloc (stateAfter [Call.alloc 9000, Call.alloc 400] 65536) 65536 13000
        = some (0, stateAfter [Call.alloc 9000, Call.alloc 400] 65536) :=
  ⟨(C15_resize_failure (stateAfter [Call.alloc 400, Call.alloc 12288] 65536) 65537 1
      (by decide) (by decide) (by decide) (by decide)).1 (by decide) (by decide)
      (Or.inr (Or.inl ⟨by decide, ⟨4, by decide, by decide⟩, by decide⟩)),
   (C15_resize_failure (stateAfter [Call.alloc 9000, Call.alloc 400] 65536) 65536 13000
      (by decide) (by decide) (by decide) (by decide)).2 (by decide) (by decide)
      (by decide) (by decide) (by decide)⟩
end PageAllocator
